import Mathlib

/-!
# Grouping of accrual reports: `processReturns` and `groupData`

A shallow embedding of `src/main.go` and the properties its specification states.

Conventions of the embedding.

* A Go `string` holding valid UTF-8 is a Lean `String`; ranging over its runes is ranging
  over `String.data`.  The byte-level operations of the source split and filter on ASCII
  characters, where bytes and runes agree; the buffer limit of the scanner counts the
  bytes of the UTF-8 encoding (`utf8Length`).
* Amounts.  The passes are embedded twice.  `processReturns64` and `groupData64` hold the
  amounts as the `float64` values of the program (`Float64`: every parse, division and
  addition rounds to the nearest value, ties to even; infinities, NaN and the negative
  zero are kept); the statements that give the number written into a cell are about them.
  `processReturns` and `groupData` hold the amounts as exact rationals (`ℚ`), with the
  range error of `strconv.ParseFloat` as the one float effect; they carry the statements
  about keys, headers, markers, shapes and outcomes, and the statement that stipulates
  exact arithmetic.
* A Go `map` is an association list in order of first insertion (`mapSet`, `mapGet`).
  The source never depends on iteration order except for the order of the output rows,
  which is unspecified; the statements below describe the rows of a table one by one, and
  where two runs are compared both list their rows in this order.
* The rule file is given by its text; `readGroupingSettings` cuts it into lines as
  `bufio.Scanner` does and returns no list when the scanner stops with an error.
* A slice index out of range is a run-time panic: `Outcome.indexOutOfRange`.
-/

set_option autoImplicit false

namespace Ozon

/-! ## Key Normalizer (`main.go` 185-190 and 388-391) -/

/-- The segments of `strings.Split(id, "-")`: always at least one segment. -/
def splitDash : List Char → List (List Char)
  | [] => [[]]
  | c :: cs =>
    if c = '-' then [] :: splitDash cs
    else
      match splitDash cs with
      | [] => [[c]]
      | p :: ps => (c :: p) :: ps

/-- The text of `strings.Join(parts, "-")`. -/
def joinDash : List (List Char) → List Char
  | [] => []
  | [p] => p
  | p :: q :: ps => p ++ '-' :: joinDash (q :: ps)

/-- The identifier correction of both passes:
`parts := strings.Split(id, "-"); if len(parts) > 2 { id = strings.Join(parts[:2], "-") }`. -/
def normalizeID (id : String) : String :=
  let parts := splitDash id.data
  if parts.length > 2 then String.mk (joinDash (parts.take 2)) else id

/-! ## Money Parser (`main.go` 192-205 and 373-386) -/

/-- The test of the `strings.Map` callback: `r == '-' || (r >= '0' && r <= '9')`. -/
def keepRune (r : Char) : Bool :=
  r == '-' || (decide ('0' ≤ r) && decide (r ≤ '9'))

/-- The filter `strings.Map(..., sumStr)`: the runes failing the test are dropped. -/
def cleanSum (sumStr : String) : String :=
  String.mk (sumStr.data.filter keepRune)

/-- The ASCII decimal digits. -/
def isDigit (r : Char) : Bool :=
  decide ('0' ≤ r) && decide (r ≤ '9')

/-- The digit scan of `strconv.ParseFloat` (`readFloat`): consumes decimal digits,
accumulating the mantissa, and stops at the first other character.  Returns the mantissa,
whether a digit was seen, and the unread rest. -/
def readDigits : List Char → Nat → Bool → Nat × Bool × List Char
  | [], mant, saw => (mant, saw, [])
  | c :: cs, mant, saw =>
    if isDigit c then readDigits cs (10 * mant + (c.toNat - '0'.toNat)) true
    else (mant, saw, c :: cs)

/-- The least magnitude that `strconv.ParseFloat(s, 64)` rejects with `ErrRange`: half an
ulp above the largest finite `float64`, a tie that rounds up to `2^1024`. -/
def float64Overflow : Nat := 2 ^ 1024 - 2 ^ 970

/-- The unsigned part of `strconv.ParseFloat`: the digits are read, a missing digit or an
unread rest is a syntax error, a magnitude out of the `float64` range is `ErrRange`. -/
def parseMantissa (body : List Char) : Option Nat :=
  match readDigits body 0 false with
  | (mant, sawdigits, rest) =>
    if !sawdigits then none
    else if !rest.isEmpty then none
    else if float64Overflow ≤ mant then none
    else some mant

/-- The integer that `strconv.ParseFloat(s, 64)` converts when `err == nil`, as an exact
rational, for texts over the alphabet the filter leaves (`-` and decimal digits); `none`
when `err != nil`.  On that alphabet the grammar of `ParseFloat` is an optional sign
followed by digits.  The `float64` the conversion returns is `parseFloat64`. -/
def parseFloat (s : String) : Option ℚ :=
  match s.data with
  | '-' :: rest => (parseMantissa rest).map (fun (mant : Nat) => -(mant : ℚ))
  | body => (parseMantissa body).map (fun (mant : Nat) => (mant : ℚ))

/-- The amount of a cell in exact arithmetic: filter, `ParseFloat`, then `sum = sum / 100`;
`none` when `err != nil` (the row is skipped).  The `float64` amount is `parseSum64`. -/
def parseSum (sumStr : String) : Option ℚ :=
  (parseFloat (cleanSum sumStr)).map (fun sum => sum / 100)

/-! ### Notions used to state the properties of the parser and the normalizer -/

/-- The value of a list of decimal digits read as a base-10 numeral. -/
def decimalValue (ds : List Char) : Nat :=
  ds.foldl (fun acc d => 10 * acc + (d.toNat - '0'.toNat)) 0

/-- A valid base-10 signed integer: an optional single leading `-`, then one or more
decimal digits. -/
def IsSignedDecimal (s : List Char) : Prop :=
  ∃ ds : List Char, ds ≠ [] ∧ (∀ d ∈ ds, isDigit d = true) ∧ (s = ds ∨ s = '-' :: ds)

/-- The magnitude of a signed decimal: the value of its digits. -/
def magnitude (s : List Char) : Nat :=
  match s with
  | '-' :: ds => decimalValue ds
  | ds => decimalValue ds

/-- The integer a signed decimal denotes. -/
def signedValue (s : List Char) : Int :=
  match s with
  | '-' :: ds => -(decimalValue ds : Int)
  | ds => (decimalValue ds : Int)

/-- A cell of 310 digits, `1` followed by 309 zeros: the integer `10^309`, which is larger
than every finite `float64`. -/
def hugeCell : String := String.mk ('1' :: List.replicate 309 '0')

/-! ## `float64` arithmetic

The amounts the passes write are `float64` values: the text of a cell is converted by
`strconv.ParseFloat`, divided by 100 and added to an accumulator with `+=`.  Every one of
these operations rounds its exact result to the nearest `float64`, ties to the even
significand (IEEE 754 binary64: 53 significant bits, exponents of the unit in the last
place from -1074 to 971). -/

/-- A `float64` value: a finite number, given by the rational it denotes, with `finite 0`
for `+0`; the negative zero `-0`; an infinity; or a NaN. -/
inductive Float64 where
  | finite (v : ℚ)
  | negZero
  | posInf
  | negInf
  | nan
  deriving DecidableEq

/-- The natural number nearest to the fraction `n / d`, a tie going to the even one. -/
def roundHalfEven (n d : Nat) : Nat :=
  let q := n / d
  let r := n % d
  if 2 * r < d then q
  else if d < 2 * r then q + 1
  else if q % 2 = 0 then q else q + 1

/-- The number of binary digits of `n`, counted with at most `fuel` halvings; `fuel = n`
is always enough. -/
def bitLength : Nat → Nat → Nat
  | 0, _ => 0
  | fuel + 1, n => if n = 0 then 0 else bitLength fuel (n / 2) + 1

/-- The integer part of the binary logarithm of a positive natural number. -/
def log2Nat (n : Nat) : Nat := bitLength n n - 1

/-- The integer part of the binary logarithm of `n / d`, for positive `n` and `d`: with
`e` the difference of the logarithms of `n` and `d`, the fraction lies between `2^(e-1)`
and `2^(e+1)`, and one comparison decides. -/
def floorLog2 (n d : Nat) : Int :=
  let e : Int := (log2Nat n : Int) - (log2Nat d : Int)
  if 0 ≤ e then (if n < d * 2 ^ e.toNat then e - 1 else e)
  else (if n * 2 ^ (-e).toNat < d then e - 1 else e)

/-- The exponent of the unit in the last place of the `float64` values at the magnitude
`n / d`: 53 significant bits, and no unit finer than `2^-1074`. -/
def ulpExponent (n d : Nat) : Int :=
  max (floorLog2 n d - 52) (-1074)

/-- The multiple of the unit in the last place nearest to `n / d`, ties to even. -/
def roundMagnitude (n d : Nat) : ℚ :=
  let p := ulpExponent n d
  if 0 ≤ p then ((roundHalfEven n (d * 2 ^ p.toNat) * 2 ^ p.toNat : Nat) : ℚ)
  else ((roundHalfEven (n * 2 ^ (-p).toNat) d : Nat) : ℚ) / ((2 ^ (-p).toNat : Nat) : ℚ)

/-- The `float64` nearest to the exact result `x` of an operation, ties to even; a magnitude
that rounds to `2^1024` or more is an infinity, and a negative result that rounds to zero
is `-0`.  An exact result 0 is given as `+0`. -/
def roundFloat64 (x : ℚ) : Float64 :=
  let v := roundMagnitude x.num.natAbs x.den
  if (2 : ℚ) ^ 1024 ≤ v then (if x < 0 then Float64.negInf else Float64.posInf)
  else if x < 0 then (if v = 0 then Float64.negZero else Float64.finite (-v))
  else Float64.finite v

/-- The negation `-x` of a `float64` value. -/
def float64Neg : Float64 → Float64
  | Float64.finite v => if v = 0 then Float64.negZero else Float64.finite (-v)
  | Float64.negZero => Float64.finite 0
  | Float64.posInf => Float64.negInf
  | Float64.negInf => Float64.posInf
  | Float64.nan => Float64.nan

/-- The sum `a + b` of two `float64` values: the exact sum of two finite values, rounded
(an exact sum 0 is `+0`); `-0 + x` is `x`; infinities of opposite sign give NaN. -/
def float64Add : Float64 → Float64 → Float64
  | Float64.finite a, Float64.finite b => roundFloat64 (a + b)
  | Float64.negZero, x => x
  | x, Float64.negZero => x
  | Float64.nan, _ => Float64.nan
  | _, Float64.nan => Float64.nan
  | Float64.posInf, Float64.negInf => Float64.nan
  | Float64.negInf, Float64.posInf => Float64.nan
  | Float64.posInf, _ => Float64.posInf
  | _, Float64.posInf => Float64.posInf
  | Float64.negInf, _ => Float64.negInf
  | _, Float64.negInf => Float64.negInf

/-- The quotient `sum / 100` of a `float64` value. -/
def float64Div100 : Float64 → Float64
  | Float64.finite a => roundFloat64 (a / 100)
  | x => x

/-- The test `x != 0` on a `float64` value: false for `+0` and `-0`, true for every other
value, NaN included. -/
def float64NonZero : Float64 → Bool
  | Float64.finite a => decide (a ≠ 0)
  | Float64.negZero => false
  | _ => true

/-! ## Money Parser with `float64` values (`main.go` 192-205 and 373-386) -/

/-- The range check of `strconv.ParseFloat`: an infinite result is reported as
`ErrRange`. -/
def finiteOrErrRange : Float64 → Option Float64
  | Float64.finite v => some (Float64.finite v)
  | Float64.negZero => some Float64.negZero
  | _ => none

/-- The unsigned part of `strconv.ParseFloat(s, 64)` on digits: a missing digit or an
unread rest is a syntax error; the value is the `float64` nearest to the decimal integer,
with the sign applied to it, and `ErrRange` is returned when that is an infinity.  `none`
stands for `err != nil`. -/
def parseDigits64 (negative : Bool) (body : List Char) : Option Float64 :=
  match readDigits body 0 false with
  | (mant, sawdigits, rest) =>
    if !sawdigits then none
    else if !rest.isEmpty then none
    else
      finiteOrErrRange
        (if negative then float64Neg (roundFloat64 (mant : ℚ)) else roundFloat64 (mant : ℚ))

/-- The result of `strconv.ParseFloat(s, 64)` when `err == nil`, for texts over the alphabet
the filter leaves (`-` and decimal digits); `none` when `err != nil`. -/
def parseFloat64 (s : String) : Option Float64 :=
  match s.data with
  | '-' :: rest => parseDigits64 true rest
  | body => parseDigits64 false body

/-- The amount of a cell as the passes compute it: filter, `ParseFloat`, then
`sum = sum / 100` in `float64`; `none` when `err != nil` (the row is skipped). -/
def parseSum64 (sumStr : String) : Option Float64 :=
  (parseFloat64 (cleanSum sumStr)).map float64Div100

/-- The `float64` a signed decimal denotes: the `float64` nearest to its magnitude, with
its sign applied. -/
def float64OfDecimal (s : List Char) : Float64 :=
  match s with
  | '-' :: ds => float64Neg (roundFloat64 (decimalValue ds : ℚ))
  | ds => roundFloat64 (decimalValue ds : ℚ)

/-! ## Go maps, rows and sheets -/

section GoMap

variable {κ α : Type} [DecidableEq κ]

/-- The lookup `v, exists := m[k]`. -/
def mapGet : List (κ × α) → κ → Option α
  | [], _ => none
  | (k', v) :: m, k => if k' = k then some v else mapGet m k

/-- The assignment `m[k] = v`: replaces the value of an existing key, adds a new key. -/
def mapSet : List (κ × α) → κ → α → List (κ × α)
  | [], k, v => [(k, v)]
  | (k', v') :: m, k, v => if k' = k then (k', v) :: m else (k', v') :: mapSet m k v

end GoMap

/-- The value of a written cell: `SetCellValue` is called with a string or a `float64`; a
cell that is never written stays empty. -/
inductive Cell where
  | text (s : String)
  | number (v : ℚ)
  | empty
  deriving DecidableEq

/-- The contents of an output sheet: the header (row 1) and the data rows below it, each a
list of cells from column A on. -/
structure Table where
  header : List String
  rows : List (List Cell)
  deriving DecidableEq

/-- How a pass ends; `α` is what it leaves behind when it runs to its end. -/
inductive Outcome (α : Type) where
  /-- `len(rows) < 3`: the pass returns before it touches the output sheet. -/
  | notEnoughData
  /-- A required column is missing: the pass returns after it created the empty sheet. -/
  | missingColumn (col : String)
  /-- A slice index out of range: run-time panic. -/
  | indexOutOfRange
  /-- The pass ran to its end. -/
  | written (t : α)
  deriving DecidableEq

/-- The rule table entry `GroupingSetting`. -/
structure GroupingSetting where
  SourceColumn : String
  TargetColumn : String
  MarkAsD : Bool
  deriving DecidableEq

/-- The map `colIndexes`: `for i, header := range headers { colIndexes[header] = i + 1 }`. -/
def colIndexes (headers : List String) : List (String × Nat) :=
  headers.enum.foldl (fun m p => mapSet m p.2 (p.1 + 1)) []

/-- The slice access `row[i]` for a Go `int` index: `none` is the out-of-range panic. -/
def index (row : List String) (i : Int) : Option String :=
  if i < 0 then none else row[i.toNat]?

/-- The cell `row[colIndexes[name]-1]`; a missing key reads as `0`, as in Go. -/
def cellAt (colIndexes : List (String × Nat)) (row : List String) (name : String) :
    Option String :=
  index row ((((mapGet colIndexes name).getD 0 : Nat) : Int) - 1)

/-- The check of the required columns: the first one missing from `colIndexes`, if any. -/
def firstMissing (colIndexes : List (String × Nat)) (requiredCols : List String) :
    Option String :=
  requiredCols.find? (fun col => (mapGet colIndexes col).isNone)

/-! ## Returns Extractor: `processReturns` (`main.go` 130-262)

The amounts of this section and the next are exact rationals; the same passes with
`float64` amounts follow them. -/

/-- The record `ReturnData`, its sum an exact rational. -/
structure ReturnData where
  ID : String
  Sum : ℚ
  FullData : List String
  deriving DecidableEq

/-- The body of the loop over `rows[2:]` (`main.go` 175-219); `none` is a panic. -/
def returnsStep (headers : List String) (colIndexes : List (String × Nat))
    (returnsMap : List (String × ReturnData)) (row : List String) :
    Option (List (String × ReturnData)) :=
  if row.length < headers.length then some returnsMap
  else
    match cellAt colIndexes row "Группа услуг" with
    | none => none
    | some group =>
      if group ≠ "Возвраты" then some returnsMap
      else
        match cellAt colIndexes row "ID начисления" with
        | none => none
        | some rawID =>
          let id := normalizeID rawID
          match cellAt colIndexes row "Сумма итого, руб" with
          | none => none
          | some sumStr =>
            match parseSum sumStr with
            | none => some returnsMap
            | some sum =>
              match mapGet returnsMap id with
              | some existing =>
                some (mapSet returnsMap id
                  (ReturnData.mk existing.ID (existing.Sum + sum) existing.FullData))
              | none => some (mapSet returnsMap id (ReturnData.mk id sum row))

/-- The header of the returns sheet: the input header without "Тип начисления". -/
def outputHeaders (headers : List String) : List String :=
  headers.filter (fun header => header ≠ "Тип начисления")

/-- The cell written under one header of an output row (`main.go` 244-255); `none` is a
panic. -/
def returnsCell (colIndexes : List (String × Nat)) (ret : ReturnData) (header : String) :
    Option Cell :=
  if header = "ID начисления" then some (Cell.text ret.ID)
  else if header = "Сумма итого, руб" then some (Cell.number ret.Sum)
  else
    let origIndex : Int := (((mapGet colIndexes header).getD 0 : Nat) : Int) - 1
    if origIndex < (ret.FullData.length : Int) then
      (index ret.FullData origIndex).map Cell.text
    else some Cell.empty

/-- One output row of the returns sheet (`main.go` 237-259). -/
def returnsRow (headers : List String) (colIndexes : List (String × Nat)) (ret : ReturnData) :
    Option (List Cell) :=
  (outputHeaders headers).mapM (returnsCell colIndexes ret)

/-- The list `requiredCols` of `processReturns`. -/
def returnsRequired : List String := ["ID начисления", "Группа услуг", "Сумма итого, руб"]

/-- The pass `processReturns` on the rows of the sheet "Начисления". -/
def processReturns (rows : List (List String)) : Outcome Table :=
  if rows.length < 3 then Outcome.notEnoughData
  else
    let headers := rows.getD 1 []
    let colIndexes := colIndexes headers
    match firstMissing colIndexes returnsRequired with
    | some col => Outcome.missingColumn col
    | none =>
      match (rows.drop 2).foldlM (returnsStep headers colIndexes) [] with
      | none => Outcome.indexOutOfRange
      | some returnsMap =>
        match returnsMap.mapM (fun p => returnsRow headers colIndexes p.2) with
        | none => Outcome.indexOutOfRange
        | some outRows => Outcome.written (Table.mk (outputHeaders headers) outRows)

/-! ## Grouping Aggregator: `groupData` (`main.go` 264-465)

The maps `dColumns` and `headerIndexes` of the source are written and never read; they are
left out. -/

/-- The accrual type of the operator-error cancellation. -/
def cancellation : String := "Обработка операционных ошибок продавца: отмена"

/-- The body of the first loop over `rows[2:]` (`main.go` 302-311), which collects
`uniqueTypes`; `none` is a panic. -/
def uniqueTypesStep (headers : List String) (colIndexes : List (String × Nat))
    (uniqueTypes : List (String × Bool)) (row : List String) : Option (List (String × Bool)) :=
  if headers.length ≤ row.length then
    match cellAt colIndexes row "Группа услуг" with
    | none => none
    | some group =>
      if group = "Возвраты" then some uniqueTypes
      else
        match cellAt colIndexes row "Тип начисления" with
        | none => none
        | some tipNach => some (mapSet uniqueTypes tipNach true)
  else some uniqueTypes

/-- The map `columnMapping` (`main.go` 313-316): a later entry overwrites an earlier one. -/
def columnMapping (groupingSettings : List GroupingSetting) :
    List (String × GroupingSetting) :=
  groupingSettings.foldl (fun m setting => mapSet m setting.SourceColumn setting) []

/-- The pair `targetColumn, markAsD` of an accrual type (`main.go` 400-407, and 321-328). -/
def resolve (columnMapping : List (String × GroupingSetting)) (tipNach : String) :
    String × Bool :=
  match mapGet columnMapping tipNach with
  | some setting => (setting.TargetColumn, setting.MarkAsD)
  | none => (tipNach, false)

/-- The set `finalColumns` (`main.go` 318-329). -/
def finalColumns (columnMapping : List (String × GroupingSetting))
    (uniqueTypes : List (String × Bool)) : List (String × Bool) :=
  uniqueTypes.foldl (fun fc p => mapSet fc (resolve columnMapping p.1).1 true) []

/-- The result of `sort.Strings`: the sorted permutation of the list.  Go compares strings
bytewise, which on UTF-8 text is the order of the code points, the order of `String`. -/
def sortStrings (l : List String) : List String :=
  l.insertionSort (fun a b => a ≤ b)

/-- The header `groupHeaders` before pruning (`main.go` 331-338). -/
def groupHeaders (columnMapping : List (String × GroupingSetting))
    (uniqueTypes : List (String × Bool)) : List String :=
  ["Вид", "ID начисления", "Отмена"] ++
    sortStrings ((finalColumns columnMapping uniqueTypes).map Prod.fst)

/-- The record `GroupData`, its accumulators exact rationals. -/
structure GroupData where
  Vid : String
  ID : String
  Otmena : ℚ
  Columns : List (String × ℚ)
  deriving DecidableEq

/-- The end of the body of the second loop (`main.go` 393-419), after the amount was parsed
and the identifier corrected: the record of `id` (created when the key is new) gets the
amount in `Otmena` or in `Columns[targetColumn]`, and its `Vid`. -/
def accumulate (columnMapping : List (String × GroupingSetting))
    (groups : List (String × GroupData)) (id tipNach : String) (sum : ℚ) :
    List (String × GroupData) :=
  let data : GroupData :=
    match mapGet groups id with
    | some data => data
    | none => GroupData.mk "" id 0 []
  let target := resolve columnMapping tipNach
  if tipNach = cancellation then
    mapSet groups id (GroupData.mk data.Vid data.ID (data.Otmena + sum) data.Columns)
  else
    let columns := mapSet data.Columns target.1 ((mapGet data.Columns target.1).getD 0 + sum)
    let vid := if target.2 = true ∧ sum ≠ 0 then "Д" else data.Vid
    mapSet groups id (GroupData.mk vid data.ID data.Otmena columns)

/-- The body of the second loop over `rows[2:]` (`main.go` 359-420); `none` is a panic. -/
def groupStep (headers : List String) (colIndexes : List (String × Nat))
    (columnMapping : List (String × GroupingSetting))
    (groups : List (String × GroupData)) (row : List String) :
    Option (List (String × GroupData)) :=
  if row.length < headers.length then some groups
  else
    match cellAt colIndexes row "Группа услуг" with
    | none => none
    | some group =>
      if group = "Возвраты" then some groups
      else
        match cellAt colIndexes row "ID начисления" with
        | none => none
        | some rawID =>
          match cellAt colIndexes row "Тип начисления" with
          | none => none
          | some tipNach =>
            match cellAt colIndexes row "Сумма итого, руб" with
            | none => none
            | some sumStr =>
              match parseSum sumStr with
              | none => some groups
              | some sum => some (accumulate columnMapping groups (normalizeID rawID) tipNach sum)

/-- The value written for a record under a dynamic header: `data.Columns[header]`. -/
def columnValue (data : GroupData) (header : String) : ℚ :=
  (mapGet data.Columns header).getD 0

/-- The row written for one record (`main.go` 432-441). -/
def groupRow (dynamic : List String) (data : GroupData) : List Cell :=
  [Cell.text data.Vid, Cell.text data.ID, Cell.number data.Otmena] ++
    dynamic.map (fun header => Cell.number (columnValue data header))

/-- The map `columnHasData` after the loop that writes the rows (`main.go` 424-448). -/
def columnHasData (headers : List String) (groups : List (String × GroupData)) :
    List (Nat × Bool) :=
  let init : List (Nat × Bool) :=
    (List.range' 4 (headers.length - 3)).foldl (fun m col => mapSet m col false) []
  groups.foldl
    (fun m p =>
      (headers.drop 3).enum.foldl
        (fun m2 q => if columnValue p.2 q.2 ≠ 0 then mapSet m2 (q.1 + 4) true else m2) m)
    init

/-- The list `colsToDelete` (`main.go` 451-456): from the last column down to column 4. -/
def colsToDelete (headers : List String) (columnHasData : List (Nat × Bool)) : List Nat :=
  (List.range' 4 (headers.length - 3)).reverse.filter
    (fun col => !((mapGet columnHasData col).getD false))

/-- The effect of `RemoveCol` on the sheet: column `col` (counted from 1) is removed and
the columns to its right move one place to the left. -/
def removeCol (sheet : Table) (col : Nat) : Table :=
  Table.mk (sheet.header.eraseIdx (col - 1)) (sheet.rows.map (fun r => r.eraseIdx (col - 1)))

/-- The list `requiredCols` of `groupData`. -/
def groupRequired : List String :=
  ["ID начисления", "Группа услуг", "Тип начисления", "Сумма итого, руб"]

/-- The first part of `groupData` (`main.go` 264-448): the sheet "grouping" as it is written
before any column is removed, header and one row for each record, and the records. -/
def groupSheet (rows : List (List String)) (groupingSettings : List GroupingSetting) :
    Outcome (Table × List (String × GroupData)) :=
  if rows.length < 3 then Outcome.notEnoughData
  else
    let headers := rows.getD 1 []
    let colIndexes := colIndexes headers
    match firstMissing colIndexes groupRequired with
    | some col => Outcome.missingColumn col
    | none =>
      match (rows.drop 2).foldlM (uniqueTypesStep headers colIndexes) [] with
      | none => Outcome.indexOutOfRange
      | some uniqueTypes =>
        let mapping := columnMapping groupingSettings
        let header := groupHeaders mapping uniqueTypes
        match (rows.drop 2).foldlM (groupStep headers colIndexes mapping) [] with
        | none => Outcome.indexOutOfRange
        | some groups =>
          Outcome.written
            (Table.mk header (groups.map (fun p => groupRow (header.drop 3) p.2)), groups)

/-- The pass `groupData` on the rows of the sheet "Начисления" and the rule table: the sheet
is written, then the columns without data are removed (`main.go` 450-462). -/
def groupData (rows : List (List String)) (groupingSettings : List GroupingSetting) :
    Outcome Table :=
  match groupSheet rows groupingSettings with
  | Outcome.notEnoughData => Outcome.notEnoughData
  | Outcome.missingColumn col => Outcome.missingColumn col
  | Outcome.indexOutOfRange => Outcome.indexOutOfRange
  | Outcome.written (sheet, groups) =>
    Outcome.written
      ((colsToDelete sheet.header (columnHasData sheet.header groups)).foldl removeCol sheet)

/-! ## The two passes with `float64` amounts

The passes once more, with the amounts as the `float64` values the program holds: the
parse rounds, `sum / 100` rounds, and every `+=` rounds.  The statements that give the
number written into a cell are about these definitions. -/

/-- The value of a written cell when the numbers are `float64` values. -/
inductive Cell64 where
  | text (s : String)
  | number (v : Float64)
  | empty
  deriving DecidableEq

/-- The contents of an output sheet with `float64` numbers: header and data rows. -/
structure Table64 where
  header : List String
  rows : List (List Cell64)
  deriving DecidableEq

/-- The record `ReturnData` with its `float64` sum. -/
structure ReturnData64 where
  ID : String
  Sum : Float64
  FullData : List String
  deriving DecidableEq

/-- The body of the loop over `rows[2:]` of `processReturns` (`main.go` 175-219); `none` is
a panic.  A new key stores the parsed amount, a known key gets `existing.Sum += sum`. -/
def returnsStep64 (headers : List String) (colIndexes : List (String × Nat))
    (returnsMap : List (String × ReturnData64)) (row : List String) :
    Option (List (String × ReturnData64)) :=
  if row.length < headers.length then some returnsMap
  else
    match cellAt colIndexes row "Группа услуг" with
    | none => none
    | some group =>
      if group ≠ "Возвраты" then some returnsMap
      else
        match cellAt colIndexes row "ID начисления" with
        | none => none
        | some rawID =>
          let id := normalizeID rawID
          match cellAt colIndexes row "Сумма итого, руб" with
          | none => none
          | some sumStr =>
            match parseSum64 sumStr with
            | none => some returnsMap
            | some sum =>
              match mapGet returnsMap id with
              | some existing =>
                some (mapSet returnsMap id
                  (ReturnData64.mk existing.ID (float64Add existing.Sum sum) existing.FullData))
              | none => some (mapSet returnsMap id (ReturnData64.mk id sum row))

/-- The cell written under one header of an output row (`main.go` 244-255); `none` is a
panic. -/
def returnsCell64 (colIndexes : List (String × Nat)) (ret : ReturnData64) (header : String) :
    Option Cell64 :=
  if header = "ID начисления" then some (Cell64.text ret.ID)
  else if header = "Сумма итого, руб" then some (Cell64.number ret.Sum)
  else
    let origIndex : Int := (((mapGet colIndexes header).getD 0 : Nat) : Int) - 1
    if origIndex < (ret.FullData.length : Int) then
      (index ret.FullData origIndex).map Cell64.text
    else some Cell64.empty

/-- One output row of the returns sheet (`main.go` 237-259). -/
def returnsRow64 (headers : List String) (colIndexes : List (String × Nat))
    (ret : ReturnData64) : Option (List Cell64) :=
  (outputHeaders headers).mapM (returnsCell64 colIndexes ret)

/-- The pass `processReturns` on the rows of the sheet "Начисления", with `float64`
amounts. -/
def processReturns64 (rows : List (List String)) : Outcome Table64 :=
  if rows.length < 3 then Outcome.notEnoughData
  else
    let headers := rows.getD 1 []
    let colIndexes := colIndexes headers
    match firstMissing colIndexes returnsRequired with
    | some col => Outcome.missingColumn col
    | none =>
      match (rows.drop 2).foldlM (returnsStep64 headers colIndexes) [] with
      | none => Outcome.indexOutOfRange
      | some returnsMap =>
        match returnsMap.mapM (fun p => returnsRow64 headers colIndexes p.2) with
        | none => Outcome.indexOutOfRange
        | some outRows => Outcome.written (Table64.mk (outputHeaders headers) outRows)

/-- The record `GroupData` with its `float64` accumulators. -/
structure GroupData64 where
  Vid : String
  ID : String
  Otmena : Float64
  Columns : List (String × Float64)
  deriving DecidableEq

/-- The end of the body of the second loop of `groupData` (`main.go` 393-419), after the
amount was parsed and the identifier corrected: the record of `id` (created with zero
accumulators when the key is new) gets `Otmena += sum` or `Columns[targetColumn] += sum`
(a missing column reads as 0), and its `Vid` when `markAsD && sum != 0`. -/
def accumulate64 (columnMapping : List (String × GroupingSetting))
    (groups : List (String × GroupData64)) (id tipNach : String) (sum : Float64) :
    List (String × GroupData64) :=
  let data : GroupData64 :=
    match mapGet groups id with
    | some data => data
    | none => GroupData64.mk "" id (Float64.finite 0) []
  let target := resolve columnMapping tipNach
  if tipNach = cancellation then
    mapSet groups id (GroupData64.mk data.Vid data.ID (float64Add data.Otmena sum) data.Columns)
  else
    let columns := mapSet data.Columns target.1
      (float64Add ((mapGet data.Columns target.1).getD (Float64.finite 0)) sum)
    let vid := if target.2 = true ∧ float64NonZero sum = true then "Д" else data.Vid
    mapSet groups id (GroupData64.mk vid data.ID data.Otmena columns)

/-- The body of the second loop over `rows[2:]` of `groupData` (`main.go` 359-420); `none`
is a panic. -/
def groupStep64 (headers : List String) (colIndexes : List (String × Nat))
    (columnMapping : List (String × GroupingSetting))
    (groups : List (String × GroupData64)) (row : List String) :
    Option (List (String × GroupData64)) :=
  if row.length < headers.length then some groups
  else
    match cellAt colIndexes row "Группа услуг" with
    | none => none
    | some group =>
      if group = "Возвраты" then some groups
      else
        match cellAt colIndexes row "ID начисления" with
        | none => none
        | some rawID =>
          match cellAt colIndexes row "Тип начисления" with
          | none => none
          | some tipNach =>
            match cellAt colIndexes row "Сумма итого, руб" with
            | none => none
            | some sumStr =>
              match parseSum64 sumStr with
              | none => some groups
              | some sum =>
                some (accumulate64 columnMapping groups (normalizeID rawID) tipNach sum)

/-- The value written for a record under a dynamic header: `data.Columns[header]`, which
is 0 for a column the record does not have. -/
def columnValue64 (data : GroupData64) (header : String) : Float64 :=
  (mapGet data.Columns header).getD (Float64.finite 0)

/-- The row written for one record (`main.go` 432-441). -/
def groupRow64 (dynamic : List String) (data : GroupData64) : List Cell64 :=
  [Cell64.text data.Vid, Cell64.text data.ID, Cell64.number data.Otmena] ++
    dynamic.map (fun header => Cell64.number (columnValue64 data header))

/-- The map `columnHasData` after the loop that writes the rows (`main.go` 424-448): a
column is marked when a value written into it satisfies `value != 0`. -/
def columnHasData64 (headers : List String) (groups : List (String × GroupData64)) :
    List (Nat × Bool) :=
  let init : List (Nat × Bool) :=
    (List.range' 4 (headers.length - 3)).foldl (fun m col => mapSet m col false) []
  groups.foldl
    (fun m p =>
      (headers.drop 3).enum.foldl
        (fun m2 q =>
          if float64NonZero (columnValue64 p.2 q.2) = true then mapSet m2 (q.1 + 4) true
          else m2) m)
    init

/-- The effect of `RemoveCol` on a sheet with `float64` numbers. -/
def removeCol64 (sheet : Table64) (col : Nat) : Table64 :=
  Table64.mk (sheet.header.eraseIdx (col - 1)) (sheet.rows.map (fun r => r.eraseIdx (col - 1)))

/-- The first part of `groupData` (`main.go` 264-448) with `float64` amounts: the sheet
"grouping" as it is written before any column is removed, and the records. -/
def groupSheet64 (rows : List (List String)) (groupingSettings : List GroupingSetting) :
    Outcome (Table64 × List (String × GroupData64)) :=
  if rows.length < 3 then Outcome.notEnoughData
  else
    let headers := rows.getD 1 []
    let colIndexes := colIndexes headers
    match firstMissing colIndexes groupRequired with
    | some col => Outcome.missingColumn col
    | none =>
      match (rows.drop 2).foldlM (uniqueTypesStep headers colIndexes) [] with
      | none => Outcome.indexOutOfRange
      | some uniqueTypes =>
        let mapping := columnMapping groupingSettings
        let header := groupHeaders mapping uniqueTypes
        match (rows.drop 2).foldlM (groupStep64 headers colIndexes mapping) [] with
        | none => Outcome.indexOutOfRange
        | some groups =>
          Outcome.written
            (Table64.mk header (groups.map (fun p => groupRow64 (header.drop 3) p.2)), groups)

/-- The pass `groupData` with `float64` amounts: the sheet is written, then the columns
without data are removed (`main.go` 450-462). -/
def groupData64 (rows : List (List String)) (groupingSettings : List GroupingSetting) :
    Outcome Table64 :=
  match groupSheet64 rows groupingSettings with
  | Outcome.notEnoughData => Outcome.notEnoughData
  | Outcome.missingColumn col => Outcome.missingColumn col
  | Outcome.indexOutOfRange => Outcome.indexOutOfRange
  | Outcome.written (sheet, groups) =>
    Outcome.written
      ((colsToDelete sheet.header (columnHasData64 sheet.header groups)).foldl removeCol64 sheet)

/-! ## Notions used in the statements about the two passes -/

/-- The header row of the source sheet: `rows[1]`. -/
def headerRow (rows : List (List String)) : List String := rows.getD 1 []

/-- The data rows of the source sheet: `rows[2:]`. -/
def dataRows (rows : List (List String)) : List (List String) := rows.drop 2

/-- The data rows that have at least as many cells as the header row. -/
def fullRows (rows : List (List String)) : List (List String) :=
  (dataRows rows).filter (fun row => decide ((headerRow rows).length ≤ row.length))

/-- The cell of a row under a column name, read as the passes read it; the empty text when
the row has no such cell. -/
def field (headers : List String) (row : List String) (name : String) : String :=
  (cellAt (colIndexes headers) row name).getD ""

/-- The parsed amount of a data row, when the row has an amount cell and it parses. -/
def rowAmount (headers : List String) (row : List String) : Option ℚ :=
  (cellAt (colIndexes headers) row "Сумма итого, руб").bind parseSum

/-- The normalized identifier of a data row, when the row has an identifier cell. -/
def rowKey (headers : List String) (row : List String) : Option String :=
  (cellAt (colIndexes headers) row "ID начисления").map normalizeID

/-- The rule of an accrual type: the last entry of the rule list whose source label equals
the accrual type, if there is one. -/
def ruleOf (settings : List GroupingSetting) (tipNach : String) : Option GroupingSetting :=
  settings.reverse.find? (fun setting => decide (setting.SourceColumn = tipNach))

/-- The target column an accrual type resolves to: the target label of its rule, or the
accrual type itself when no rule matches. -/
def targetOf (settings : List GroupingSetting) (tipNach : String) : String :=
  match ruleOf settings tipNach with
  | some setting => setting.TargetColumn
  | none => tipNach

/-- Whether the rule of an accrual type carries the special flag. -/
def flagOf (settings : List GroupingSetting) (tipNach : String) : Bool :=
  match ruleOf settings tipNach with
  | some setting => setting.MarkAsD
  | none => false

/-- A data row that is not a return: it has a category cell and it is not "Возвраты". -/
def isNonReturn (headers : List String) (row : List String) : Bool :=
  match cellAt (colIndexes headers) row "Группа услуг" with
  | some group => decide (group ≠ "Возвраты")
  | none => false

/-- The data rows that count for the cell of key `k` in column `t`: category not
"Возвраты", normalized identifier `k`, accrual type not the cancellation, amount parses,
accrual type resolves to `t`. -/
def isCategoryRow (headers : List String) (settings : List GroupingSetting) (k t : String)
    (row : List String) : Bool :=
  isNonReturn headers row && decide (rowKey headers row = some k) &&
    (rowAmount headers row).isSome &&
    (match cellAt (colIndexes headers) row "Тип начисления" with
      | some tipNach => decide (tipNach ≠ cancellation) && decide (targetOf settings tipNach = t)
      | none => false)

/-- The sum of the parsed amounts of the rows of a list that satisfy a condition. -/
def sumAmounts (headers : List String) (p : List String → Bool) (data : List (List String)) :
    ℚ :=
  ((data.filter p).map (fun row => (rowAmount headers row).getD 0)).sum

/-- The loop body of `groupData` on a row whose lookups are all in range. -/
def groupRead (headers : List String) (mapping : List (String × GroupingSetting))
    (groups : List (String × GroupData)) (row : List String) : List (String × GroupData) :=
  if row.length < headers.length then groups
  else if field headers row "Группа услуг" = "Возвраты" then groups
  else
    match parseSum (field headers row "Сумма итого, руб") with
    | none => groups
    | some sum =>
      accumulate mapping groups (normalizeID (field headers row "ID начисления"))
        (field headers row "Тип начисления") sum

/-- The body of the first loop of `groupData` on a row whose lookups are all in range. -/
def typesRead (headers : List String) (uniqueTypes : List (String × Bool))
    (row : List String) : List (String × Bool) :=
  if headers.length ≤ row.length then
    if field headers row "Группа услуг" = "Возвраты" then uniqueTypes
    else mapSet uniqueTypes (field headers row "Тип начисления") true
  else uniqueTypes

/-- The loop body of `processReturns` on a row whose lookups are all in range. -/
def returnsRead (headers : List String) (returnsMap : List (String × ReturnData))
    (row : List String) : List (String × ReturnData) :=
  if row.length < headers.length then returnsMap
  else if field headers row "Группа услуг" ≠ "Возвраты" then returnsMap
  else
    match parseSum (field headers row "Сумма итого, руб") with
    | none => returnsMap
    | some sum =>
      let id := normalizeID (field headers row "ID начисления")
      match mapGet returnsMap id with
      | some existing =>
        mapSet returnsMap id (ReturnData.mk existing.ID (existing.Sum + sum) existing.FullData)
      | none => mapSet returnsMap id (ReturnData.mk id sum row)

/-- The value accumulated for key `k` in target column `t`; `0` without a record. -/
def valueAt (groups : List (String × GroupData)) (k t : String) : ℚ :=
  match mapGet groups k with
  | some data => columnValue data t
  | none => 0

/-- The cancellation total accumulated for key `k`; `0` without a record. -/
def otmenaAt (groups : List (String × GroupData)) (k : String) : ℚ :=
  match mapGet groups k with
  | some data => data.Otmena
  | none => 0

/-- The marker of key `k`; empty without a record. -/
def vidAt (groups : List (String × GroupData)) (k : String) : String :=
  match mapGet groups k with
  | some data => data.Vid
  | none => ""

/-- Whether some record has a non-zero value under a dynamic header. -/
def hasData (groups : List (String × GroupData)) (header : String) : Bool :=
  groups.any (fun p => decide (columnValue p.2 header ≠ 0))

/-- The accrual types collected by the first loop of `groupData`. -/
def typesOf (rows : List (List String)) : List (String × Bool) :=
  (dataRows rows).foldl (typesRead (headerRow rows)) []

/-- The records built by the second loop of `groupData`. -/
def groupsOf (rows : List (List String)) (settings : List GroupingSetting) :
    List (String × GroupData) :=
  (dataRows rows).foldl (groupRead (headerRow rows) (columnMapping settings)) []

/-- The dynamic columns of the header before pruning. -/
def dynamicColumns (rows : List (List String)) (settings : List GroupingSetting) :
    List String :=
  sortStrings ((finalColumns (columnMapping settings) (typesOf rows)).map Prod.fst)

/-- The dynamic columns of the final header: those that hold a non-zero value. -/
def keptColumns (rows : List (List String)) (settings : List GroupingSetting) : List String :=
  (dynamicColumns rows settings).filter (hasData (groupsOf rows settings))

/-- The records built by the loop of `processReturns`. -/
def returnsOf (rows : List (List String)) : List (String × ReturnData) :=
  (dataRows rows).foldl (returnsRead (headerRow rows)) []

/-- The records are well formed: no key occurs twice and every record stores its key. -/
def WellKeyed (groups : List (String × GroupData)) : Prop :=
  (groups.map Prod.fst).Nodup ∧ ∀ p ∈ groups, p.2.ID = p.1

/-- What the second loop of `groupData` takes from a data row that it does not skip: the
normalized identifier, the accrual type and the amount. -/
def contribution (headers : List String) (row : List String) : Option (String × String × ℚ) :=
  if headers.length ≤ row.length ∧ isNonReturn headers row = true then
    match rowKey headers row, cellAt (colIndexes headers) row "Тип начисления",
      rowAmount headers row with
    | some id, some tipNach, some sum => some (id, tipNach, sum)
    | _, _, _ => none
  else none

/-- The data rows that count for the cancellation cell of key `k`: category not
"Возвраты", normalized identifier `k`, accrual type the cancellation, amount parses. -/
def isCancellationRow (headers : List String) (k : String) (row : List String) : Bool :=
  isNonReturn headers row && decide (rowKey headers row = some k) &&
    (rowAmount headers row).isSome &&
    decide (cellAt (colIndexes headers) row "Тип начисления" = some cancellation)

/-- The data rows with normalized key `k` that contribute to the grouping (category not
"Возвраты", amount parses), have a non-zero amount and an accrual type that maps through a
rule carrying the special flag. -/
def isFlaggedRow (headers : List String) (settings : List GroupingSetting) (k : String)
    (row : List String) : Bool :=
  isNonReturn headers row && decide (rowKey headers row = some k) &&
    (match rowAmount headers row with
      | some sum => decide (sum ≠ 0)
      | none => false) &&
    (match cellAt (colIndexes headers) row "Тип начисления" with
      | some tipNach => flagOf settings tipNach
      | none => false)

/-- The flagged rows whose accrual type is not the cancellation. -/
def isMarkingRow (headers : List String) (settings : List GroupingSetting) (k : String)
    (row : List String) : Bool :=
  isFlaggedRow headers settings k row &&
    decide (cellAt (colIndexes headers) row "Тип начисления" ≠ some cancellation)

/-- The data rows that count for the returns row of key `k`: category "Возвраты",
normalized identifier `k`, amount parses. -/
def isReturnRow (headers : List String) (k : String) (row : List String) : Bool :=
  decide (cellAt (colIndexes headers) row "Группа услуг" = some "Возвраты") &&
    decide (rowKey headers row = some k) && (rowAmount headers row).isSome

/-- The cell of an output row under a column name of the output header. -/
def cellUnder (header : List String) (r : List Cell) (name : String) : Option Cell :=
  r[header.indexOf name]?

/-- The cell written under one header of a returns row when no lookup panics. -/
def returnsCellRead (headers : List String) (ret : ReturnData) (header : String) : Cell :=
  if header = "ID начисления" then Cell.text ret.ID
  else if header = "Сумма итого, руб" then Cell.number ret.Sum
  else Cell.text (field headers ret.FullData header)

/-- The sum accumulated for key `k` in the returns map; `0` without a record. -/
def sumAt (returnsMap : List (String × ReturnData)) (k : String) : ℚ :=
  match mapGet returnsMap k with
  | some ret => ret.Sum
  | none => 0

/-- The returns records are well formed: no key occurs twice, every record stores its key
and retains a row that has a cell for every header column. -/
def WellKeyedReturns (headers : List String) (returnsMap : List (String × ReturnData)) :
    Prop :=
  (returnsMap.map Prod.fst).Nodup ∧
    ∀ p ∈ returnsMap, p.2.ID = p.1 ∧ headers.length ≤ p.2.FullData.length

/-! ## Further notions used in the statements -/

/-- The data rows that give a record for key `k` in the Grouping Aggregator: category not
"Возвраты", normalized identifier `k`, amount parses. -/
def isGroupedRow (headers : List String) (k : String) (row : List String) : Bool :=
  isNonReturn headers row && decide (rowKey headers row = some k) &&
    (rowAmount headers row).isSome

/-- The first part of `processReturns` (`main.go` 130-219): the map `returnsMap` as the
loop over `rows[2:]` leaves it. -/
def returnsLoop (rows : List (List String)) : Outcome (List (String × ReturnData)) :=
  if rows.length < 3 then Outcome.notEnoughData
  else
    let headers := rows.getD 1 []
    let colIndexes := colIndexes headers
    match firstMissing colIndexes returnsRequired with
    | some col => Outcome.missingColumn col
    | none =>
      match (rows.drop 2).foldlM (returnsStep headers colIndexes) [] with
      | none => Outcome.indexOutOfRange
      | some returnsMap => Outcome.written returnsMap

/-- The data rows with category "Возвраты" and normalized identifier `k`, whether their
amount parses or not. -/
def isReturnOfKey (headers : List String) (k : String) (row : List String) : Bool :=
  decide (cellAt (colIndexes headers) row "Группа услуг" = some "Возвраты") &&
    decide (rowKey headers row = some k)

/-! ## Rule Table reader (`main.go` 66-105)

The reader is embedded on the text of the rule file: `bufio.Scanner` cuts it into lines,
and stops with `ErrTooLong` at a line that does not fit its buffer of 64 KiB, in which case
`readGroupingSettings` returns `nil, err`.  Opening the file and reading it are taken to
succeed. -/

/-- The fields of `strings.Split(line, "#")`, as lists of runes. -/
def splitHash : List Char → List (List Char)
  | [] => [[]]
  | c :: cs =>
    if c = '#' then [] :: splitHash cs
    else
      match splitHash cs with
      | [] => [[c]]
      | p :: ps => (c :: p) :: ps

/-- The white space of `unicode.IsSpace`, which `strings.TrimSpace` removes: tab, line feed,
vertical tab, form feed, carriage return, space, U+0085, U+00A0, U+1680, U+2000 to U+200A,
U+2028, U+2029, U+202F, U+205F and U+3000. -/
def isSpace (r : Char) : Bool :=
  (decide (9 ≤ r.toNat) && decide (r.toNat ≤ 13)) || r.toNat == 32 || r.toNat == 0x85 ||
    r.toNat == 0xA0 || r.toNat == 0x1680 ||
    (decide (0x2000 ≤ r.toNat) && decide (r.toNat ≤ 0x200a)) || r.toNat == 0x2028 ||
    r.toNat == 0x2029 || r.toNat == 0x202f || r.toNat == 0x205f || r.toNat == 0x3000

/-- The text of `strings.TrimSpace(s)`: leading and trailing white space removed. -/
def trimSpace (s : String) : String :=
  String.mk ((s.data.dropWhile isSpace).reverse.dropWhile isSpace).reverse

/-- The slice `parts := strings.Split(line, "#")`. -/
def fieldsOf (line : String) : List String :=
  (splitHash line.data).map String.mk

/-- One iteration of the scanner loop of `readGroupingSettings`: a line with fewer than two
fields is skipped; otherwise the two labels are trimmed, the flag is
`len(parts) >= 3 && strings.TrimSpace(parts[2]) == "Д"`, and the entry is appended when
both labels are non-empty. -/
def settingsStep (settings : List GroupingSetting) (line : String) : List GroupingSetting :=
  let parts := fieldsOf line
  if parts.length < 2 then settings
  else
    let source := trimSpace (parts.getD 0 "")
    let target := trimSpace (parts.getD 1 "")
    let markAsD := decide (parts.length ≥ 3) && decide (trimSpace (parts.getD 2 "") = "Д")
    if source ≠ "" ∧ target ≠ "" then
      settings ++ [GroupingSetting.mk source target markAsD]
    else settings

/-- The limit `bufio.MaxScanTokenSize` of the scanner's buffer: 64 KiB. -/
def maxScanTokenSize : Nat := 64 * 1024

/-- The number of bytes of the UTF-8 encoding of a text. -/
def utf8Length (l : List Char) : Nat :=
  (l.map (fun c => c.utf8Size)).sum

/-- The pieces into which `bufio.ScanLines` cuts the text of a file: a line ends at a line
feed (U+000A), and what follows the last line feed is a line when it is not empty. -/
def rawLines : List Char → List (List Char)
  | [] => []
  | c :: cs =>
    if c = Char.ofNat 10 then [] :: rawLines cs
    else
      match rawLines cs with
      | [] => [[c]]
      | l :: ls => (c :: l) :: ls

/-- The function `dropCR` of `bufio.ScanLines`: one carriage return (U+000D) at the end of a line
is dropped. -/
def dropCR (l : List Char) : List Char :=
  if l.getLast? = some (Char.ofNat 13) then l.dropLast else l

/-- The lines `scanner.Text()` yields until `scanner.Scan()` returns false, when
`scanner.Err()` is nil; `none` when the scanner stops with `ErrTooLong`: a line of
`maxScanTokenSize` bytes or more, counted before its line feed, does not fit the buffer. -/
def scanLines (content : String) : Option (List String) :=
  if (rawLines content.data).all (fun l => decide (utf8Length l < maxScanTokenSize)) then
    some ((rawLines content.data).map (fun l => String.mk (dropCR l)))
  else none

/-- The result of `readGroupingSettings` on the text of the rule file: the rule list, or
`none` for `nil, err` when the scanner stopped with an error. -/
def readGroupingSettings (content : String) : Option (List GroupingSetting) :=
  (scanLines content).map (fun lines => lines.foldl settingsStep [])

/-- The text of a file made of the given lines, each ended by a line feed. -/
def fileOfLines (lines : List String) : String :=
  String.mk (lines.flatMap (fun l => l.data ++ [Char.ofNat 10]))

/-- A line that gives an entry, in the words of the specification: split on "#" it has at
least two fields, and field 0 and field 1 are not empty after trimming. -/
def specGivesEntry (line : String) : Bool :=
  decide (2 ≤ (fieldsOf line).length ∧ trimSpace ((fieldsOf line).getD 0 "") ≠ "" ∧
    trimSpace ((fieldsOf line).getD 1 "") ≠ "")

/-- The entry of such a line, in the words of the specification: source label the trimmed
field 0, target label the trimmed field 1, special flag set if and only if a field 2
exists and its trimmed text is exactly "Д". -/
def specEntry (line : String) : GroupingSetting :=
  GroupingSetting.mk (trimSpace ((fieldsOf line).getD 0 ""))
    (trimSpace ((fieldsOf line).getD 1 ""))
    (decide (((fieldsOf line)[2]?).map trimSpace = some "Д"))

/-! ## Totals of the two output tables -/

/-- The number in a cell; a cell that holds a text or nothing counts as zero. -/
def cellValue : Cell → ℚ
  | Cell.number v => v
  | Cell.text _ => 0
  | Cell.empty => 0

/-- The sum of all cancellation cells and all dynamic-column cells of a grouping table: the
cells of every row from the third column on. -/
def groupingTotal (T : Table) : ℚ :=
  (T.rows.map (fun r => ((r.drop 2).map cellValue).sum)).sum

/-- The amount cells of a row of the returns table: the cells in the columns whose header
is "Сумма итого, руб". -/
def amountCells (header : List String) (r : List Cell) : List Cell :=
  ((header.zip r).filter (fun q => decide (q.1 = "Сумма итого, руб"))).map Prod.snd

/-- The sum of the amount cells of a returns table. -/
def returnsTotal (T : Table) : ℚ :=
  (T.rows.map (fun r => ((amountCells T.header r).map cellValue).sum)).sum

/-- The data rows the Grouping Aggregator processes: category not "Возвраты", amount
parses. -/
def isProcessedNonReturn (headers : List String) (row : List String) : Bool :=
  isNonReturn headers row && (rowAmount headers row).isSome

/-- The data rows the Returns Extractor processes: category "Возвраты", amount parses. -/
def isProcessedReturn (headers : List String) (row : List String) : Bool :=
  decide (cellAt (colIndexes headers) row "Группа услуг" = some "Возвраты") &&
    (rowAmount headers row).isSome

/-- The amounts a Group Record holds: its cancellation total and all its column values. -/
def recordTotal (data : GroupData) : ℚ :=
  data.Otmena + (data.Columns.map Prod.snd).sum

/-- Every Group Record has each target category once in its map `Columns`. -/
def ColumnsNodup (groups : List (String × GroupData)) : Prop :=
  ∀ p ∈ groups, (p.2.Columns.map Prod.fst).Nodup

/-! ## Notions used in the statements about the passes with `float64` amounts -/

/-- The parsed amount of a data row as a `float64`, when the row has an amount cell and it
parses. -/
def rowAmount64 (headers : List String) (row : List String) : Option Float64 :=
  (cellAt (colIndexes headers) row "Сумма итого, руб").bind parseSum64

/-- The amount of a data row whose amount parses. -/
def amount64 (headers : List String) (row : List String) : Float64 :=
  (rowAmount64 headers row).getD (Float64.finite 0)

/-- The parsed amounts, in source order, of the rows of a list that satisfy a condition. -/
def amountsOf (headers : List String) (p : List String → Bool) (data : List (List String)) :
    List Float64 :=
  (data.filter p).map (amount64 headers)

/-- The `float64` total of a list of amounts accumulated as the Grouping Aggregator does:
the accumulator starts at 0 and each amount is added with `+=`, in list order. -/
def float64Total (l : List Float64) : Float64 :=
  l.foldl float64Add (Float64.finite 0)

/-- The `float64` total of a list of amounts accumulated as the Returns Extractor does:
the first amount is stored and each later one is added with `+=`, in list order. -/
def float64Running : List Float64 → Float64
  | [] => Float64.finite 0
  | a :: l => l.foldl float64Add a

/-- The data rows that count for the cell of key `k` in column `t`: category not
"Возвраты", normalized identifier `k`, accrual type not the cancellation, amount parses,
accrual type resolves to `t`. -/
def isCategoryRow64 (headers : List String) (settings : List GroupingSetting) (k t : String)
    (row : List String) : Bool :=
  isNonReturn headers row && decide (rowKey headers row = some k) &&
    (rowAmount64 headers row).isSome &&
    (match cellAt (colIndexes headers) row "Тип начисления" with
      | some tipNach => decide (tipNach ≠ cancellation) && decide (targetOf settings tipNach = t)
      | none => false)

/-- The data rows that count for the cancellation cell of key `k`: category not
"Возвраты", normalized identifier `k`, accrual type the cancellation, amount parses. -/
def isCancellationRow64 (headers : List String) (k : String) (row : List String) : Bool :=
  isNonReturn headers row && decide (rowKey headers row = some k) &&
    (rowAmount64 headers row).isSome &&
    decide (cellAt (colIndexes headers) row "Тип начисления" = some cancellation)

/-- The data rows that count for the returns row of key `k`: category "Возвраты",
normalized identifier `k`, amount parses. -/
def isReturnRow64 (headers : List String) (k : String) (row : List String) : Bool :=
  decide (cellAt (colIndexes headers) row "Группа услуг" = some "Возвраты") &&
    decide (rowKey headers row = some k) && (rowAmount64 headers row).isSome

/-- What the second loop of `groupData` takes from a data row that it does not skip: the
normalized identifier, the accrual type and the `float64` amount. -/
def contribution64 (headers : List String) (row : List String) :
    Option (String × String × Float64) :=
  if headers.length ≤ row.length ∧ isNonReturn headers row = true then
    match rowKey headers row, cellAt (colIndexes headers) row "Тип начисления",
      rowAmount64 headers row with
    | some id, some tipNach, some sum => some (id, tipNach, sum)
    | _, _, _ => none
  else none

/-- The loop body of `groupData` on a row whose lookups are all in range. -/
def groupRead64 (headers : List String) (mapping : List (String × GroupingSetting))
    (groups : List (String × GroupData64)) (row : List String) :
    List (String × GroupData64) :=
  match contribution64 headers row with
  | some c => accumulate64 mapping groups c.1 c.2.1 c.2.2
  | none => groups

/-- What the loop of `processReturns` takes from a data row that it does not skip: the
normalized identifier and the `float64` amount. -/
def returnContribution64 (headers : List String) (row : List String) :
    Option (String × Float64) :=
  if headers.length ≤ row.length ∧
      cellAt (colIndexes headers) row "Группа услуг" = some "Возвраты" then
    match rowKey headers row, rowAmount64 headers row with
    | some id, some sum => some (id, sum)
    | _, _ => none
  else none

/-- The loop body of `processReturns` on a row whose lookups are all in range. -/
def returnsRead64 (headers : List String) (returnsMap : List (String × ReturnData64))
    (row : List String) : List (String × ReturnData64) :=
  match returnContribution64 headers row with
  | some c =>
    match mapGet returnsMap c.1 with
    | some existing =>
      mapSet returnsMap c.1
        (ReturnData64.mk existing.ID (float64Add existing.Sum c.2) existing.FullData)
    | none => mapSet returnsMap c.1 (ReturnData64.mk c.1 c.2 row)
  | none => returnsMap

/-- The value accumulated for key `k` in target column `t`; `0` without a record. -/
def valueAt64 (groups : List (String × GroupData64)) (k t : String) : Float64 :=
  match mapGet groups k with
  | some data => columnValue64 data t
  | none => Float64.finite 0

/-- The cancellation total accumulated for key `k`; `0` without a record. -/
def otmenaAt64 (groups : List (String × GroupData64)) (k : String) : Float64 :=
  match mapGet groups k with
  | some data => data.Otmena
  | none => Float64.finite 0

/-- The marker of key `k`; empty without a record. -/
def vidAt64 (groups : List (String × GroupData64)) (k : String) : String :=
  match mapGet groups k with
  | some data => data.Vid
  | none => ""

/-- The sum stored for key `k` in the returns map, when the key has a record. -/
def sumAt64 (returnsMap : List (String × ReturnData64)) (k : String) : Option Float64 :=
  (mapGet returnsMap k).map (fun ret => ret.Sum)

/-- Whether some record has a value with `value != 0` under a dynamic header. -/
def hasData64 (groups : List (String × GroupData64)) (header : String) : Bool :=
  groups.any (fun p => float64NonZero (columnValue64 p.2 header))

/-- The records built by the second loop of `groupData`. -/
def groupsOf64 (rows : List (List String)) (settings : List GroupingSetting) :
    List (String × GroupData64) :=
  (dataRows rows).foldl (groupRead64 (headerRow rows) (columnMapping settings)) []

/-- The dynamic columns of the final header: those that hold a value with `value != 0`. -/
def keptColumns64 (rows : List (List String)) (settings : List GroupingSetting) :
    List String :=
  (dynamicColumns rows settings).filter (hasData64 (groupsOf64 rows settings))

/-- The records built by the loop of `processReturns`. -/
def returnsOf64 (rows : List (List String)) : List (String × ReturnData64) :=
  (dataRows rows).foldl (returnsRead64 (headerRow rows)) []

/-- The records are well formed: no key occurs twice and every record stores its key. -/
def WellKeyed64 (groups : List (String × GroupData64)) : Prop :=
  (groups.map Prod.fst).Nodup ∧ ∀ p ∈ groups, p.2.ID = p.1

/-- The cell written under one header of a returns row when no lookup panics. -/
def returnsCellRead64 (headers : List String) (ret : ReturnData64) (header : String) :
    Cell64 :=
  if header = "ID начисления" then Cell64.text ret.ID
  else if header = "Сумма итого, руб" then Cell64.number ret.Sum
  else Cell64.text (field headers ret.FullData header)

/-- The returns records are well formed: no key occurs twice, every record stores its key
and retains a row that has a cell for every header column. -/
def WellKeyedReturns64 (headers : List String) (returnsMap : List (String × ReturnData64)) :
    Prop :=
  (returnsMap.map Prod.fst).Nodup ∧
    ∀ p ∈ returnsMap, p.2.ID = p.1 ∧ headers.length ≤ p.2.FullData.length

/-- The cell of an output row under a column name of the output header. -/
def cellUnder64 (header : List String) (r : List Cell64) (name : String) : Option Cell64 :=
  r[header.indexOf name]?

/-! ## Concrete sheets -/

/-- A sheet whose header has five columns; the second data row lacks a cell in the
last column, as a row read from a workbook does when its last cells are empty. -/
def shortRowSheet : List (List String) :=
  [["Отчёт"],
   ["ID начисления", "Группа услуг", "Тип начисления", "Сумма итого, руб", "Примечание"],
   ["A-1-7", "Продажи", "Плата", "100", "x"],
   ["A-1-9", "Продажи", "Плата", "200"]]

/-- A header of five columns. -/
def wideHeader : List String :=
  ["ID начисления", "Группа услуг", "Тип начисления", "Сумма итого, руб", "Примечание"]

/-- A cancellation row with amount 500 that lacks the cell of the last column. -/
def shortCancellationRow : List String :=
  ["A-1-7", "Продажи", "Обработка операционных ошибок продавца: отмена", "500"]

/-- The same cancellation row with a cell in every column. -/
def fullCancellationRow : List String :=
  ["A-1-7", "Продажи", "Обработка операционных ошибок продавца: отмена", "500", "x"]

/-- A sheet with two cancellation rows of key `A-1` and a rule for the cancellation label. -/
def cancellationSheet : List (List String) :=
  [["Отчёт"], wideHeader, fullCancellationRow,
   ["A-1-9", "Продажи", "Обработка операционных ошибок продавца: отмена", "-100", "x"],
   ["A-1-9", "Продажи", "Плата", "250", "x"]]

/-- A rule table with a flagged entry for the cancellation label. -/
def cancellationRules : List GroupingSetting :=
  [GroupingSetting.mk "Обработка операционных ошибок продавца: отмена" "Прочее" true]

/-- A sheet with a flagged cancellation row of key `A-1`, and for key `B-2` an unflagged
row and a flagged row that lacks the cell of the last column. -/
def markerSheet : List (List String) :=
  [["Отчёт"], wideHeader,
   ["A-1-7", "Продажи", "Обработка операционных ошибок продавца: отмена", "500", "x"],
   ["B-2-1", "Продажи", "Плата", "100", "x"],
   ["B-2-2", "Продажи", "Бонус", "300"]]

/-- A rule table that flags the cancellation label and the label "Бонус". -/
def markerRules : List GroupingSetting :=
  [GroupingSetting.mk "Обработка операционных ошибок продавца: отмена" "Прочее" true,
   GroupingSetting.mk "Бонус" "Бонусы" true]

/-- A sheet with one flagged row of key `C-3` and non-zero amount, and one row of key `D-4`
whose flagged accrual type has amount zero. -/
def flaggedSheet : List (List String) :=
  [["Отчёт"], wideHeader,
   ["C-3-1", "Продажи", "Бонус", "300", "x"],
   ["D-4-1", "Продажи", "Бонус", "0", "x"]]

/-- A sheet whose rows give three dynamic columns before pruning; the amounts of "Бонус"
cancel out for key `A-1` and are zero for key `B-2`. -/
def pruningSheet : List (List String) :=
  [["Отчёт"], wideHeader,
   ["A-1-1", "Продажи", "Плата", "100", "x"],
   ["A-1-2", "Продажи", "Бонус", "300", "x"],
   ["A-1-3", "Продажи", "Бонус", "-300", "x"],
   ["B-2-1", "Продажи", "Эквайринг", "-50", "x"],
   ["B-2-2", "Продажи", "Бонус", "0", "x"]]

/-- A sheet in which the accrual type "Бонус" occurs only on a row that lacks the cell of
the last column. -/
def typeSheet : List (List String) :=
  [["Отчёт"], wideHeader,
   ["A-1-7", "Продажи", "Плата", "100", "x"],
   ["A-1-9", "Продажи", "Бонус", "200"]]

/-- The two return rows of the specification: identifiers `A-1-7` and `A-1-9`, amounts
`150` and `-50`. -/
def returnsExample : List (List String) :=
  [["Отчёт"],
   ["ID начисления", "Группа услуг", "Тип начисления", "Сумма итого, руб"],
   ["A-1-7", "Возвраты", "Плата", "150"],
   ["A-1-9", "Возвраты", "Плата", "-50"],
   ["B-2-1", "Продажи", "Плата", "700"]]

/-- A rule table with two entries for the label "Плата": the first flagged with target
"Раннее", the last unflagged with target "Позднее". -/
def duplicateRules : List GroupingSetting :=
  [GroupingSetting.mk "Плата" "Раннее" true, GroupingSetting.mk "Плата" "Позднее" false]

/-- A sheet with one row of accrual type "Плата" and one of type "Бонус". -/
def twoTypeSheet : List (List String) :=
  [["Отчёт"], wideHeader,
   ["A-1-1", "Продажи", "Плата", "100", "x"],
   ["B-2-1", "Продажи", "Бонус", "300", "x"]]

/-- A sheet whose header lacks only the column "Тип начисления". -/
def noTypeSheet : List (List String) :=
  [["Отчёт"],
   ["ID начисления", "Группа услуг", "Сумма итого, руб"],
   ["A-1-7", "Возвраты", "150"]]

/-- A sheet whose only data row is not a return, has a cell in every column and an amount
that does not parse. -/
def unparsedSheet : List (List String) :=
  [["Отчёт"], wideHeader, ["A-1-7", "Продажи", "Плата", "n/a", "x"]]

/-- The rule table of the end-to-end scenario: "Плата" maps to "Сборы", no flag. -/
def scenarioRules : List GroupingSetting := [GroupingSetting.mk "Плата" "Сборы" false]

/-- The sheet of the end-to-end scenario with a fifth column that has a cell on every
row. -/
def scenarioSheet : List (List String) :=
  [["Отчёт"], wideHeader,
   ["X-1-A", "Обычные", "Плата", "1000", "a"],
   ["X-1-B", "Обычные", "Плата", "500", "b"],
   ["X-2-A", "Возвраты", "Плата", "-300", "c"]]

/-- The sheet of the end-to-end scenario with a fifth column that is empty on the data
rows, so that the rows read from the workbook have four cells. -/
def scenarioShortSheet : List (List String) :=
  [["Отчёт"], wideHeader,
   ["X-1-A", "Обычные", "Плата", "1000"],
   ["X-1-B", "Обычные", "Плата", "500"],
   ["X-2-A", "Возвраты", "Плата", "-300"]]

/-- A sheet with two return rows of key `A-1`; the amount of the first does not parse. -/
def templateSheet : List (List String) :=
  [["Отчёт"], wideHeader,
   ["A-1-7", "Возвраты", "Плата", "n/a", "first"],
   ["A-1-9", "Возвраты", "Плата", "100", "second"],
   ["A-1-8", "Возвраты", "Плата", "50", "third"]]

/-- A sheet whose header has the column name "Заметка" twice. -/
def duplicateHeaderSheet : List (List String) :=
  [["Отчёт"],
   ["ID начисления", "Группа услуг", "Сумма итого, руб", "Заметка", "Заметка"],
   ["A-1-7", "Возвраты", "100", "p", "q"]]

/-- A sheet whose header has the column name "Сумма итого, руб" twice. -/
def duplicateAmountSheet : List (List String) :=
  [["Отчёт"],
   ["ID начисления", "Группа услуг", "Тип начисления", "Сумма итого, руб", "Сумма итого, руб"],
   ["A-1-7", "Возвраты", "Плата", "100", "100"]]

/-- A sheet with a return row, a cancellation row and a row of accrual type "Плата". -/
def totalsSheet : List (List String) :=
  [["Отчёт"], wideHeader,
   ["A-1-7", "Возвраты", "Плата", "100", "x"],
   ["B-2-1", "Продажи", "Обработка операционных ошибок продавца: отмена", "250", "x"],
   ["B-2-2", "Продажи", "Плата", "-50", "x"]]

/-- The text of a rule file of six lines: the first ends with a carriage return and has a
tab after the source label, the fifth has a no-break space (U+00A0) before the source
label, an ideographic space (U+3000) after it and a fourth field, the last starts with a
zero width space (U+200B), which is not white space, and has no line feed after it. -/
def ruleFile : String :=
  String.mk (" Плата".data ++ [Char.ofNat 9] ++ "# Сборы #Д".data ++
    [Char.ofNat 13, Char.ofNat 10] ++
    "x#y# д ".data ++ [Char.ofNat 10] ++
    "#z".data ++ [Char.ofNat 10] ++
    "nofields".data ++ [Char.ofNat 10] ++
    [Char.ofNat 160] ++ "a".data ++ [Char.ofNat 12288] ++ "#b#Д#extra".data ++
    [Char.ofNat 10] ++
    [Char.ofNat 8203] ++ "q#r".data)

/-- A line of 65536 letters: one byte more than the scanner's buffer can hold with room
for the line feed. -/
def longLine : String := String.mk (List.replicate 65536 'x')

/-- A sheet with two rows of key `A-1` and accrual type "Плата", amounts of 10 and 20
cents, and two cancellation rows of key `B-2` with the same amounts. -/
def centsSheet : List (List String) :=
  [["Отчёт"], wideHeader,
   ["A-1-1", "Продажи", "Плата", "10", "x"],
   ["A-1-2", "Продажи", "Плата", "20", "x"],
   ["B-2-1", "Продажи", "Обработка операционных ошибок продавца: отмена", "10", "x"],
   ["B-2-2", "Продажи", "Обработка операционных ошибок продавца: отмена", "20", "x"]]

/-- A sheet with two return rows of key `A-1`, amounts of 10 and 20 cents. -/
def centsReturns : List (List String) :=
  [["Отчёт"],
   ["ID начисления", "Группа услуг", "Тип начисления", "Сумма итого, руб"],
   ["A-1-7", "Возвраты", "Плата", "10"],
   ["A-1-9", "Возвраты", "Плата", "20"]]

/-- A sheet whose three rows of key `A-1` and accrual type "Плата" have the amounts of 10,
20 and -30 cents. -/
def residueSheet : List (List String) :=
  [["Отчёт"], wideHeader,
   ["A-1-1", "Продажи", "Плата", "10", "x"],
   ["A-1-2", "Продажи", "Плата", "20", "x"],
   ["A-1-3", "Продажи", "Плата", "-30", "x"]]

/-! ## The Key Normalizer -/

theorem splitDash_ne_nil (s : List Char) : splitDash s ≠ [] := by
  cases s with
  | nil => simp [splitDash]
  | cons c cs =>
    unfold splitDash
    split
    · simp
    · split <;> simp

theorem splitDash_of_not_mem (s : List Char) (h : '-' ∉ s) : splitDash s = [s] := by
  induction s with
  | nil => rfl
  | cons c cs ih =>
    have hc : c ≠ '-' := fun e => h (by simp [e])
    have hcs : '-' ∉ cs := fun e => h (by simp [e])
    simp [splitDash, hc, ih hcs]

theorem splitDash_append_dash (p r : List Char) (h : '-' ∉ p) :
    splitDash (p ++ '-' :: r) = p :: splitDash r := by
  induction p with
  | nil => simp [splitDash]
  | cons c cs ih =>
    have hc : c ≠ '-' := fun e => h (by simp [e])
    have hcs : '-' ∉ cs := fun e => h (by simp [e])
    simp [splitDash, hc, ih hcs]

theorem exists_first_dash (s : List Char) (h : '-' ∈ s) :
    ∃ p r, s = p ++ '-' :: r ∧ '-' ∉ p := by
  induction s with
  | nil => simp at h
  | cons c cs ih =>
    by_cases hc : c = '-'
    · exact ⟨[], cs, by simp [hc], by simp⟩
    · have hcs : '-' ∈ cs := by
        rcases List.mem_cons.1 h with e | e
        · exact absurd e.symm hc
        · exact e
      obtain ⟨p, r, hs, hp⟩ := ih hcs
      refine ⟨c :: p, r, by simp [hs], ?_⟩
      simp only [List.mem_cons, not_or]
      exact ⟨fun e => hc e.symm, hp⟩

theorem normalizeID_cases (x : String) :
    (x.data.count '-' < 2 ∧ normalizeID x = x) ∨
    (∃ p q r, x.data = p ++ '-' :: (q ++ '-' :: r) ∧ '-' ∉ p ∧ '-' ∉ q ∧
      normalizeID x = String.mk (p ++ '-' :: q)) := by
  by_cases h1 : '-' ∈ x.data
  · obtain ⟨p, s, hx, hp⟩ := exists_first_dash _ h1
    by_cases h2 : '-' ∈ s
    · obtain ⟨q, r, hs, hq⟩ := exists_first_dash _ h2
      right
      refine ⟨p, q, r, by rw [hx, hs], hp, hq, ?_⟩
      have hsplit : splitDash x.data = p :: q :: splitDash r := by
        rw [hx, splitDash_append_dash p s hp, hs, splitDash_append_dash q r hq]
      have hlen : (splitDash r).length ≠ 0 := by
        simpa using splitDash_ne_nil r
      simp only [normalizeID, hsplit]
      have : (p :: q :: splitDash r).length > 2 := by
        simp only [List.length_cons]; omega
      rw [if_pos this]
      simp [joinDash]
    · left
      have hsplit : splitDash x.data = [p, s] := by
        rw [hx, splitDash_append_dash p s hp, splitDash_of_not_mem s h2]
      refine ⟨?_, by simp [normalizeID, hsplit]⟩
      rw [hx]
      simp [List.count_append, List.count_eq_zero_of_not_mem hp,
        List.count_eq_zero_of_not_mem h2]
  · left
    refine ⟨?_, by simp [normalizeID, splitDash_of_not_mem _ h1]⟩
    simp [List.count_eq_zero_of_not_mem h1]

/-! ## The Money Parser -/

theorem readDigits_eq (s : List Char) (mant : Nat) (saw : Bool) :
    readDigits s mant saw =
      ((s.takeWhile isDigit).foldl (fun acc d => 10 * acc + (d.toNat - '0'.toNat)) mant,
        saw || !(s.takeWhile isDigit).isEmpty, s.dropWhile isDigit) := by
  induction s generalizing mant saw with
  | nil => simp [readDigits]
  | cons c cs ih =>
    by_cases hc : isDigit c = true
    · simp [readDigits, hc, ih, List.takeWhile_cons, List.dropWhile_cons]
    · simp [readDigits, hc, List.takeWhile_cons, List.dropWhile_cons]

theorem takeWhile_eq_self_of_dropWhile_nil (s : List Char) (h : s.dropWhile isDigit = []) :
    s.takeWhile isDigit = s := by
  have := List.takeWhile_append_dropWhile isDigit s
  rw [h, List.append_nil] at this
  exact this

theorem parseMantissa_eq_some_iff (body : List Char) (m : Nat) :
    parseMantissa body = some m ↔
      body ≠ [] ∧ (∀ d ∈ body, isDigit d = true) ∧ decimalValue body < float64Overflow ∧
        m = decimalValue body := by
  unfold parseMantissa
  rw [readDigits_eq]
  by_cases hall : ∀ d ∈ body, isDigit d = true
  · have hdrop : body.dropWhile isDigit = [] := List.dropWhile_eq_nil_iff.2 hall
    have htake : body.takeWhile isDigit = body := takeWhile_eq_self_of_dropWhile_nil _ hdrop
    have hfold : List.foldl (fun acc d => 10 * acc + (d.toNat - '0'.toNat)) 0 body
        = decimalValue body := rfl
    rw [hdrop, htake, hfold]
    by_cases hb : body = []
    · subst hb
      simp
    · have hemp : body.isEmpty = false := by
        cases body with
        | nil => exact absurd rfl hb
        | cons _ _ => rfl
      by_cases hov : float64Overflow ≤ decimalValue body
      · simp only [hemp, hov]
        simp only [Bool.false_or, Bool.not_false, Bool.not_true, Bool.false_eq_true,
          ↓reduceIte, List.isEmpty_nil]
        constructor
        · intro h
          exact Option.noConfusion h
        · intro h
          exact absurd hov (not_le.2 h.2.2.1)
      · simp only [hemp, hov]
        simp only [Bool.false_or, Bool.not_false, Bool.not_true, Bool.false_eq_true,
          ↓reduceIte, List.isEmpty_nil, Option.some.injEq]
        constructor
        · intro h
          exact ⟨hb, hall, not_le.1 hov, h.symm⟩
        · intro h
          exact h.2.2.2.symm
  · have hdrop : body.dropWhile isDigit ≠ [] := fun h => hall (List.dropWhile_eq_nil_iff.1 h)
    have : (body.dropWhile isDigit).isEmpty = false := by
      cases h : body.dropWhile isDigit with
      | nil => exact absurd h hdrop
      | cons _ _ => rfl
    simp only [this]
    constructor
    · intro h
      split at h <;> simp at h
    · intro h
      exact absurd h.2.1 hall

theorem parseMantissa_eq_none_iff (body : List Char) :
    parseMantissa body = none ↔
      ¬ (body ≠ [] ∧ (∀ d ∈ body, isDigit d = true)) ∨ float64Overflow ≤ decimalValue body := by
  constructor
  · intro h
    by_contra hcon
    rw [not_or, not_not, not_le] at hcon
    have := (parseMantissa_eq_some_iff body (decimalValue body)).2
      ⟨hcon.1.1, hcon.1.2, hcon.2, rfl⟩
    rw [h] at this
    exact Option.noConfusion this
  · intro h
    cases hp : parseMantissa body with
    | none => rfl
    | some m =>
      obtain ⟨h1, h2, h3, _⟩ := (parseMantissa_eq_some_iff body m).1 hp
      rcases h with h | h
      · exact absurd ⟨h1, h2⟩ h
      · exact absurd h (not_le.2 h3)

theorem parseFloat_dash (s : String) (cs : List Char) (h : s.data = '-' :: cs) :
    parseFloat s = (parseMantissa cs).map (fun (mant : Nat) => -(mant : ℚ)) := by
  unfold parseFloat
  rw [h]
  split
  · rename_i rest heq
    rw [(List.cons.inj heq).2]
  · rename_i hne
    exact absurd rfl (hne cs)

theorem parseFloat_of_not_dash (s : String) (h : ∀ cs, s.data ≠ '-' :: cs) :
    parseFloat s = (parseMantissa s.data).map (fun (mant : Nat) => (mant : ℚ)) := by
  unfold parseFloat
  split
  · rename_i rest heq
    exact absurd heq (h rest)
  · rfl

theorem isDigit_dash : isDigit '-' = false := by decide

theorem keepRune_of_isDigit (c : Char) (h : isDigit c = true) : keepRune c = true := by
  unfold isDigit at h
  unfold keepRune
  rw [h]
  simp

theorem isSignedDecimal_dash_iff (cs : List Char) :
    IsSignedDecimal ('-' :: cs) ↔ cs ≠ [] ∧ ∀ d ∈ cs, isDigit d = true := by
  constructor
  · rintro ⟨ds, hne, hall, h | h⟩
    · have := hall '-' (by rw [← h]; simp)
      rw [isDigit_dash] at this
      exact Bool.noConfusion this
    · have hcs : cs = ds := (List.cons.inj h).2
      rw [hcs]
      exact ⟨hne, hall⟩
  · rintro ⟨hne, hall⟩
    exact ⟨cs, hne, hall, Or.inr rfl⟩

theorem isSignedDecimal_iff_of_not_dash (s : List Char) (h : ∀ cs, s ≠ '-' :: cs) :
    IsSignedDecimal s ↔ s ≠ [] ∧ ∀ d ∈ s, isDigit d = true := by
  constructor
  · rintro ⟨ds, hne, hall, hs | hs⟩
    · rw [hs]
      exact ⟨hne, hall⟩
    · exact absurd hs (h ds)
  · rintro ⟨hne, hall⟩
    exact ⟨s, hne, hall, Or.inl rfl⟩

theorem magnitude_of_not_dash (s : List Char) (h : ∀ cs, s ≠ '-' :: cs) :
    magnitude s = decimalValue s := by
  unfold magnitude
  split
  · rename_i ds
    exact absurd rfl (h ds)
  · rfl

theorem parseFloat_eq_none_iff (s : String) :
    parseFloat s = none ↔
      ¬ IsSignedDecimal s.data ∨ float64Overflow ≤ magnitude s.data := by
  by_cases hd : ∃ cs, s.data = '-' :: cs
  · obtain ⟨cs, hcs⟩ := hd
    rw [parseFloat_dash s cs hcs, hcs, isSignedDecimal_dash_iff, Option.map_eq_none']
    exact parseMantissa_eq_none_iff cs
  · have hd2 : ∀ cs, s.data ≠ '-' :: cs := fun cs h => hd ⟨cs, h⟩
    rw [parseFloat_of_not_dash s hd2, isSignedDecimal_iff_of_not_dash _ hd2,
      magnitude_of_not_dash _ hd2, Option.map_eq_none']
    exact parseMantissa_eq_none_iff s.data

theorem parseSum_eq_none_iff (cell : String) :
    parseSum cell = none ↔
      ¬ IsSignedDecimal (cleanSum cell).data ∨
        float64Overflow ≤ magnitude (cleanSum cell).data := by
  unfold parseSum
  rw [Option.map_eq_none']
  exact parseFloat_eq_none_iff _

theorem isSignedDecimal_dash_front (s : List Char) (h : IsSignedDecimal s)
    (pre post : List Char) (hs : s = pre ++ '-' :: post) : pre = [] := by
  obtain ⟨ds, _, hall, h1 | h1⟩ := h
  · have := hall '-' (by rw [← h1, hs]; simp)
    rw [isDigit_dash] at this
    exact Bool.noConfusion this
  · cases pre with
    | nil => rfl
    | cons x pre2 =>
      rw [hs] at h1
      have hds : pre2 ++ '-' :: post = ds := (List.cons.inj h1).2
      have := hall '-' (by rw [← hds]; simp)
      rw [isDigit_dash] at this
      exact Bool.noConfusion this

theorem isSignedDecimal_has_digit (s : List Char) (h : IsSignedDecimal s) :
    ∃ d ∈ s, isDigit d = true := by
  obtain ⟨ds, hne, hall, h1 | h1⟩ := h
  · cases ds with
    | nil => exact absurd rfl hne
    | cons d ds2 => exact ⟨d, by rw [h1]; simp, hall d (by simp)⟩
  · cases ds with
    | nil => exact absurd rfl hne
    | cons d ds2 => exact ⟨d, by rw [h1]; simp, hall d (by simp)⟩

theorem keepRune_dash : keepRune '-' = true := by decide

theorem isDigit_of_mem_replicate_zero (n : Nat) (d : Char)
    (h : d ∈ '1' :: List.replicate n '0') : isDigit d = true := by
  rcases List.mem_cons.1 h with h | h
  · rw [h]
    decide
  · rw [(List.mem_replicate.1 h).2]
    decide

theorem decimalValue_append_zeros (ds : List Char) (n : Nat) :
    decimalValue (ds ++ List.replicate n '0') = decimalValue ds * 10 ^ n := by
  induction n with
  | zero => simp
  | succ n ih =>
    have hrep : List.replicate (n + 1) '0' = List.replicate n '0' ++ ['0'] := by
      rw [List.replicate_succ']
    unfold decimalValue at ih ⊢
    rw [hrep, ← List.append_assoc, List.foldl_append, ih]
    simp only [List.foldl_cons, List.foldl_nil]
    have : ('0' : Char).toNat - ('0' : Char).toNat = 0 := by decide
    rw [this, pow_succ]
    ring

theorem cleanSum_mk_of_digits (l : List Char) (h : ∀ d ∈ l, isDigit d = true) :
    cleanSum (String.mk l) = String.mk l := by
  unfold cleanSum
  have : l.filter keepRune = l :=
    List.filter_eq_self.2 (fun d hd => keepRune_of_isDigit d (h d hd))
  rw [this]

theorem cleanSum_hugeCell : cleanSum hugeCell = hugeCell :=
  cleanSum_mk_of_digits _ (isDigit_of_mem_replicate_zero 309)

theorem isSignedDecimal_hugeCell : IsSignedDecimal hugeCell.data :=
  ⟨'1' :: List.replicate 309 '0', List.cons_ne_nil _ _, isDigit_of_mem_replicate_zero 309,
    Or.inl rfl⟩

theorem magnitude_one_zeros (n : Nat) :
    magnitude ('1' :: List.replicate n '0') = 10 ^ n := by
  have hnd : ∀ cs, '1' :: List.replicate n '0' ≠ '-' :: cs := by
    intro cs h
    have h1 : ('1' : Char) = '-' := (List.cons.inj h).1
    exact absurd h1 (by decide)
  rw [magnitude_of_not_dash _ hnd]
  have := decimalValue_append_zeros ['1'] n
  have h1 : decimalValue ['1'] = 1 := by decide
  rw [h1, one_mul] at this
  exact this

theorem float64Overflow_le : float64Overflow ≤ 10 ^ 309 := by
  have h1 : (2 : ℕ) ^ 93 ≤ 10 ^ 28 := by norm_num
  have e1 : (1024 : ℕ) = 93 * 11 + 1 := by norm_num
  have e2 : (309 : ℕ) = 28 * 11 + 1 := by norm_num
  have p1 : (2 : ℕ) ^ (93 * 11 + 1) = (2 ^ 93) ^ 11 * 2 := by
    rw [pow_succ (2 : ℕ) (93 * 11), pow_mul (2 : ℕ) 93 11]
  have p2 : (10 : ℕ) ^ (28 * 11 + 1) = (10 ^ 28) ^ 11 * 10 := by
    rw [pow_succ (10 : ℕ) (28 * 11), pow_mul (10 : ℕ) 28 11]
  unfold float64Overflow
  rw [e1, e2, p1, p2]
  have key : ∀ a b c : ℕ, a ≤ b → a * 2 - c ≤ b * 10 := fun a b c h => by omega
  exact key _ _ _ (Nat.pow_le_pow_left h1 11)

/-! ## Go maps -/

section GoMapLemmas

variable {κ α : Type} [DecidableEq κ]

theorem mapGet_mapSet_self (m : List (κ × α)) (k : κ) (v : α) :
    mapGet (mapSet m k v) k = some v := by
  induction m with
  | nil => simp [mapSet, mapGet]
  | cons p m ih =>
    obtain ⟨k', v'⟩ := p
    by_cases h : k' = k
    · simp [mapSet, mapGet, h]
    · simp [mapSet, mapGet, h, ih]

theorem mapGet_mapSet_ne (m : List (κ × α)) (k k2 : κ) (v : α) (hne : k ≠ k2) :
    mapGet (mapSet m k v) k2 = mapGet m k2 := by
  induction m with
  | nil => simp [mapSet, mapGet, hne]
  | cons p m ih =>
    obtain ⟨k', v'⟩ := p
    by_cases h : k' = k
    · subst h
      simp [mapSet, mapGet, hne]
    · by_cases h2 : k' = k2
      · subst h2
        simp [mapSet, mapGet, h]
      · simp [mapSet, mapGet, h, h2, ih]

theorem mapGet_mapSet (m : List (κ × α)) (k k2 : κ) (v : α) :
    mapGet (mapSet m k v) k2 = if k = k2 then some v else mapGet m k2 := by
  by_cases h : k = k2
  · subst h
    simp [mapGet_mapSet_self]
  · simp [h, mapGet_mapSet_ne m k k2 v h]

theorem mem_keys_iff (m : List (κ × α)) (k : κ) :
    k ∈ m.map Prod.fst ↔ (mapGet m k).isSome = true := by
  induction m with
  | nil => simp [mapGet]
  | cons p m ih =>
    obtain ⟨k', v'⟩ := p
    by_cases h : k' = k
    · simp [mapGet, h]
    · have h2 : ¬ k = k' := fun e => h e.symm
      simp [mapGet, h, h2, ih]

theorem keys_mapSet (m : List (κ × α)) (k : κ) (v : α) :
    (mapSet m k v).map Prod.fst =
      if k ∈ m.map Prod.fst then m.map Prod.fst else m.map Prod.fst ++ [k] := by
  induction m with
  | nil => simp [mapSet]
  | cons p m ih =>
    obtain ⟨k', v'⟩ := p
    by_cases h : k' = k
    · simp [mapSet, h]
    · have h2 : ¬ k = k' := fun e => h e.symm
      simp only [mapSet, h, ↓reduceIte, List.map_cons, ih, List.mem_cons, h2, false_or]
      split <;> simp

theorem nodup_keys_mapSet (m : List (κ × α)) (k : κ) (v : α)
    (h : (m.map Prod.fst).Nodup) : ((mapSet m k v).map Prod.fst).Nodup := by
  rw [keys_mapSet]
  split
  · exact h
  · rename_i hk
    rw [List.nodup_append]
    refine ⟨h, List.nodup_singleton k, ?_⟩
    intro a ha hb
    rw [List.mem_singleton] at hb
    exact hk (hb ▸ ha)

theorem mem_keys_mapSet (m : List (κ × α)) (k k2 : κ) (v : α) :
    k2 ∈ (mapSet m k v).map Prod.fst ↔ k2 = k ∨ k2 ∈ m.map Prod.fst := by
  rw [mem_keys_iff, mapGet_mapSet, mem_keys_iff]
  by_cases h : k = k2
  · simp [h]
  · have h2 : ¬ k2 = k := fun e => h e.symm
    simp [h, h2]

theorem mapGet_of_mem (m : List (κ × α)) (h : (m.map Prod.fst).Nodup) (k : κ) (v : α)
    (hm : (k, v) ∈ m) : mapGet m k = some v := by
  induction m with
  | nil => simp at hm
  | cons p m ih =>
    obtain ⟨k', v'⟩ := p
    rw [List.map_cons, List.nodup_cons] at h
    rcases List.mem_cons.1 hm with e | e
    · have e1 : k = k' := congrArg Prod.fst e
      have e2 : v = v' := congrArg Prod.snd e
      simp [mapGet, e1, e2]
    · have hk : k ∈ m.map Prod.fst := List.mem_map.2 ⟨(k, v), e, rfl⟩
      have hne : k' ≠ k := fun e2 => h.1 (e2 ▸ hk)
      simp [mapGet, hne, ih h.2 e]

theorem mem_of_mapGet (m : List (κ × α)) (k : κ) (v : α) (h : mapGet m k = some v) :
    (k, v) ∈ m := by
  induction m with
  | nil => simp [mapGet] at h
  | cons p m ih =>
    obtain ⟨k', v'⟩ := p
    by_cases hk : k' = k
    · simp only [mapGet, hk, ↓reduceIte, Option.some.injEq] at h
      simp [hk, h]
    · simp only [mapGet, hk, ↓reduceIte] at h
      exact List.mem_cons_of_mem _ (ih h)

end GoMapLemmas

theorem foldlM_eq_some_foldl {σ β : Type} (f : σ → β → Option σ) (g : σ → β → σ)
    (l : List β) (s : σ) (h : ∀ t, ∀ x ∈ l, f t x = some (g t x)) :
    l.foldlM f s = some (l.foldl g s) := by
  induction l generalizing s with
  | nil => rfl
  | cons x l ih =>
    rw [List.foldlM_cons, h s x (by simp)]
    exact ih (g s x) (fun t y hy => h t y (by simp [hy]))

theorem sum_map_ite_eq_sum_filter {β : Type} (l : List β) (p : β → Bool) (a : β → ℚ) :
    (l.map (fun x => if p x = true then a x else 0)).sum = ((l.filter p).map a).sum := by
  induction l with
  | nil => rfl
  | cons x l ih =>
    by_cases h : p x = true
    · simp [h, ih]
    · simp [h, ih]

theorem foldl_additive {σ β : Type} (g : σ → β → σ) (q : σ → ℚ) (d : β → ℚ)
    (h : ∀ s x, q (g s x) = q s + d x) (l : List β) (s : σ) :
    q (l.foldl g s) = q s + (l.map d).sum := by
  induction l generalizing s with
  | nil => simp
  | cons x l ih =>
    rw [List.foldl_cons, ih, h, List.map_cons, List.sum_cons]
    ring

/-! ## Reading the cells of a row -/

theorem colIndexes_aux (l : List String) (n : Nat) (m : List (String × Nat))
    (hm : ∀ k v, mapGet m k = some v → 1 ≤ v ∧ v ≤ n) :
    (∀ k v, mapGet ((l.enumFrom n).foldl (fun m p => mapSet m p.2 (p.1 + 1)) m) k = some v →
      1 ≤ v ∧ v ≤ n + l.length) ∧
    (∀ k, (k ∈ l ∨ (mapGet m k).isSome = true) →
      (mapGet ((l.enumFrom n).foldl (fun m p => mapSet m p.2 (p.1 + 1)) m) k).isSome = true) := by
  induction l generalizing n m with
  | nil =>
    refine ⟨fun k v h => ?_, fun k h => ?_⟩
    · simpa using hm k v h
    · rcases h with h | h
      · simp at h
      · simpa using h
  | cons a l ih =>
    have hm2 : ∀ k v, mapGet (mapSet m a (n + 1)) k = some v → 1 ≤ v ∧ v ≤ n + 1 := by
      intro k v h
      rw [mapGet_mapSet] at h
      split at h
      · have : n + 1 = v := Option.some.inj h
        omega
      · have := hm k v h
        omega
    obtain ⟨ih1, ih2⟩ := ih (n + 1) (mapSet m a (n + 1)) hm2
    refine ⟨fun k v h => ?_, fun k h => ?_⟩
    · have := ih1 k v h
      simp only [List.length_cons]
      omega
    · apply ih2
      rw [mapGet_mapSet]
      by_cases hak : a = k
      · right
        simp [hak]
      · rcases h with h | h
        · rcases List.mem_cons.1 h with e | e
          · exact absurd e.symm hak
          · exact Or.inl e
        · right
          simpa [hak] using h

theorem colIndexes_get (headers : List String) (name : String) (h : name ∈ headers) :
    ∃ i, mapGet (colIndexes headers) name = some i ∧ 1 ≤ i ∧ i ≤ headers.length := by
  obtain ⟨h1, h2⟩ := colIndexes_aux headers 0 [] (fun k v hk => by simp [mapGet] at hk)
  have hs := h2 name (Or.inl h)
  unfold colIndexes List.enum
  cases hg : mapGet ((headers.enumFrom 0).foldl (fun m p => mapSet m p.2 (p.1 + 1)) []) name with
  | none => rw [hg] at hs; simp at hs
  | some i =>
    have := h1 name i hg
    exact ⟨i, rfl, this.1, by omega⟩

theorem cellAt_eq_some_field (headers row : List String) (name : String)
    (h : name ∈ headers) (hlen : headers.length ≤ row.length) :
    cellAt (colIndexes headers) row name = some (field headers row name) := by
  obtain ⟨i, hi, h1, h2⟩ := colIndexes_get headers name h
  have hlt : i - 1 < row.length := by omega
  have hcell : cellAt (colIndexes headers) row name = row[i - 1]? := by
    unfold cellAt index
    rw [hi]
    have hnn : ¬ (((some i).getD 0 : Nat) : Int) - 1 < 0 := by
      simp only [Option.getD_some]
      omega
    rw [if_neg hnn]
    congr 1
    simp only [Option.getD_some]
    omega
  unfold field
  rw [hcell, List.getElem?_eq_getElem hlt]
  rfl

theorem firstMissing_eq_none (headers required : List String)
    (h : ∀ col ∈ required, col ∈ headers) :
    firstMissing (colIndexes headers) required = none := by
  unfold firstMissing
  rw [List.find?_eq_none]
  intro col hcol
  obtain ⟨i, hi, _⟩ := colIndexes_get headers col (h col hcol)
  simp [hi]

/-! ## Removing the empty columns -/

theorem foldl_eraseIdx_filter {α : Type} (keep : Nat → Bool) (pre l tail : List α) :
    ((List.range' (pre.length + 1) l.length).reverse.filter (fun c => !keep c)).foldl
        (fun acc c => acc.eraseIdx (c - 1)) (pre ++ l ++ tail) =
      pre ++ ((l.enum.filter (fun q => keep (q.1 + pre.length + 1))).map Prod.snd) ++ tail := by
  induction l using List.reverseRecOn generalizing tail with
  | nil => simp
  | append_singleton l x ih =>
    have hrange : List.range' (pre.length + 1) (l ++ [x]).length =
        List.range' (pre.length + 1) l.length ++ [pre.length + 1 + l.length] := by
      rw [List.length_append, List.length_singleton, List.range'_concat]
      simp
    have henum : (l ++ [x]).enum = l.enum ++ [(l.length, x)] := by
      simp [List.enum_append, List.enumFrom]
    rw [hrange, List.reverse_append, List.reverse_singleton, List.singleton_append, henum,
      List.filter_append, List.map_append]
    by_cases hk : keep (pre.length + 1 + l.length) = true
    · have hk2 : keep (l.length + pre.length + 1) = true := by
        rw [← hk]; congr 1; omega
      rw [List.filter_cons_of_neg (by simp [hk])]
      have := ih (x :: tail)
      simp only [List.append_assoc, List.singleton_append] at this ⊢
      rw [this]
      simp [List.filter_cons, hk2]
    · have hk2 : ¬ keep (l.length + pre.length + 1) = true := by
        intro h; apply hk; rw [← h]; congr 1; omega
      rw [List.filter_cons_of_pos (by simp [hk]), List.foldl_cons]
      have herase : (pre ++ (l ++ [x]) ++ tail).eraseIdx (pre.length + 1 + l.length - 1) =
          pre ++ l ++ tail := by
        have e1 : pre ++ (l ++ [x]) ++ tail = (pre ++ l) ++ (x :: tail) := by simp
        have e2 : pre.length + 1 + l.length - 1 = (pre ++ l).length := by
          rw [List.length_append]; omega
        rw [e1, e2, List.eraseIdx_append_of_length_le (le_refl _)]
        simp
      rw [herase, ih tail]
      simp [List.filter_cons, hk2]

theorem foldl_removeCol (cols : List Nat) (sheet : Table) :
    cols.foldl removeCol sheet =
      Table.mk (cols.foldl (fun acc c => acc.eraseIdx (c - 1)) sheet.header)
        (sheet.rows.map (fun r => cols.foldl (fun acc c => acc.eraseIdx (c - 1)) r)) := by
  induction cols generalizing sheet with
  | nil => simp
  | cons c cols ih =>
    rw [List.foldl_cons, ih]
    simp [removeCol, List.map_map, Function.comp_def]

theorem enum_filter_map {α β : Type} (f : α → β) (p : Nat → Bool) (l : List α) (n : Nat) :
    (((l.map f).enumFrom n).filter (fun q => p q.1)).map Prod.snd =
      (((l.enumFrom n).filter (fun q => p q.1)).map Prod.snd).map f := by
  induction l generalizing n with
  | nil => rfl
  | cons a l ih =>
    simp only [List.map_cons, List.enumFrom_cons, List.filter_cons]
    split <;> simp [ih]

theorem enum_filter_eq_filter {α : Type} (p : Nat → Bool) (q : α → Bool) (l : List α) (n : Nat)
    (h : ∀ x ∈ l.enumFrom n, p x.1 = q x.2) :
    ((l.enumFrom n).filter (fun x => p x.1)).map Prod.snd = l.filter q := by
  induction l generalizing n with
  | nil => rfl
  | cons a l ih =>
    have ha : p n = q a := h (n, a) (by simp [List.enumFrom_cons])
    have ih2 := ih (n + 1) (fun x hx => h x (by simp [List.enumFrom_cons, hx]))
    simp only [List.enumFrom_cons, List.filter_cons, ha]
    split <;> simp [ih2]

theorem getD_foldl_set_false (cols : List Nat) (m : List (Nat × Bool)) (c : Nat)
    (h : (mapGet m c).getD false = false) :
    (mapGet (cols.foldl (fun m col => mapSet m col false) m) c).getD false = false := by
  induction cols generalizing m with
  | nil => exact h
  | cons a cols ih =>
    rw [List.foldl_cons]
    apply ih
    rw [mapGet_mapSet]
    split
    · rfl
    · exact h

theorem getD_foldl_set_true {β : Type} (l : List β) (cond : β → Bool) (key : β → Nat)
    (m : List (Nat × Bool)) (c : Nat) :
    (mapGet (l.foldl (fun m2 q => if cond q = true then mapSet m2 (key q) true else m2) m)
        c).getD false =
      ((mapGet m c).getD false || l.any (fun q => cond q && decide (key q = c))) := by
  induction l generalizing m with
  | nil => simp
  | cons a l ih =>
    rw [List.foldl_cons, ih, List.any_cons]
    by_cases hc : cond a = true
    · rw [if_pos hc, mapGet_mapSet]
      by_cases hk : key a = c
      · simp [hc, hk]
      · simp [hc, hk]
    · rw [if_neg hc]
      simp [hc]

theorem getD_columnHasData (headers : List String) (groups : List (String × GroupData))
    (c : Nat) :
    (mapGet (columnHasData headers groups) c).getD false =
      groups.any (fun p => (headers.drop 3).enum.any
        (fun q => decide (columnValue p.2 q.2 ≠ 0) && decide (q.1 + 4 = c))) := by
  unfold columnHasData
  generalize hinit : (List.range' 4 (headers.length - 3)).foldl
    (fun m col => mapSet m col false) ([] : List (Nat × Bool)) = init
  have h0 : (mapGet init c).getD false = false := by
    rw [← hinit]
    exact getD_foldl_set_false _ _ _ rfl
  suffices hgen : ∀ (gs : List (String × GroupData)) (m : List (Nat × Bool)),
      (mapGet (gs.foldl (fun m p => (headers.drop 3).enum.foldl
          (fun m2 q => if columnValue p.2 q.2 ≠ 0 then mapSet m2 (q.1 + 4) true else m2) m) m)
          c).getD false =
        ((mapGet m c).getD false || gs.any (fun p => (headers.drop 3).enum.any
          (fun q => decide (columnValue p.2 q.2 ≠ 0) && decide (q.1 + 4 = c)))) by
    rw [hgen groups init, h0, Bool.false_or]
  intro gs
  induction gs with
  | nil => intro m; simp
  | cons p gs ih =>
    intro m
    rw [List.foldl_cons, ih, List.any_cons]
    have hinner := getD_foldl_set_true (headers.drop 3).enum
      (fun q => decide (columnValue p.2 q.2 ≠ 0)) (fun q => q.1 + 4) m c
    simp only [decide_eq_true_eq] at hinner
    rw [hinner, Bool.or_assoc]

theorem any_enumFrom_index {α : Type} (l : List α) (n i : Nat) (x : α) (f : α → Bool)
    (h : (i, x) ∈ l.enumFrom n) :
    (l.enumFrom n).any (fun q => f q.2 && decide (q.1 + 4 = i + 4)) = f x := by
  cases hf : f x with
  | true =>
    rw [List.any_eq_true]
    exact ⟨(i, x), h, by simp [hf]⟩
  | false =>
    rw [List.any_eq_false]
    intro q hq
    by_cases hqi : q.1 = i
    · obtain ⟨a, b⟩ := q
      simp only at hqi
      subst hqi
      have h1 := (List.mem_enumFrom hq).2.2
      have h2 := (List.mem_enumFrom h).2.2
      have : b = x := by rw [h1, h2]
      simp [this, hf]
    · simp [hqi]

theorem erase_columns_eq {α : Type} (keep : Nat → Bool) (q : String → Bool)
    (dynamic : List String) (hkeep : ∀ x ∈ dynamic.enumFrom 0, keep (x.1 + 3 + 1) = q x.2)
    (pre : List α) (hpre : pre.length = 3) (f : String → α) :
    ((List.range' (3 + 1) dynamic.length).reverse.filter (fun c => !keep c)).foldl
        (fun acc c => acc.eraseIdx (c - 1)) (pre ++ dynamic.map f) =
      pre ++ (dynamic.filter q).map f := by
  have h := foldl_eraseIdx_filter keep pre (dynamic.map f) []
  rw [hpre, List.length_map, List.append_nil, List.append_nil] at h
  rw [h]
  unfold List.enum
  rw [enum_filter_map f (fun i => keep (i + 3 + 1)) dynamic 0,
    enum_filter_eq_filter (fun i => keep (i + 3 + 1)) q dynamic 0 hkeep]

theorem prune_eq (fixed dynamic : List String) (hfixed : fixed.length = 3)
    (groups : List (String × GroupData)) :
    (colsToDelete (fixed ++ dynamic) (columnHasData (fixed ++ dynamic) groups)).foldl removeCol
        (Table.mk (fixed ++ dynamic) (groups.map (fun p => groupRow dynamic p.2))) =
      Table.mk (fixed ++ dynamic.filter (hasData groups))
        (groups.map (fun p => groupRow (dynamic.filter (hasData groups)) p.2)) := by
  have hdrop : (fixed ++ dynamic).drop 3 = dynamic := by
    rw [← hfixed, List.drop_left]
  have hlen : (fixed ++ dynamic).length - 3 = dynamic.length := by
    rw [List.length_append, hfixed]; omega
  have hkeep : ∀ x ∈ dynamic.enumFrom 0,
      (fun c => (mapGet (columnHasData (fixed ++ dynamic) groups) c).getD false) (x.1 + 3 + 1)
        = hasData groups x.2 := by
    intro x hx
    obtain ⟨i, h⟩ := x
    simp only
    rw [getD_columnHasData, hdrop]
    unfold hasData
    congr 1
    funext p
    exact any_enumFrom_index dynamic 0 i h (fun y => decide (columnValue p.2 y ≠ 0)) hx
  have hcols : colsToDelete (fixed ++ dynamic) (columnHasData (fixed ++ dynamic) groups) =
      (List.range' (3 + 1) dynamic.length).reverse.filter
        (fun c => !((mapGet (columnHasData (fixed ++ dynamic) groups) c).getD false)) := by
    unfold colsToDelete
    rw [hlen]
  rw [foldl_removeCol, hcols]
  congr 1
  · have h := erase_columns_eq
      (fun c => (mapGet (columnHasData (fixed ++ dynamic) groups) c).getD false)
      (hasData groups) dynamic hkeep fixed hfixed id
    simpa using h
  · simp only [List.map_map]
    apply List.map_congr_left
    intro p _
    exact erase_columns_eq
      (fun c => (mapGet (columnHasData (fixed ++ dynamic) groups) c).getD false)
      (hasData groups) dynamic hkeep
      [Cell.text p.2.Vid, Cell.text p.2.ID, Cell.number p.2.Otmena] rfl
      (fun header => Cell.number (columnValue p.2 header))

/-! ## The loop bodies when the required columns are present -/

theorem groupStep_eq (headers : List String) (hreq : ∀ col ∈ groupRequired, col ∈ headers)
    (mapping : List (String × GroupingSetting)) (groups : List (String × GroupData))
    (row : List String) :
    groupStep headers (colIndexes headers) mapping groups row =
      some (groupRead headers mapping groups row) := by
  unfold groupStep groupRead
  by_cases hlen : row.length < headers.length
  · simp [hlen]
  · have hle : headers.length ≤ row.length := by omega
    rw [if_neg hlen, if_neg hlen,
      cellAt_eq_some_field headers row "Группа услуг" (hreq _ (by decide)) hle,
      cellAt_eq_some_field headers row "ID начисления" (hreq _ (by decide)) hle,
      cellAt_eq_some_field headers row "Тип начисления" (hreq _ (by decide)) hle,
      cellAt_eq_some_field headers row "Сумма итого, руб" (hreq _ (by decide)) hle]
    by_cases hg : field headers row "Группа услуг" = "Возвраты"
    · simp [hg]
    · simp only [hg, ↓reduceIte]
      cases parseSum (field headers row "Сумма итого, руб") <;> rfl

theorem uniqueTypesStep_eq (headers : List String)
    (hreq : ∀ col ∈ groupRequired, col ∈ headers)
    (uniqueTypes : List (String × Bool)) (row : List String) :
    uniqueTypesStep headers (colIndexes headers) uniqueTypes row =
      some (typesRead headers uniqueTypes row) := by
  unfold uniqueTypesStep typesRead
  by_cases hle : headers.length ≤ row.length
  · rw [if_pos hle, if_pos hle,
      cellAt_eq_some_field headers row "Группа услуг" (hreq _ (by decide)) hle,
      cellAt_eq_some_field headers row "Тип начисления" (hreq _ (by decide)) hle]
    by_cases hg : field headers row "Группа услуг" = "Возвраты"
    · simp [hg]
    · simp [hg]
  · simp [hle]

theorem returnsStep_eq (headers : List String)
    (hreq : ∀ col ∈ returnsRequired, col ∈ headers)
    (returnsMap : List (String × ReturnData)) (row : List String) :
    returnsStep headers (colIndexes headers) returnsMap row =
      some (returnsRead headers returnsMap row) := by
  unfold returnsStep returnsRead
  by_cases hlen : row.length < headers.length
  · simp [hlen]
  · have hle : headers.length ≤ row.length := by omega
    rw [if_neg hlen, if_neg hlen,
      cellAt_eq_some_field headers row "Группа услуг" (hreq _ (by decide)) hle,
      cellAt_eq_some_field headers row "ID начисления" (hreq _ (by decide)) hle,
      cellAt_eq_some_field headers row "Сумма итого, руб" (hreq _ (by decide)) hle]
    by_cases hg : field headers row "Группа услуг" = "Возвраты"
    · simp only [hg, ne_eq, not_true_eq_false, ↓reduceIte]
      cases parseSum (field headers row "Сумма итого, руб") with
      | none => rfl
      | some sum =>
        simp only
        cases mapGet returnsMap (normalizeID (field headers row "ID начисления")) <;> rfl
    · simp [hg]

theorem groupSheet_eq (rows : List (List String)) (settings : List GroupingSetting)
    (h3 : 3 ≤ rows.length) (hreq : ∀ col ∈ groupRequired, col ∈ headerRow rows) :
    groupSheet rows settings =
      Outcome.written
        (Table.mk (["Вид", "ID начисления", "Отмена"] ++ dynamicColumns rows settings)
          ((groupsOf rows settings).map (fun p => groupRow (dynamicColumns rows settings) p.2)),
          groupsOf rows settings) := by
  unfold groupSheet
  rw [if_neg (by omega)]
  simp only []
  have hfm : firstMissing (colIndexes (rows.getD 1 [])) groupRequired = none :=
    firstMissing_eq_none _ _ hreq
  have htypes : (rows.drop 2).foldlM (uniqueTypesStep (rows.getD 1 [])
      (colIndexes (rows.getD 1 []))) [] = some (typesOf rows) :=
    foldlM_eq_some_foldl _ (typesRead (rows.getD 1 [])) _ _
      (fun t x _ => uniqueTypesStep_eq _ hreq t x)
  have hgroups : (rows.drop 2).foldlM (groupStep (rows.getD 1 [])
      (colIndexes (rows.getD 1 [])) (columnMapping settings)) [] = some (groupsOf rows settings) :=
    foldlM_eq_some_foldl _ (groupRead (rows.getD 1 []) (columnMapping settings)) _ _
      (fun t x _ => groupStep_eq _ hreq _ t x)
  rw [hfm]
  simp only [htypes, hgroups]
  rfl

theorem groupData_eq (rows : List (List String)) (settings : List GroupingSetting)
    (h3 : 3 ≤ rows.length) (hreq : ∀ col ∈ groupRequired, col ∈ headerRow rows) :
    groupData rows settings =
      Outcome.written (Table.mk (["Вид", "ID начисления", "Отмена"] ++ keptColumns rows settings)
        ((groupsOf rows settings).map (fun p => groupRow (keptColumns rows settings) p.2))) := by
  unfold groupData
  rw [groupSheet_eq rows settings h3 hreq]
  simp only []
  exact congrArg Outcome.written
    (prune_eq ["Вид", "ID начисления", "Отмена"] (dynamicColumns rows settings) rfl
      (groupsOf rows settings))

/-! ## The accumulation of one amount -/

theorem mapGet_columnMapping_aux (settings : List GroupingSetting)
    (m : List (String × GroupingSetting)) (tipNach : String) :
    mapGet (settings.foldl (fun m setting => mapSet m setting.SourceColumn setting) m) tipNach =
      (ruleOf settings tipNach).orElse (fun _ => mapGet m tipNach) := by
  induction settings generalizing m with
  | nil => simp [ruleOf]
  | cons s settings ih =>
    rw [List.foldl_cons, ih]
    unfold ruleOf
    rw [List.reverse_cons, List.find?_append]
    cases hfind : settings.reverse.find? (fun setting => decide (setting.SourceColumn = tipNach)) with
    | some r => simp
    | none =>
      rw [mapGet_mapSet]
      by_cases hs : s.SourceColumn = tipNach
      · simp [hs]
      · simp [hs]

theorem mapGet_columnMapping (settings : List GroupingSetting) (tipNach : String) :
    mapGet (columnMapping settings) tipNach = ruleOf settings tipNach := by
  unfold columnMapping
  rw [mapGet_columnMapping_aux]
  cases ruleOf settings tipNach <;> simp [mapGet]

theorem resolve_columnMapping (settings : List GroupingSetting) (tipNach : String) :
    resolve (columnMapping settings) tipNach =
      (targetOf settings tipNach, flagOf settings tipNach) := by
  unfold resolve targetOf flagOf
  rw [mapGet_columnMapping]
  cases ruleOf settings tipNach <;> rfl

theorem valueAt_accumulate (mapping : List (String × GroupingSetting))
    (groups : List (String × GroupData)) (id tipNach : String) (sum : ℚ) (k t : String) :
    valueAt (accumulate mapping groups id tipNach sum) k t =
      valueAt groups k t +
        (if id = k ∧ tipNach ≠ cancellation ∧ (resolve mapping tipNach).1 = t then sum else 0) := by
  unfold valueAt accumulate
  by_cases hk : id = k
  · subst hk
    by_cases hc : tipNach = cancellation
    · simp only [hc, ↓reduceIte, mapGet_mapSet_self, ne_eq, not_true_eq_false, false_and,
        and_false, add_zero]
      cases mapGet groups id <;> rfl
    · simp only [hc, ↓reduceIte, mapGet_mapSet_self, ne_eq, not_false_eq_true, true_and]
      unfold columnValue
      simp only [mapGet_mapSet]
      by_cases ht : (resolve mapping tipNach).1 = t
      · subst ht
        cases mapGet groups id <;> simp [mapGet]
      · cases mapGet groups id <;> simp [ht, mapGet]
  · by_cases hc : tipNach = cancellation
    · simp [hc, hk, mapGet_mapSet_ne _ _ _ _ hk]
    · simp [hc, hk, mapGet_mapSet_ne _ _ _ _ hk]

theorem otmenaAt_accumulate (mapping : List (String × GroupingSetting))
    (groups : List (String × GroupData)) (id tipNach : String) (sum : ℚ) (k : String) :
    otmenaAt (accumulate mapping groups id tipNach sum) k =
      otmenaAt groups k + (if id = k ∧ tipNach = cancellation then sum else 0) := by
  unfold otmenaAt accumulate
  by_cases hk : id = k
  · subst hk
    by_cases hc : tipNach = cancellation
    · simp only [hc, ↓reduceIte, mapGet_mapSet_self, and_self]
      cases mapGet groups id <;> simp
    · simp only [hc, ↓reduceIte, mapGet_mapSet_self, and_false, add_zero]
      cases mapGet groups id <;> rfl
  · by_cases hc : tipNach = cancellation
    · simp [hc, hk, mapGet_mapSet_ne _ _ _ _ hk]
    · simp [hc, hk, mapGet_mapSet_ne _ _ _ _ hk]

theorem vidAt_accumulate (mapping : List (String × GroupingSetting))
    (groups : List (String × GroupData)) (id tipNach : String) (sum : ℚ) (k : String) :
    vidAt (accumulate mapping groups id tipNach sum) k =
      if id = k ∧ tipNach ≠ cancellation ∧ (resolve mapping tipNach).2 = true ∧ sum ≠ 0 then "Д"
      else vidAt groups k := by
  unfold vidAt accumulate
  by_cases hk : id = k
  · subst hk
    by_cases hc : tipNach = cancellation
    · simp only [hc, ↓reduceIte, mapGet_mapSet_self, ne_eq, not_true_eq_false, false_and,
        and_false]
      cases mapGet groups id <;> rfl
    · simp only [hc, ↓reduceIte, mapGet_mapSet_self, ne_eq, not_false_eq_true, true_and]
      by_cases hf : (resolve mapping tipNach).2 = true ∧ sum ≠ 0
      · simp [hf]
      · simp only [ne_eq] at hf
        simp only [hf, ↓reduceIte]
        cases mapGet groups id <;> rfl
  · by_cases hc : tipNach = cancellation
    · simp [hc, hk, mapGet_mapSet_ne _ _ _ _ hk]
    · simp [hc, hk, mapGet_mapSet_ne _ _ _ _ hk]

theorem keys_accumulate (mapping : List (String × GroupingSetting))
    (groups : List (String × GroupData)) (id tipNach : String) (sum : ℚ) (k : String) :
    k ∈ (accumulate mapping groups id tipNach sum).map Prod.fst ↔
      k = id ∨ k ∈ groups.map Prod.fst := by
  unfold accumulate
  simp only []
  split <;> exact mem_keys_mapSet _ _ _ _

theorem wellKeyed_mapSet (groups : List (String × GroupData)) (id : String) (data : GroupData)
    (h : WellKeyed groups) (hid : data.ID = id) : WellKeyed (mapSet groups id data) := by
  refine ⟨nodup_keys_mapSet _ _ _ h.1, ?_⟩
  intro p hp
  have hnd := nodup_keys_mapSet groups id data h.1
  have hget := mapGet_of_mem _ hnd p.1 p.2 hp
  rw [mapGet_mapSet] at hget
  split at hget
  · rename_i hk
    rw [← Option.some.inj hget, hid, hk]
  · exact h.2 p (mem_of_mapGet _ _ _ hget)

theorem wellKeyed_accumulate (mapping : List (String × GroupingSetting))
    (groups : List (String × GroupData)) (id tipNach : String) (sum : ℚ)
    (h : WellKeyed groups) : WellKeyed (accumulate mapping groups id tipNach sum) := by
  have hdata : (match mapGet groups id with
      | some data => data
      | none => GroupData.mk "" id 0 []).ID = id := by
    cases hg : mapGet groups id with
    | none => rfl
    | some d => exact h.2 (id, d) (mem_of_mapGet _ _ _ hg)
  unfold accumulate
  simp only []
  split
  · exact wellKeyed_mapSet _ _ _ h hdata
  · exact wellKeyed_mapSet _ _ _ h hdata

/-! ## The records of the Grouping Aggregator -/

theorem groupRead_eq_contribution (headers : List String)
    (hreq : ∀ col ∈ groupRequired, col ∈ headers)
    (mapping : List (String × GroupingSetting)) (groups : List (String × GroupData))
    (row : List String) :
    groupRead headers mapping groups row =
      match contribution headers row with
      | some c => accumulate mapping groups c.1 c.2.1 c.2.2
      | none => groups := by
  unfold groupRead contribution
  by_cases hlen : row.length < headers.length
  · have hle : ¬ headers.length ≤ row.length := by omega
    simp [hlen, hle]
  · have hle : headers.length ≤ row.length := by omega
    have h1 := cellAt_eq_some_field headers row "Группа услуг" (hreq _ (by decide)) hle
    have h2 := cellAt_eq_some_field headers row "ID начисления" (hreq _ (by decide)) hle
    have h3 := cellAt_eq_some_field headers row "Тип начисления" (hreq _ (by decide)) hle
    have h4 := cellAt_eq_some_field headers row "Сумма итого, руб" (hreq _ (by decide)) hle
    unfold isNonReturn rowKey rowAmount
    rw [if_neg hlen, h1, h2, h3, h4]
    by_cases hg : field headers row "Группа услуг" = "Возвраты"
    · simp [hg]
    · simp only [hg, ↓reduceIte, hle, ne_eq, not_false_eq_true, decide_True, and_self,
        Option.map_some', Option.some_bind]
      cases parseSum (field headers row "Сумма итого, руб") <;> rfl

theorem contribution_eq_some (headers : List String) (row : List String)
    (c : String × String × ℚ) (h : contribution headers row = some c) :
    headers.length ≤ row.length ∧ isNonReturn headers row = true ∧
      rowKey headers row = some c.1 ∧
      cellAt (colIndexes headers) row "Тип начисления" = some c.2.1 ∧
      rowAmount headers row = some c.2.2 := by
  unfold contribution at h
  split at h
  · rename_i hc
    split at h
    · rename_i id tipNach sum h1 h2 h3
      have hcc : (id, tipNach, sum) = c := Option.some.inj h
      subst hcc
      exact ⟨hc.1, hc.2, h1, h2, h3⟩
    · exact Option.noConfusion h
  · exact Option.noConfusion h

theorem contribution_of_facts (headers : List String) (row : List String)
    (id tipNach : String) (sum : ℚ)
    (hle : headers.length ≤ row.length) (hnr : isNonReturn headers row = true)
    (hk : rowKey headers row = some id)
    (ht : cellAt (colIndexes headers) row "Тип начисления" = some tipNach)
    (ha : rowAmount headers row = some sum) :
    contribution headers row = some (id, tipNach, sum) := by
  unfold contribution
  rw [if_pos ⟨hle, hnr⟩, hk, ht, ha]

theorem contribution_eq_none (headers : List String) (row : List String)
    (hreq : ∀ col ∈ groupRequired, col ∈ headers)
    (h : contribution headers row = none) :
    ¬ headers.length ≤ row.length ∨ isNonReturn headers row = false ∨
      rowAmount headers row = none := by
  by_cases hle : headers.length ≤ row.length
  · right
    cases hnr : isNonReturn headers row with
    | false => exact Or.inl rfl
    | true =>
      right
      cases ha : rowAmount headers row with
      | none => rfl
      | some sum =>
        have h2 := cellAt_eq_some_field headers row "ID начисления" (hreq _ (by decide)) hle
        have h3 := cellAt_eq_some_field headers row "Тип начисления" (hreq _ (by decide)) hle
        have hk : rowKey headers row = some (normalizeID (field headers row "ID начисления")) := by
          unfold rowKey
          rw [h2]
          rfl
        rw [contribution_of_facts headers row _ _ sum hle hnr hk h3 ha] at h
        exact Option.noConfusion h
  · exact Or.inl hle

/-- What a data row adds to the accumulator of key `k` in column `t`. -/
theorem valueAt_groupRead (headers : List String)
    (hreq : ∀ col ∈ groupRequired, col ∈ headers) (settings : List GroupingSetting)
    (groups : List (String × GroupData)) (row : List String) (k t : String) :
    valueAt (groupRead headers (columnMapping settings) groups row) k t =
      valueAt groups k t +
        (if (decide (headers.length ≤ row.length) && isCategoryRow headers settings k t row) = true
          then (rowAmount headers row).getD 0 else 0) := by
  rw [groupRead_eq_contribution headers hreq]
  cases hc : contribution headers row with
  | none =>
    have hcond : (decide (headers.length ≤ row.length) &&
        isCategoryRow headers settings k t row) = false := by
      rcases contribution_eq_none headers row hreq hc with h | h | h
      · simp [h]
      · simp [isCategoryRow, h]
      · simp [isCategoryRow, h]
    simp [hcond]
  | some c =>
    obtain ⟨hle, hnr, hk, ht, ha⟩ := contribution_eq_some headers row c hc
    simp only [valueAt_accumulate, resolve_columnMapping]
    congr 1
    simp only [isCategoryRow, hle, hnr, hk, ht, ha, decide_True, Bool.true_and, Option.isSome_some,
      Bool.and_true, Option.some.injEq, Option.getD_some, Bool.and_eq_true, decide_eq_true_eq]

/-- What a data row adds to the cancellation accumulator of key `k`. -/
theorem otmenaAt_groupRead (headers : List String)
    (hreq : ∀ col ∈ groupRequired, col ∈ headers) (mapping : List (String × GroupingSetting))
    (groups : List (String × GroupData)) (row : List String) (k : String) :
    otmenaAt (groupRead headers mapping groups row) k =
      otmenaAt groups k +
        (if (decide (headers.length ≤ row.length) && isCancellationRow headers k row) = true
          then (rowAmount headers row).getD 0 else 0) := by
  rw [groupRead_eq_contribution headers hreq]
  cases hc : contribution headers row with
  | none =>
    have hcond : (decide (headers.length ≤ row.length) &&
        isCancellationRow headers k row) = false := by
      rcases contribution_eq_none headers row hreq hc with h | h | h
      · simp [h]
      · simp [isCancellationRow, h]
      · simp [isCancellationRow, h]
    simp [hcond]
  | some c =>
    obtain ⟨hle, hnr, hk, ht, ha⟩ := contribution_eq_some headers row c hc
    simp only [otmenaAt_accumulate]
    congr 1
    simp only [isCancellationRow, hle, hnr, hk, ht, ha, decide_True, Bool.true_and,
      Option.isSome_some, Bool.and_true, Option.some.injEq, Option.getD_some, Bool.and_eq_true,
      decide_eq_true_eq]

/-- How a data row changes the marker of key `k`. -/
theorem vidAt_groupRead (headers : List String)
    (hreq : ∀ col ∈ groupRequired, col ∈ headers) (settings : List GroupingSetting)
    (groups : List (String × GroupData)) (row : List String) (k : String) :
    vidAt (groupRead headers (columnMapping settings) groups row) k =
      if (decide (headers.length ≤ row.length) && isMarkingRow headers settings k row) = true
        then "Д" else vidAt groups k := by
  rw [groupRead_eq_contribution headers hreq]
  cases hc : contribution headers row with
  | none =>
    have hcond : (decide (headers.length ≤ row.length) &&
        isMarkingRow headers settings k row) = false := by
      rcases contribution_eq_none headers row hreq hc with h | h | h
      · simp [h]
      · simp [isMarkingRow, isFlaggedRow, h]
      · simp [isMarkingRow, isFlaggedRow, h]
    simp [hcond]
  | some c =>
    obtain ⟨hle, hnr, hk, ht, ha⟩ := contribution_eq_some headers row c hc
    simp only [vidAt_accumulate, resolve_columnMapping]
    congr 1
    simp only [isMarkingRow, isFlaggedRow, hle, hnr, hk, ht, ha, decide_True, Bool.true_and,
      Option.some.injEq, Bool.and_eq_true, decide_eq_true_eq, ne_eq]
    apply propext
    constructor
    · rintro ⟨h1, h2, h3, h4⟩
      exact ⟨⟨⟨h1, h4⟩, h3⟩, h2⟩
    · rintro ⟨⟨⟨h1, h4⟩, h3⟩, h2⟩
      exact ⟨h1, h2, h3, h4⟩

theorem wellKeyed_groupRead (headers : List String)
    (hreq : ∀ col ∈ groupRequired, col ∈ headers) (mapping : List (String × GroupingSetting))
    (groups : List (String × GroupData)) (row : List String) (h : WellKeyed groups) :
    WellKeyed (groupRead headers mapping groups row) := by
  rw [groupRead_eq_contribution headers hreq]
  cases contribution headers row with
  | none => exact h
  | some c => exact wellKeyed_accumulate _ _ _ _ _ h

/-! ## The grouping table in terms of the data rows -/

theorem filter_fullRows (rows : List (List String)) (p : List String → Bool) :
    (dataRows rows).filter
        (fun row => decide ((headerRow rows).length ≤ row.length) && p row) =
      (fullRows rows).filter p := by
  unfold fullRows
  rw [List.filter_filter]
  congr 1
  funext row
  exact Bool.and_comm _ _

theorem valueAt_groupsOf (rows : List (List String)) (settings : List GroupingSetting)
    (hreq : ∀ col ∈ groupRequired, col ∈ headerRow rows) (k t : String) :
    valueAt (groupsOf rows settings) k t =
      sumAmounts (headerRow rows) (isCategoryRow (headerRow rows) settings k t)
        (fullRows rows) := by
  unfold groupsOf
  rw [foldl_additive (groupRead (headerRow rows) (columnMapping settings))
    (fun s => valueAt s k t) _
    (fun s x => valueAt_groupRead (headerRow rows) hreq settings s x k t)]
  rw [sum_map_ite_eq_sum_filter, filter_fullRows]
  simp [valueAt, mapGet, sumAmounts]

theorem otmenaAt_groupsOf (rows : List (List String)) (settings : List GroupingSetting)
    (hreq : ∀ col ∈ groupRequired, col ∈ headerRow rows) (k : String) :
    otmenaAt (groupsOf rows settings) k =
      sumAmounts (headerRow rows) (isCancellationRow (headerRow rows) k) (fullRows rows) := by
  unfold groupsOf
  rw [foldl_additive (groupRead (headerRow rows) (columnMapping settings))
    (fun s => otmenaAt s k) _
    (fun s x => otmenaAt_groupRead (headerRow rows) hreq (columnMapping settings) s x k)]
  rw [sum_map_ite_eq_sum_filter, filter_fullRows]
  simp [otmenaAt, mapGet, sumAmounts]

theorem foldl_marker {σ β : Type} (g : σ → β → σ) (q : σ → String) (p : β → Bool)
    (h : ∀ s x, q (g s x) = if p x = true then "Д" else q s) (l : List β) (s : σ) :
    q (l.foldl g s) = if l.any p = true then "Д" else q s := by
  induction l generalizing s with
  | nil => simp
  | cons x l ih =>
    rw [List.foldl_cons, ih, h, List.any_cons]
    by_cases h1 : l.any p = true
    · simp [h1]
    · by_cases h2 : p x = true
      · simp [h1, h2]
      · simp [h1, h2]

theorem any_fullRows (rows : List (List String)) (p : List String → Bool) :
    (dataRows rows).any
        (fun row => decide ((headerRow rows).length ≤ row.length) && p row) =
      (fullRows rows).any p := by
  unfold fullRows
  rw [List.any_filter]

theorem vidAt_groupsOf (rows : List (List String)) (settings : List GroupingSetting)
    (hreq : ∀ col ∈ groupRequired, col ∈ headerRow rows) (k : String) :
    vidAt (groupsOf rows settings) k =
      if (fullRows rows).any (isMarkingRow (headerRow rows) settings k) = true then "Д"
      else "" := by
  unfold groupsOf
  rw [foldl_marker (groupRead (headerRow rows) (columnMapping settings))
    (fun s => vidAt s k) _
    (fun s x => vidAt_groupRead (headerRow rows) hreq settings s x k), any_fullRows]
  rfl

theorem wellKeyed_groupsOf (rows : List (List String)) (settings : List GroupingSetting)
    (hreq : ∀ col ∈ groupRequired, col ∈ headerRow rows) :
    WellKeyed (groupsOf rows settings) := by
  unfold groupsOf
  suffices h : ∀ (l : List (List String)) (s : List (String × GroupData)), WellKeyed s →
      WellKeyed (l.foldl (groupRead (headerRow rows) (columnMapping settings)) s) from
    h _ [] ⟨by simp, by simp⟩
  intro l
  induction l with
  | nil => intro s hs; exact hs
  | cons x l ih =>
    intro s hs
    exact ih _ (wellKeyed_groupRead _ hreq _ _ _ hs)

theorem groupRow_eq (groups : List (String × GroupData)) (hw : WellKeyed groups)
    (dynamic : List String) (p : String × GroupData) (hp : p ∈ groups) :
    groupRow dynamic p.2 =
      [Cell.text (vidAt groups p.1), Cell.text p.1, Cell.number (otmenaAt groups p.1)] ++
        dynamic.map (fun header => Cell.number (valueAt groups p.1 header)) := by
  have hget : mapGet groups p.1 = some p.2 := mapGet_of_mem _ hw.1 p.1 p.2 hp
  unfold groupRow vidAt otmenaAt valueAt
  rw [hget, hw.2 p hp]

theorem getElem?_aligned {α β : Type} (pre : List α) (pre2 : List β)
    (hlen : pre.length = pre2.length) (l : List α) (f : α → β) (j : Nat) (t : α)
    (hj : pre.length ≤ j) (h : (pre ++ l)[j]? = some t) :
    (pre2 ++ l.map f)[j]? = some (f t) := by
  rw [List.getElem?_append_right hj] at h
  rw [List.getElem?_append_right (hlen ▸ hj), List.getElem?_map, ← hlen, h]
  rfl

/-! ## The header of the grouping sheet -/

theorem foldl_keys {σ β κ : Type} (keys : σ → List κ) (g : σ → β → σ) (P : β → κ → Prop)
    (h : ∀ s x k, k ∈ keys (g s x) ↔ k ∈ keys s ∨ P x k) (l : List β) (s : σ) (k : κ) :
    k ∈ keys (l.foldl g s) ↔ k ∈ keys s ∨ ∃ x ∈ l, P x k := by
  induction l generalizing s with
  | nil => simp
  | cons x l ih =>
    rw [List.foldl_cons, ih, h]
    constructor
    · rintro ((h1 | h1) | ⟨y, hy, hP⟩)
      · exact Or.inl h1
      · exact Or.inr ⟨x, by simp, h1⟩
      · exact Or.inr ⟨y, by simp [hy], hP⟩
    · rintro (h1 | ⟨y, hy, hP⟩)
      · exact Or.inl (Or.inl h1)
      · rcases List.mem_cons.1 hy with e | e
        · exact Or.inl (Or.inr (e ▸ hP))
        · exact Or.inr ⟨y, e, hP⟩

theorem foldl_nodup_keys {β α : Type} (key : β → String) (val : β → α) (l : List β)
    (s : List (String × α)) (hs : (s.map Prod.fst).Nodup) :
    ((l.foldl (fun m x => mapSet m (key x) (val x)) s).map Prod.fst).Nodup := by
  induction l generalizing s with
  | nil => exact hs
  | cons x l ih =>
    rw [List.foldl_cons]
    exact ih _ (nodup_keys_mapSet _ _ _ hs)

theorem mem_keys_typesRead (headers : List String)
    (hreq : ∀ col ∈ groupRequired, col ∈ headers) (s : List (String × Bool))
    (row : List String) (t : String) :
    t ∈ (typesRead headers s row).map Prod.fst ↔
      t ∈ s.map Prod.fst ∨
        (headers.length ≤ row.length ∧ isNonReturn headers row = true ∧
          cellAt (colIndexes headers) row "Тип начисления" = some t) := by
  unfold typesRead isNonReturn
  by_cases hle : headers.length ≤ row.length
  · rw [if_pos hle,
      cellAt_eq_some_field headers row "Группа услуг" (hreq _ (by decide)) hle,
      cellAt_eq_some_field headers row "Тип начисления" (hreq _ (by decide)) hle]
    by_cases hg : field headers row "Группа услуг" = "Возвраты"
    · simp [hg]
    · rw [if_neg hg, mem_keys_mapSet]
      simp only [hle, hg, ne_eq, not_false_eq_true, decide_True, Option.some.injEq, true_and]
      constructor
      · rintro (h | h)
        · exact Or.inr h.symm
        · exact Or.inl h
      · rintro (h | h)
        · exact Or.inr h
        · exact Or.inl h.symm
  · simp [hle]

theorem mem_keys_typesOf (rows : List (List String))
    (hreq : ∀ col ∈ groupRequired, col ∈ headerRow rows) (t : String) :
    t ∈ (typesOf rows).map Prod.fst ↔
      ∃ row ∈ fullRows rows, isNonReturn (headerRow rows) row = true ∧
        cellAt (colIndexes (headerRow rows)) row "Тип начисления" = some t := by
  unfold typesOf
  rw [foldl_keys (fun s => s.map Prod.fst) (typesRead (headerRow rows))
    (fun row t => (headerRow rows).length ≤ row.length ∧
      isNonReturn (headerRow rows) row = true ∧
      cellAt (colIndexes (headerRow rows)) row "Тип начисления" = some t)
    (fun s x k => mem_keys_typesRead (headerRow rows) hreq s x k)]
  unfold fullRows
  simp only [List.map_nil, List.not_mem_nil, false_or, List.mem_filter, decide_eq_true_eq]
  constructor
  · rintro ⟨row, hrow, hle, h1, h2⟩
    exact ⟨row, ⟨hrow, hle⟩, h1, h2⟩
  · rintro ⟨row, ⟨hrow, hle⟩, h1, h2⟩
    exact ⟨row, hrow, hle, h1, h2⟩

theorem mem_keys_finalColumns (mapping : List (String × GroupingSetting))
    (uniqueTypes : List (String × Bool)) (t : String) :
    t ∈ (finalColumns mapping uniqueTypes).map Prod.fst ↔
      ∃ tipNach ∈ uniqueTypes.map Prod.fst, (resolve mapping tipNach).1 = t := by
  unfold finalColumns
  rw [foldl_keys (fun s => s.map Prod.fst)
    (fun (fc : List (String × Bool)) (p : String × Bool) =>
      mapSet fc (resolve mapping p.1).1 true)
    (fun p t => (resolve mapping p.1).1 = t)
    (fun s x k => by
      rw [mem_keys_mapSet]
      constructor
      · rintro (h | h)
        · exact Or.inr h.symm
        · exact Or.inl h
      · rintro (h | h)
        · exact Or.inr h
        · exact Or.inl h.symm)]
  simp only [List.map_nil, List.not_mem_nil, false_or, List.mem_map]
  constructor
  · rintro ⟨p, hp, h⟩
    exact ⟨p.1, ⟨p, hp, rfl⟩, h⟩
  · rintro ⟨tip, ⟨p, hp, rfl⟩, h⟩
    exact ⟨p, hp, h⟩

theorem nodup_keys_finalColumns (mapping : List (String × GroupingSetting))
    (uniqueTypes : List (String × Bool)) :
    ((finalColumns mapping uniqueTypes).map Prod.fst).Nodup := by
  unfold finalColumns
  exact foldl_nodup_keys (fun p => (resolve mapping p.1).1) (fun _ => true) uniqueTypes []
    (by simp)

theorem mem_sortStrings (l : List String) (t : String) : t ∈ sortStrings l ↔ t ∈ l :=
  (List.perm_insertionSort _ l).mem_iff

theorem nodup_sortStrings (l : List String) (h : l.Nodup) : (sortStrings l).Nodup :=
  (List.perm_insertionSort _ l).nodup_iff.2 h

theorem sorted_sortStrings (l : List String) (h : l.Nodup) :
    (sortStrings l).Sorted (fun a b => a < b) :=
  (List.sorted_insertionSort (fun a b : String => a ≤ b) l).lt_of_le (nodup_sortStrings l h)

theorem mem_dynamicColumns (rows : List (List String)) (settings : List GroupingSetting)
    (hreq : ∀ col ∈ groupRequired, col ∈ headerRow rows) (t : String) :
    t ∈ dynamicColumns rows settings ↔
      ∃ row ∈ fullRows rows, isNonReturn (headerRow rows) row = true ∧
        ∃ tipNach, cellAt (colIndexes (headerRow rows)) row "Тип начисления" = some tipNach ∧
          targetOf settings tipNach = t := by
  unfold dynamicColumns
  rw [mem_sortStrings, mem_keys_finalColumns]
  constructor
  · rintro ⟨tip, htip, h⟩
    obtain ⟨row, hrow, h1, h2⟩ := (mem_keys_typesOf rows hreq tip).1 htip
    rw [resolve_columnMapping] at h
    exact ⟨row, hrow, h1, tip, h2, h⟩
  · rintro ⟨row, hrow, h1, tip, h2, h⟩
    refine ⟨tip, (mem_keys_typesOf rows hreq tip).2 ⟨row, hrow, h1, h2⟩, ?_⟩
    rw [resolve_columnMapping]
    exact h

theorem sorted_dynamicColumns (rows : List (List String)) (settings : List GroupingSetting) :
    (dynamicColumns rows settings).Sorted (fun a b => a < b) :=
  sorted_sortStrings _ (nodup_keys_finalColumns _ _)

/-! ## The special marker (C5) -/

/-- C5, counterexample to the claim as stated.  In `markerSheet` with `markerRules`, key
`A-1` has a contributing row with non-zero amount whose accrual type, the cancellation
label, maps through a flagged rule, and key `B-2` has such a row with the flagged type
"Бонус"; the first is a cancellation row, the second has fewer cells than the header, and
both keys keep the empty marker. -/
theorem groupData_marker_counterexample :
    groupData markerSheet markerRules =
        Outcome.written (Table.mk ["Вид", "ID начисления", "Отмена", "Плата"]
          [[Cell.text "", Cell.text "A-1", Cell.number 5, Cell.number 0],
           [Cell.text "", Cell.text "B-2", Cell.number 0, Cell.number 1]]) ∧
      (∃ row ∈ dataRows markerSheet,
        isFlaggedRow (headerRow markerSheet) markerRules "A-1" row = true) ∧
      (∃ row ∈ dataRows markerSheet,
        isFlaggedRow (headerRow markerSheet) markerRules "B-2" row = true) ∧
      ¬ (∀ T, groupData markerSheet markerRules = Outcome.written T →
          ∀ r ∈ T.rows, ∀ k, r[1]? = some (Cell.text k) →
            (r[0]? = some (Cell.text "Д") ↔
              ∃ row ∈ dataRows markerSheet,
                isFlaggedRow (headerRow markerSheet) markerRules k row = true)) := by
  have heval : groupData markerSheet markerRules =
      Outcome.written (Table.mk ["Вид", "ID начисления", "Отмена", "Плата"]
        [[Cell.text "", Cell.text "A-1", Cell.number 5, Cell.number 0],
         [Cell.text "", Cell.text "B-2", Cell.number 0, Cell.number 1]]) := by decide!
  have hA : ∃ row ∈ dataRows markerSheet,
      isFlaggedRow (headerRow markerSheet) markerRules "A-1" row = true :=
    ⟨["A-1-7", "Продажи", "Обработка операционных ошибок продавца: отмена", "500", "x"],
      by decide, by decide!⟩
  have hB : ∃ row ∈ dataRows markerSheet,
      isFlaggedRow (headerRow markerSheet) markerRules "B-2" row = true :=
    ⟨["B-2-2", "Продажи", "Бонус", "300"], by decide, by decide!⟩
  refine ⟨heval, hA, hB, ?_⟩
  intro h
  have h1 := (h _ heval [Cell.text "", Cell.text "A-1", Cell.number 5, Cell.number 0]
    (by simp) "A-1" rfl).2 hA
  exact absurd h1 (by decide)

/-- C5, amended.  For every rule table and source sheet that passes the header checks, the
output row of key `k` has marker "Д" if and only if at least one data row with normalized
key `k` has at least as many cells as the header row, contributes to the grouping (category
not "Возвраты", amount parses), has a non-zero amount, and has an accrual type that is not
the cancellation label and maps through a rule table entry carrying the special flag; in
every other case the marker of `k` is the empty string. -/
theorem groupData_marker (rows : List (List String)) (settings : List GroupingSetting)
    (h3 : 3 ≤ rows.length) (hreq : ∀ col ∈ groupRequired, col ∈ headerRow rows) :
    ∃ T, groupData rows settings = Outcome.written T ∧
      T.header.take 3 = ["Вид", "ID начисления", "Отмена"] ∧
      ∀ r ∈ T.rows, ∃ k, r[1]? = some (Cell.text k) ∧
        (r[0]? = some (Cell.text "Д") ↔
          ∃ row ∈ fullRows rows, isMarkingRow (headerRow rows) settings k row = true) ∧
        ((¬ ∃ row ∈ fullRows rows, isMarkingRow (headerRow rows) settings k row = true) →
          r[0]? = some (Cell.text "")) := by
  refine ⟨_, groupData_eq rows settings h3 hreq, rfl, ?_⟩
  intro r hr
  simp only [List.mem_map] at hr
  obtain ⟨p, hp, hrow⟩ := hr
  have hw := wellKeyed_groupsOf rows settings hreq
  rw [groupRow_eq _ hw _ p hp] at hrow
  refine ⟨p.1, by rw [← hrow]; rfl, ?_⟩
  have hcell : r[0]? = some (Cell.text (vidAt (groupsOf rows settings) p.1)) := by
    rw [← hrow]; rfl
  rw [hcell, vidAt_groupsOf rows settings hreq]
  by_cases hany : (fullRows rows).any (isMarkingRow (headerRow rows) settings p.1) = true
  · have hex : ∃ row ∈ fullRows rows, isMarkingRow (headerRow rows) settings p.1 row = true :=
      List.any_eq_true.1 hany
    simp only [hany, ↓reduceIte, true_iff]
    exact ⟨hex, fun hno => absurd hex hno⟩
  · have hex : ¬ ∃ row ∈ fullRows rows, isMarkingRow (headerRow rows) settings p.1 row = true :=
      fun h => hany (List.any_eq_true.2 h)
    simp only [hany]
    refine ⟨⟨fun h => ?_, fun h => absurd h hex⟩, fun _ => rfl⟩
    have h2 : ("" : String) = "Д" := by
      have := Option.some.inj h
      exact Cell.text.inj this
    exact absurd h2 (by decide)

theorem groupData_marker_witness :
    ∃ T, groupData flaggedSheet markerRules = Outcome.written T ∧
      T.header.take 3 = ["Вид", "ID начисления", "Отмена"] ∧
      ∀ r ∈ T.rows, ∃ k, r[1]? = some (Cell.text k) ∧
        (r[0]? = some (Cell.text "Д") ↔
          ∃ row ∈ fullRows flaggedSheet,
            isMarkingRow (headerRow flaggedSheet) markerRules k row = true) ∧
        ((¬ ∃ row ∈ fullRows flaggedSheet,
            isMarkingRow (headerRow flaggedSheet) markerRules k row = true) →
          r[0]? = some (Cell.text "")) :=
  groupData_marker flaggedSheet markerRules (by decide) (by decide)

/-! ## Pruning of the empty columns (C4) -/

/-- C6, counterexample to the claim as stated.  In `typeSheet` the accrual type "Бонус"
stands on a non-return data row and resolves to itself, but that row has fewer cells than
the header and the first loop skips it: the header written before pruning has the single
dynamic column "Плата". -/
theorem groupSheet_shortRow_counterexample :
    groupSheet typeSheet [] =
        Outcome.written
          (Table.mk ["Вид", "ID начисления", "Отмена", "Плата"]
            [[Cell.text "", Cell.text "A-1", Cell.number 0, Cell.number 1]],
           [("A-1", GroupData.mk "" "A-1" 0 [("Плата", 1)])]) ∧
      (∃ row ∈ dataRows typeSheet, isNonReturn (headerRow typeSheet) row = true ∧
        ∃ tipNach, cellAt (colIndexes (headerRow typeSheet)) row "Тип начисления" = some tipNach ∧
          targetOf [] tipNach = "Бонус") ∧
      "Бонус" ∉ ["Вид", "ID начисления", "Отмена", "Плата"].drop 3 := by
  refine ⟨by decide!, ⟨["A-1-9", "Продажи", "Бонус", "200"], by decide, by decide!,
    "Бонус", by decide!, by decide!⟩, by decide⟩

/-- C6, amended.  For a sheet that passes the header checks, the header written by the pass
starts with the three fixed columns "Вид", "ID начисления", "Отмена" in this order; the
columns after them are pairwise distinct and in strictly increasing lexicographic order,
before and after pruning; before pruning they are exactly the resolved target column names
(the rule's target label when a rule matches, the accrual type itself otherwise) of the
accrual types of the non-return data rows that have at least as many cells as the header
row. -/
theorem groupData_header (rows : List (List String)) (settings : List GroupingSetting)
    (h3 : 3 ≤ rows.length) (hreq : ∀ col ∈ groupRequired, col ∈ headerRow rows) :
    ∃ sheet groups T, groupSheet rows settings = Outcome.written (sheet, groups) ∧
      groupData rows settings = Outcome.written T ∧
      sheet.header.take 3 = ["Вид", "ID начисления", "Отмена"] ∧
      T.header.take 3 = ["Вид", "ID начисления", "Отмена"] ∧
      (sheet.header.drop 3).Sorted (fun a b => a < b) ∧ (sheet.header.drop 3).Nodup ∧
      (T.header.drop 3).Sorted (fun a b => a < b) ∧ (T.header.drop 3).Nodup ∧
      (T.header.drop 3).Sublist (sheet.header.drop 3) ∧
      ∀ t, t ∈ sheet.header.drop 3 ↔
        ∃ row ∈ fullRows rows, isNonReturn (headerRow rows) row = true ∧
          ∃ tipNach,
            cellAt (colIndexes (headerRow rows)) row "Тип начисления" = some tipNach ∧
              targetOf settings tipNach = t := by
  have hs := sorted_dynamicColumns rows settings
  have hsub : (keptColumns rows settings).Sublist (dynamicColumns rows settings) :=
    List.filter_sublist _
  refine ⟨_, _, _, groupSheet_eq rows settings h3 hreq, groupData_eq rows settings h3 hreq,
    rfl, rfl, hs, hs.nodup, hs.sublist hsub, (hs.sublist hsub).nodup, hsub, ?_⟩
  intro t
  exact mem_dynamicColumns rows settings hreq t

theorem groupData_header_witness :
    groupSheet pruningSheet [] =
        Outcome.written
          (Table.mk ["Вид", "ID начисления", "Отмена", "Бонус", "Плата", "Эквайринг"]
            [[Cell.text "", Cell.text "A-1", Cell.number 0, Cell.number 0, Cell.number 1,
              Cell.number 0],
             [Cell.text "", Cell.text "B-2", Cell.number 0, Cell.number 0, Cell.number 0,
              Cell.number (-1 / 2)]],
           [("A-1", GroupData.mk "" "A-1" 0 [("Плата", 1), ("Бонус", 0)]),
            ("B-2", GroupData.mk "" "B-2" 0 [("Эквайринг", -1 / 2), ("Бонус", 0)])]) ∧
      ∃ sheet groups T, groupSheet pruningSheet [] = Outcome.written (sheet, groups) ∧
        groupData pruningSheet [] = Outcome.written T ∧
        sheet.header.take 3 = ["Вид", "ID начисления", "Отмена"] ∧
        T.header.take 3 = ["Вид", "ID начисления", "Отмена"] ∧
        (sheet.header.drop 3).Sorted (fun a b => a < b) ∧ (sheet.header.drop 3).Nodup ∧
        (T.header.drop 3).Sorted (fun a b => a < b) ∧ (T.header.drop 3).Nodup ∧
        (T.header.drop 3).Sublist (sheet.header.drop 3) ∧
        ∀ t, t ∈ sheet.header.drop 3 ↔
          ∃ row ∈ fullRows pruningSheet, isNonReturn (headerRow pruningSheet) row = true ∧
            ∃ tipNach,
              cellAt (colIndexes (headerRow pruningSheet)) row "Тип начисления" = some tipNach ∧
                targetOf [] tipNach = t :=
  ⟨by decide!, groupData_header pruningSheet [] (by decide) (by decide)⟩

/-! ## The Returns Extractor -/

theorem returnsRead_cases (headers : List String)
    (hreq : ∀ col ∈ returnsRequired, col ∈ headers)
    (m : List (String × ReturnData)) (row : List String) :
    (returnsRead headers m row = m ∧
      ∀ k, (decide (headers.length ≤ row.length) && isReturnRow headers k row) = false) ∨
    (∃ id sum, headers.length ≤ row.length ∧ rowAmount headers row = some sum ∧
      (∀ k, isReturnRow headers k row = decide (id = k)) ∧
      returnsRead headers m row =
        match mapGet m id with
        | some existing =>
          mapSet m id (ReturnData.mk existing.ID (existing.Sum + sum) existing.FullData)
        | none => mapSet m id (ReturnData.mk id sum row)) := by
  unfold returnsRead
  by_cases hlen : row.length < headers.length
  · left
    have hle : ¬ headers.length ≤ row.length := by omega
    simp [hlen, hle]
  · have hle : headers.length ≤ row.length := by omega
    have h1 := cellAt_eq_some_field headers row "Группа услуг" (hreq _ (by decide)) hle
    have h2 := cellAt_eq_some_field headers row "ID начисления" (hreq _ (by decide)) hle
    have h4 := cellAt_eq_some_field headers row "Сумма итого, руб" (hreq _ (by decide)) hle
    rw [if_neg hlen]
    by_cases hg : field headers row "Группа услуг" = "Возвраты"
    · cases hp : parseSum (field headers row "Сумма итого, руб") with
      | none =>
        left
        refine ⟨by simp [hg], ?_⟩
        intro k
        simp [isReturnRow, rowAmount, h4, hp]
      | some sum =>
        right
        refine ⟨normalizeID (field headers row "ID начисления"), sum, hle, ?_, ?_, ?_⟩
        · simp [rowAmount, h4, hp]
        · intro k
          simp [isReturnRow, rowAmount, rowKey, h1, h2, h4, hp, hg]
        · simp [hg]
    · left
      refine ⟨by simp [hg], ?_⟩
      intro k
      simp [isReturnRow, h1, hg]

theorem sumAt_returnsRead (headers : List String)
    (hreq : ∀ col ∈ returnsRequired, col ∈ headers)
    (m : List (String × ReturnData)) (row : List String) (k : String) :
    sumAt (returnsRead headers m row) k =
      sumAt m k +
        (if (decide (headers.length ≤ row.length) && isReturnRow headers k row) = true
          then (rowAmount headers row).getD 0 else 0) := by
  rcases returnsRead_cases headers hreq m row with ⟨h1, h2⟩ | ⟨id, sum, hle, ha, hk, h⟩
  · rw [h1, h2 k]
    simp
  · rw [h, hk k, ha]
    unfold sumAt
    by_cases hid : id = k
    · subst hid
      cases hg : mapGet m id <;> simp [mapGet_mapSet_self, hle]
    · cases hg : mapGet m id <;> simp [mapGet_mapSet_ne _ _ _ _ hid, hid]

theorem mem_keys_returnsRead (headers : List String)
    (hreq : ∀ col ∈ returnsRequired, col ∈ headers)
    (m : List (String × ReturnData)) (row : List String) (k : String) :
    k ∈ (returnsRead headers m row).map Prod.fst ↔
      k ∈ m.map Prod.fst ∨
        (headers.length ≤ row.length ∧ isReturnRow headers k row = true) := by
  rcases returnsRead_cases headers hreq m row with ⟨h1, h2⟩ | ⟨id, sum, hle, ha, hk, h⟩
  · rw [h1]
    have := h2 k
    constructor
    · exact fun h => Or.inl h
    · rintro (h | ⟨h3, h4⟩)
      · exact h
      · simp [h3, h4] at this
  · rw [h, hk k]
    have hmem : ∀ v, k ∈ (mapSet m id v).map Prod.fst ↔ k ∈ m.map Prod.fst ∨ id = k := by
      intro v
      rw [mem_keys_mapSet]
      constructor
      · rintro (e | e)
        · exact Or.inr e.symm
        · exact Or.inl e
      · rintro (e | e)
        · exact Or.inr e
        · exact Or.inl e.symm
    cases hg : mapGet m id <;> simp [hmem, hle]

theorem wellKeyedReturns_mapSet (headers : List String) (m : List (String × ReturnData))
    (id : String) (ret : ReturnData) (h : WellKeyedReturns headers m) (hid : ret.ID = id)
    (hfull : headers.length ≤ ret.FullData.length) :
    WellKeyedReturns headers (mapSet m id ret) := by
  refine ⟨nodup_keys_mapSet _ _ _ h.1, ?_⟩
  intro p hp
  have hnd := nodup_keys_mapSet m id ret h.1
  have hget := mapGet_of_mem _ hnd p.1 p.2 hp
  rw [mapGet_mapSet] at hget
  split at hget
  · rename_i hk
    rw [← Option.some.inj hget, hid, hk]
    exact ⟨rfl, hfull⟩
  · exact h.2 p (mem_of_mapGet _ _ _ hget)

theorem wellKeyedReturns_returnsRead (headers : List String)
    (hreq : ∀ col ∈ returnsRequired, col ∈ headers)
    (m : List (String × ReturnData)) (row : List String) (h : WellKeyedReturns headers m) :
    WellKeyedReturns headers (returnsRead headers m row) := by
  rcases returnsRead_cases headers hreq m row with ⟨h1, _⟩ | ⟨id, sum, hle, ha, hk, h2⟩
  · rw [h1]
    exact h
  · rw [h2]
    cases hg : mapGet m id with
    | none => exact wellKeyedReturns_mapSet headers m id _ h rfl hle
    | some existing =>
      have := h.2 (id, existing) (mem_of_mapGet _ _ _ hg)
      exact wellKeyedReturns_mapSet headers m id _ h this.1 this.2

theorem wellKeyedReturns_returnsOf (rows : List (List String))
    (hreq : ∀ col ∈ returnsRequired, col ∈ headerRow rows) :
    WellKeyedReturns (headerRow rows) (returnsOf rows) := by
  unfold returnsOf
  suffices h : ∀ (l : List (List String)) (s : List (String × ReturnData)),
      WellKeyedReturns (headerRow rows) s →
      WellKeyedReturns (headerRow rows) (l.foldl (returnsRead (headerRow rows)) s) from
    h _ [] ⟨by simp, by simp⟩
  intro l
  induction l with
  | nil => intro s hs; exact hs
  | cons x l ih =>
    intro s hs
    exact ih _ (wellKeyedReturns_returnsRead _ hreq _ _ hs)

theorem sumAt_returnsOf (rows : List (List String))
    (hreq : ∀ col ∈ returnsRequired, col ∈ headerRow rows) (k : String) :
    sumAt (returnsOf rows) k =
      sumAmounts (headerRow rows) (isReturnRow (headerRow rows) k) (fullRows rows) := by
  unfold returnsOf
  rw [foldl_additive (returnsRead (headerRow rows)) (fun s => sumAt s k) _
    (fun s x => sumAt_returnsRead (headerRow rows) hreq s x k)]
  rw [sum_map_ite_eq_sum_filter, filter_fullRows]
  simp [sumAt, mapGet, sumAmounts]

theorem mem_keys_returnsOf (rows : List (List String))
    (hreq : ∀ col ∈ returnsRequired, col ∈ headerRow rows) (k : String) :
    k ∈ (returnsOf rows).map Prod.fst ↔
      ∃ row ∈ fullRows rows, isReturnRow (headerRow rows) k row = true := by
  unfold returnsOf
  rw [foldl_keys (fun s => s.map Prod.fst) (returnsRead (headerRow rows))
    (fun row k => (headerRow rows).length ≤ row.length ∧
      isReturnRow (headerRow rows) k row = true)
    (fun s x k => mem_keys_returnsRead (headerRow rows) hreq s x k)]
  unfold fullRows
  simp only [List.map_nil, List.not_mem_nil, false_or, List.mem_filter, decide_eq_true_eq]
  constructor
  · rintro ⟨row, hrow, hle, h1⟩
    exact ⟨row, ⟨hrow, hle⟩, h1⟩
  · rintro ⟨row, ⟨hrow, hle⟩, h1⟩
    exact ⟨row, hrow, hle, h1⟩

theorem mapM_eq_some_map {α β : Type} (f : α → Option β) (g : α → β) (l : List α)
    (h : ∀ x ∈ l, f x = some (g x)) : l.mapM f = some (l.map g) := by
  induction l with
  | nil => rfl
  | cons a l ih =>
    rw [List.mapM_cons, h a (by simp), ih (fun x hx => h x (by simp [hx]))]
    rfl

theorem returnsCell_eq (headers : List String) (ret : ReturnData) (header : String)
    (hmem : header ∈ headers) (hfull : headers.length ≤ ret.FullData.length) :
    returnsCell (colIndexes headers) ret header = some (returnsCellRead headers ret header) := by
  unfold returnsCell returnsCellRead
  by_cases h1 : header = "ID начисления"
  · simp [h1]
  · by_cases h2 : header = "Сумма итого, руб"
    · simp [h2]
    · rw [if_neg h1, if_neg h2, if_neg h1, if_neg h2]
      obtain ⟨i, hi, hi1, hi2⟩ := colIndexes_get headers header hmem
      have hcell := cellAt_eq_some_field headers ret.FullData header hmem hfull
      unfold cellAt at hcell
      have hlt : ((((mapGet (colIndexes headers) header).getD 0 : Nat) : Int) - 1) <
          (ret.FullData.length : Int) := by
        rw [hi]
        simp only [Option.getD_some]
        omega
      simp only [hlt, ↓reduceIte, hcell, Option.map_some']

theorem processReturns_eq (rows : List (List String)) (h3 : 3 ≤ rows.length)
    (hreq : ∀ col ∈ returnsRequired, col ∈ headerRow rows) :
    processReturns rows =
      Outcome.written (Table.mk (outputHeaders (headerRow rows))
        ((returnsOf rows).map
          (fun p => (outputHeaders (headerRow rows)).map (returnsCellRead (headerRow rows) p.2)))) := by
  unfold processReturns
  rw [if_neg (by omega)]
  simp only []
  have hfm : firstMissing (colIndexes (rows.getD 1 [])) returnsRequired = none :=
    firstMissing_eq_none _ _ hreq
  have hfold : (rows.drop 2).foldlM (returnsStep (rows.getD 1 [])
      (colIndexes (rows.getD 1 []))) [] = some (returnsOf rows) :=
    foldlM_eq_some_foldl _ (returnsRead (rows.getD 1 [])) _ _
      (fun t x _ => returnsStep_eq _ hreq t x)
  have hw := wellKeyedReturns_returnsOf rows hreq
  have hrows : (returnsOf rows).mapM
      (fun p => returnsRow (rows.getD 1 []) (colIndexes (rows.getD 1 [])) p.2) =
      some ((returnsOf rows).map
        (fun p => (outputHeaders (headerRow rows)).map
          (returnsCellRead (headerRow rows) p.2))) := by
    apply mapM_eq_some_map
    intro p hp
    unfold returnsRow
    apply mapM_eq_some_map
    intro header hheader
    have hmem : header ∈ headerRow rows := (List.mem_filter.1 hheader).1
    exact returnsCell_eq _ _ _ hmem (hw.2 p hp).2
  rw [hfm]
  simp only [hfold, hrows]
  rfl

theorem cellUnder_map (header : List String) (f : String → Cell) (name : String)
    (h : name ∈ header) : cellUnder header (header.map f) name = some (f name) := by
  unfold cellUnder
  have hlt : header.indexOf name < header.length := List.indexOf_lt_length.2 h
  rw [List.getElem?_map, List.getElem?_eq_getElem hlt, List.getElem_indexOf hlt]
  rfl

theorem returnsRow_cells (headers : List String)
    (hreq : ∀ col ∈ returnsRequired, col ∈ headers) (ret : ReturnData) :
    cellUnder (outputHeaders headers) ((outputHeaders headers).map (returnsCellRead headers ret))
        "ID начисления" = some (Cell.text ret.ID) ∧
      cellUnder (outputHeaders headers)
        ((outputHeaders headers).map (returnsCellRead headers ret))
        "Сумма итого, руб" = some (Cell.number ret.Sum) := by
  have h1 : "ID начисления" ∈ outputHeaders headers :=
    List.mem_filter.2 ⟨hreq _ (by decide), by decide⟩
  have h2 : "Сумма итого, руб" ∈ outputHeaders headers :=
    List.mem_filter.2 ⟨hreq _ (by decide), by decide⟩
  rw [cellUnder_map _ _ _ h1, cellUnder_map _ _ _ h2]
  exact ⟨rfl, rfl⟩

/-! ## Both passes file a row under the normalized identifier -/

theorem returnsStep_keys (headers row : List String) (rawID : String)
    (hid : cellAt (colIndexes headers) row "ID начисления" = some rawID)
    (m m2 : List (String × ReturnData))
    (h : returnsStep headers (colIndexes headers) m row = some m2) (k : String)
    (hk : k ∈ m2.map Prod.fst) : k ∈ m.map Prod.fst ∨ k = normalizeID rawID := by
  unfold returnsStep at h
  rw [hid] at h
  split at h
  · rw [← Option.some.inj h] at hk; exact Or.inl hk
  · split at h
    · exact Option.noConfusion h
    · split at h
      · rw [← Option.some.inj h] at hk; exact Or.inl hk
      · simp only at h
        split at h
        · exact Option.noConfusion h
        · split at h
          · rw [← Option.some.inj h] at hk; exact Or.inl hk
          · split at h
            · rw [← Option.some.inj h, mem_keys_mapSet] at hk
              exact hk.symm
            · rw [← Option.some.inj h, mem_keys_mapSet] at hk
              exact hk.symm

theorem groupStep_keys (headers row : List String) (rawID : String)
    (hid : cellAt (colIndexes headers) row "ID начисления" = some rawID)
    (mapping : List (String × GroupingSetting)) (g g2 : List (String × GroupData))
    (h : groupStep headers (colIndexes headers) mapping g row = some g2) (k : String)
    (hk : k ∈ g2.map Prod.fst) : k ∈ g.map Prod.fst ∨ k = normalizeID rawID := by
  unfold groupStep at h
  rw [hid] at h
  split at h
  · rw [← Option.some.inj h] at hk; exact Or.inl hk
  · split at h
    · exact Option.noConfusion h
    · split at h
      · rw [← Option.some.inj h] at hk; exact Or.inl hk
      · simp only at h
        split at h
        · exact Option.noConfusion h
        · split at h
          · exact Option.noConfusion h
          · split at h
            · rw [← Option.some.inj h] at hk; exact Or.inl hk
            · rw [← Option.some.inj h, keys_accumulate] at hk
              exact hk.symm

/-! ## The Key Normalizer (C7, C8) -/

/-- C7. The Key Normalizer is idempotent: normalizing a normalized identifier returns it
unchanged, for every text. -/
theorem normalizeID_idempotent (x : String) : normalizeID (normalizeID x) = normalizeID x := by
  rcases normalizeID_cases x with ⟨_, h⟩ | ⟨p, q, r, _, hp, hq, h⟩
  · rw [h, h]
  · rw [h]
    have hsplit : splitDash (p ++ '-' :: q) = [p, q] := by
      rw [splitDash_append_dash p q hp, splitDash_of_not_mem q hq]
    simp [normalizeID, hsplit]

/-- C8. The Key Normalizer is a total function with this characterisation: a text with fewer
than two `-` is returned unchanged; otherwise the result is the part of the text before its
second `-`, that is, the first two segments joined by `-`.  In both cases the result is a
prefix of the text and contains at most one `-`.  The Returns Extractor and the Grouping
Aggregator apply the same function: the only key that either loop body can add for a row
is the normalized text of the row's identifier cell. -/
theorem normalizeID_characterisation (x : String) :
    (x.data.count '-' < 2 → normalizeID x = x) ∧
    (2 ≤ x.data.count '-' →
      ∃ p q r, x.data = p ++ '-' :: (q ++ '-' :: r) ∧ '-' ∉ p ∧ '-' ∉ q ∧
        (normalizeID x).data = p ++ '-' :: q) ∧
    (normalizeID x).data <+: x.data ∧ (normalizeID x).data.count '-' ≤ 1 ∧
    (∀ (headers row : List String),
      cellAt (colIndexes headers) row "ID начисления" = some x →
        (∀ m m2, returnsStep headers (colIndexes headers) m row = some m2 →
          ∀ k ∈ m2.map Prod.fst, k ∈ m.map Prod.fst ∨ k = normalizeID x) ∧
        (∀ mapping g g2, groupStep headers (colIndexes headers) mapping g row = some g2 →
          ∀ k ∈ g2.map Prod.fst, k ∈ g.map Prod.fst ∨ k = normalizeID x)) := by
  have hsteps : ∀ (headers row : List String),
      cellAt (colIndexes headers) row "ID начисления" = some x →
        (∀ m m2, returnsStep headers (colIndexes headers) m row = some m2 →
          ∀ k ∈ m2.map Prod.fst, k ∈ m.map Prod.fst ∨ k = normalizeID x) ∧
        (∀ mapping g g2, groupStep headers (colIndexes headers) mapping g row = some g2 →
          ∀ k ∈ g2.map Prod.fst, k ∈ g.map Prod.fst ∨ k = normalizeID x) :=
    fun headers row hid =>
      ⟨fun m m2 h k hk => returnsStep_keys headers row x hid m m2 h k hk,
       fun mapping g g2 h k hk => groupStep_keys headers row x hid mapping g g2 h k hk⟩
  rcases normalizeID_cases x with ⟨hc, h⟩ | ⟨p, q, r, hx, hp, hq, h⟩
  · refine ⟨fun _ => h, fun h2 => absurd h2 (by omega), ?_, ?_, hsteps⟩
    · rw [h]
    · rw [h]; omega
  · have hcount : x.data.count '-' = 2 + r.count '-' := by
      rw [hx]
      simp [List.count_append, List.count_eq_zero_of_not_mem hp,
        List.count_eq_zero_of_not_mem hq]
      omega
    refine ⟨fun h2 => absurd h2 (by omega), fun _ => ⟨p, q, r, hx, hp, hq, by rw [h]⟩, ?_, ?_,
      hsteps⟩
    · rw [h, hx]
      exact ⟨'-' :: r, by simp⟩
    · rw [h]
      simp [List.count_append, List.count_eq_zero_of_not_mem hp,
        List.count_eq_zero_of_not_mem hq]

theorem normalizeID_characterisation_witness :
    normalizeID "A-1-7" = "A-1" ∧ normalizeID "X-2" = "X-2" ∧
    (∃ p q r, "A-1-7".data = p ++ '-' :: (q ++ '-' :: r) ∧ '-' ∉ p ∧ '-' ∉ q ∧
        (normalizeID "A-1-7").data = p ++ '-' :: q) ∧
    (∀ k ∈ ([("A-1", ReturnData.mk "A-1" (3 / 2) ["A-1-7", "Возвраты", "Плата", "150"])] :
        List (String × ReturnData)).map Prod.fst, k ∈ [] ∨ k = normalizeID "A-1-7") :=
  ⟨by decide, (normalizeID_characterisation "X-2").1 (by decide),
   (normalizeID_characterisation "A-1-7").2.1 (by decide),
   ((normalizeID_characterisation "A-1-7").2.2.2.2
      ["ID начисления", "Группа услуг", "Тип начисления", "Сумма итого, руб"]
      ["A-1-7", "Возвраты", "Плата", "150"] (by decide!)).1 [] _ (by decide!)⟩

/-! ## The column index of a header name -/

theorem colIndexes_fold (l : List String) (n : Nat) (m : List (String × Nat)) (name : String) :
    (name ∉ l →
      mapGet ((l.enumFrom n).foldl (fun m p => mapSet m p.2 (p.1 + 1)) m) name = mapGet m name) ∧
    (name ∈ l →
      ∃ i, mapGet ((l.enumFrom n).foldl (fun m p => mapSet m p.2 (p.1 + 1)) m) name
          = some (n + i + 1) ∧
        l[i]? = some name ∧ ∀ j, i < j → l[j]? ≠ some name) := by
  induction l generalizing n m with
  | nil => simp
  | cons a l ih =>
    obtain ⟨ih1, ih2⟩ := ih (n + 1) (mapSet m a (n + 1))
    simp only [List.enumFrom_cons, List.foldl_cons]
    constructor
    · intro hn
      have ha : a ≠ name := fun e => hn (by simp [e])
      have hl : name ∉ l := fun e => hn (by simp [e])
      rw [ih1 hl, mapGet_mapSet_ne _ _ _ _ ha]
    · intro hmem
      by_cases hl : name ∈ l
      · obtain ⟨i, h1, h2, h3⟩ := ih2 hl
        refine ⟨i + 1, ?_, by simpa using h2, ?_⟩
        · rw [h1]
          congr 1
          omega
        · intro j hj
          cases j with
          | zero => omega
          | succ j =>
            simp only [List.getElem?_cons_succ]
            exact h3 j (by omega)
      · have ha : a = name := by
          rcases List.mem_cons.1 hmem with e | e
          · exact e.symm
          · exact absurd e hl
        refine ⟨0, ?_, by simp [ha], ?_⟩
        · rw [ih1 hl, ha, mapGet_mapSet_self]
        · intro j hj
          cases j with
          | zero => omega
          | succ j =>
            simp only [List.getElem?_cons_succ]
            intro h
            exact hl (List.getElem?_mem h)

theorem colIndexes_none (headers : List String) (name : String) (h : name ∉ headers) :
    mapGet (colIndexes headers) name = none := by
  have := (colIndexes_fold headers 0 [] name).1 h
  unfold colIndexes List.enum
  rw [this]
  rfl

theorem colIndexes_last (headers : List String) (name : String) (h : name ∈ headers) :
    ∃ i, mapGet (colIndexes headers) name = some (i + 1) ∧ headers[i]? = some name ∧
      ∀ j, i < j → headers[j]? ≠ some name := by
  obtain ⟨i, h1, h2, h3⟩ := (colIndexes_fold headers 0 [] name).2 h
  refine ⟨i, ?_, h2, h3⟩
  unfold colIndexes List.enum
  rw [h1]
  congr 1
  omega

theorem firstMissing_eq_some (headers required : List String) (col : String)
    (h : firstMissing (colIndexes headers) required = some col) :
    col ∈ required ∧ col ∉ headers := by
  unfold firstMissing at h
  have h1 := List.mem_of_find?_eq_some h
  have h2 := List.find?_some h
  refine ⟨h1, fun hmem => ?_⟩
  obtain ⟨i, hi, _⟩ := colIndexes_last headers col hmem
  rw [hi] at h2
  simp at h2

theorem firstMissing_ne_none (headers required : List String) (col : String)
    (hcol : col ∈ required) (hno : col ∉ headers) :
    ∃ c, firstMissing (colIndexes headers) required = some c := by
  cases hf : firstMissing (colIndexes headers) required with
  | some c => exact ⟨c, rfl⟩
  | none =>
    unfold firstMissing at hf
    rw [List.find?_eq_none] at hf
    have := hf col hcol
    rw [colIndexes_none headers col hno] at this
    simp at this

/-! ## The rule lookup (C15) -/

theorem ruleOf_last (pre post : List GroupingSetting) (s : GroupingSetting) (tipNach : String)
    (hs : s.SourceColumn = tipNach) (hpost : ∀ s2 ∈ post, s2.SourceColumn ≠ tipNach) :
    ruleOf (pre ++ s :: post) tipNach = some s := by
  unfold ruleOf
  rw [List.reverse_append, List.reverse_cons, List.append_assoc, List.find?_append]
  have hnone : post.reverse.find? (fun setting => decide (setting.SourceColumn = tipNach))
      = none := by
    rw [List.find?_eq_none]
    intro x hx
    simpa using hpost x (List.mem_reverse.1 hx)
  rw [hnone]
  simp [hs]

theorem ruleOf_none (settings : List GroupingSetting) (tipNach : String)
    (h : ∀ s ∈ settings, s.SourceColumn ≠ tipNach) : ruleOf settings tipNach = none := by
  unfold ruleOf
  rw [List.find?_eq_none]
  intro x hx
  simpa using h x (List.mem_reverse.1 hx)

/-- C15. Rule Table lookup is last-wins: when the ordered rule list has an entry `s` whose
source label is the accrual type and no later entry has that source label, whatever entries
stand before it, the accrual type is resolved with `s`, for both its target label and its
special flag; an accrual type with no entry resolves to itself with no flag.  The same
holds for the lookup in the map `columnMapping` itself. -/
theorem resolve_last_wins (settings : List GroupingSetting) (tipNach : String) :
    (∀ pre s post, settings = pre ++ s :: post → s.SourceColumn = tipNach →
      (∀ s2 ∈ post, s2.SourceColumn ≠ tipNach) →
        mapGet (columnMapping settings) tipNach = some s ∧
        resolve (columnMapping settings) tipNach = (s.TargetColumn, s.MarkAsD)) ∧
    ((∀ s ∈ settings, s.SourceColumn ≠ tipNach) →
      mapGet (columnMapping settings) tipNach = none ∧
      resolve (columnMapping settings) tipNach = (tipNach, false)) := by
  constructor
  · intro pre s post hset hs hpost
    have hr : ruleOf settings tipNach = some s := by
      rw [hset]
      exact ruleOf_last pre post s tipNach hs hpost
    refine ⟨by rw [mapGet_columnMapping, hr], ?_⟩
    rw [resolve_columnMapping]
    simp [targetOf, flagOf, hr]
  · intro hno
    have hr : ruleOf settings tipNach = none := ruleOf_none settings tipNach hno
    refine ⟨by rw [mapGet_columnMapping, hr], ?_⟩
    rw [resolve_columnMapping]
    simp [targetOf, flagOf, hr]

theorem resolve_last_wins_witness :
    (resolve (columnMapping duplicateRules) "Плата" = ("Позднее", false) ∧
      resolve (columnMapping duplicateRules) "Бонус" = ("Бонус", false)) ∧
    groupData twoTypeSheet duplicateRules =
      Outcome.written (Table.mk ["Вид", "ID начисления", "Отмена", "Бонус", "Позднее"]
        [[Cell.text "", Cell.text "A-1", Cell.number 0, Cell.number 0, Cell.number 1],
         [Cell.text "", Cell.text "B-2", Cell.number 0, Cell.number 3, Cell.number 0]]) :=
  ⟨⟨((resolve_last_wins duplicateRules "Плата").1
      [GroupingSetting.mk "Плата" "Раннее" true] (GroupingSetting.mk "Плата" "Позднее" false) []
      (by decide) (by decide) (by decide)).2,
    ((resolve_last_wins duplicateRules "Бонус").2 (by decide)).2⟩, by decide!⟩

/-! ## The header checks (C14) -/

theorem firstMissing_none_mem (headers required : List String)
    (h : firstMissing (colIndexes headers) required = none) :
    ∀ col ∈ required, col ∈ headers := by
  intro col hcol
  by_contra hno
  obtain ⟨c, hc⟩ := firstMissing_ne_none headers required col hcol hno
  rw [h] at hc
  exact Option.noConfusion hc

theorem processReturns_cases (rows : List (List String)) :
    (rows.length < 3 ∧ processReturns rows = Outcome.notEnoughData) ∨
    (3 ≤ rows.length ∧ ∃ col, col ∈ returnsRequired ∧ col ∉ headerRow rows ∧
      firstMissing (colIndexes (headerRow rows)) returnsRequired = some col ∧
      processReturns rows = Outcome.missingColumn col) ∨
    (3 ≤ rows.length ∧ (∀ col ∈ returnsRequired, col ∈ headerRow rows) ∧
      processReturns rows =
        Outcome.written (Table.mk (outputHeaders (headerRow rows))
          ((returnsOf rows).map (fun p =>
            (outputHeaders (headerRow rows)).map (returnsCellRead (headerRow rows) p.2))))) := by
  by_cases h3 : rows.length < 3
  · left
    exact ⟨h3, by unfold processReturns; rw [if_pos h3]⟩
  · right
    have h3' : 3 ≤ rows.length := by omega
    cases hf : firstMissing (colIndexes (headerRow rows)) returnsRequired with
    | some col =>
      left
      obtain ⟨h1, h2⟩ := firstMissing_eq_some _ _ _ hf
      refine ⟨h3', col, h1, h2, rfl, ?_⟩
      unfold processReturns
      rw [if_neg h3]
      simp only []
      have hf2 : firstMissing (colIndexes (rows.getD 1 [])) returnsRequired = some col := hf
      rw [hf2]
    | none =>
      right
      have hreq := firstMissing_none_mem _ _ hf
      exact ⟨h3', hreq, processReturns_eq rows h3' hreq⟩

theorem groupSheet_cases (rows : List (List String)) (settings : List GroupingSetting) :
    (rows.length < 3 ∧ groupSheet rows settings = Outcome.notEnoughData) ∨
    (3 ≤ rows.length ∧ ∃ col, col ∈ groupRequired ∧ col ∉ headerRow rows ∧
      firstMissing (colIndexes (headerRow rows)) groupRequired = some col ∧
      groupSheet rows settings = Outcome.missingColumn col) ∨
    (3 ≤ rows.length ∧ (∀ col ∈ groupRequired, col ∈ headerRow rows)) := by
  by_cases h3 : rows.length < 3
  · left
    exact ⟨h3, by unfold groupSheet; rw [if_pos h3]⟩
  · right
    have h3' : 3 ≤ rows.length := by omega
    cases hf : firstMissing (colIndexes (headerRow rows)) groupRequired with
    | some col =>
      left
      obtain ⟨h1, h2⟩ := firstMissing_eq_some _ _ _ hf
      refine ⟨h3', col, h1, h2, rfl, ?_⟩
      unfold groupSheet
      rw [if_neg h3]
      simp only []
      have hf2 : firstMissing (colIndexes (rows.getD 1 [])) groupRequired = some col := hf
      rw [hf2]
    | none =>
      right
      exact ⟨h3', firstMissing_none_mem _ _ hf⟩

theorem groupData_cases (rows : List (List String)) (settings : List GroupingSetting) :
    (rows.length < 3 ∧ groupData rows settings = Outcome.notEnoughData) ∨
    (3 ≤ rows.length ∧ ∃ col, col ∈ groupRequired ∧ col ∉ headerRow rows ∧
      firstMissing (colIndexes (headerRow rows)) groupRequired = some col ∧
      groupData rows settings = Outcome.missingColumn col) ∨
    (3 ≤ rows.length ∧ (∀ col ∈ groupRequired, col ∈ headerRow rows) ∧
      groupData rows settings =
        Outcome.written
          (Table.mk (["Вид", "ID начисления", "Отмена"] ++ keptColumns rows settings)
            ((groupsOf rows settings).map
              (fun p => groupRow (keptColumns rows settings) p.2)))) := by
  rcases groupSheet_cases rows settings with ⟨h3, h⟩ | ⟨h3, col, h1, h2, hf, h⟩ | ⟨h3, hreq⟩
  · left
    exact ⟨h3, by unfold groupData; rw [h]⟩
  · right; left
    exact ⟨h3, col, h1, h2, hf, by unfold groupData; rw [h]⟩
  · right; right
    exact ⟨h3, hreq, groupData_eq rows settings h3 hreq⟩

/-- C14. Required columns: the Returns Extractor writes an output table if and only if the
sheet has at least three rows and its header row (the second row) contains all of
"ID начисления", "Группа услуг", "Сумма итого, руб"; the Grouping Aggregator writes an
output table if and only if the sheet has at least three rows and its header row contains
those three and "Тип начисления"; otherwise the pass ends with no table, on the row count
or on a required column that the header lacks.  A sheet of at least three rows whose header
lacks only "Тип начисления" gives a returns table and no grouping table. -/
theorem required_columns (rows : List (List String)) (settings : List GroupingSetting) :
    ((∃ T, processReturns rows = Outcome.written T) ↔
      (3 ≤ rows.length ∧ ∀ col ∈ returnsRequired, col ∈ headerRow rows)) ∧
    ((∃ T, groupData rows settings = Outcome.written T) ↔
      (3 ≤ rows.length ∧ ∀ col ∈ groupRequired, col ∈ headerRow rows)) ∧
    (¬ (3 ≤ rows.length ∧ ∀ col ∈ returnsRequired, col ∈ headerRow rows) →
      (rows.length < 3 ∧ processReturns rows = Outcome.notEnoughData) ∨
      ∃ col ∈ returnsRequired, col ∉ headerRow rows ∧
        processReturns rows = Outcome.missingColumn col) ∧
    (¬ (3 ≤ rows.length ∧ ∀ col ∈ groupRequired, col ∈ headerRow rows) →
      (rows.length < 3 ∧ groupData rows settings = Outcome.notEnoughData) ∨
      ∃ col ∈ groupRequired, col ∉ headerRow rows ∧
        groupData rows settings = Outcome.missingColumn col) ∧
    (3 ≤ rows.length → (∀ col ∈ returnsRequired, col ∈ headerRow rows) →
      "Тип начисления" ∉ headerRow rows →
        (∃ T, processReturns rows = Outcome.written T) ∧
          groupData rows settings = Outcome.missingColumn "Тип начисления") := by
  refine ⟨?_, ?_, ?_, ?_, ?_⟩
  · constructor
    · rintro ⟨T, hT⟩
      rcases processReturns_cases rows with ⟨_, h⟩ | ⟨_, col, _, _, _, h⟩ | ⟨h3, hreq, _⟩
      · rw [h] at hT; exact Outcome.noConfusion hT
      · rw [h] at hT; exact Outcome.noConfusion hT
      · exact ⟨h3, hreq⟩
    · rintro ⟨h3, hreq⟩
      exact ⟨_, processReturns_eq rows h3 hreq⟩
  · constructor
    · rintro ⟨T, hT⟩
      rcases groupData_cases rows settings with ⟨_, h⟩ | ⟨_, col, _, _, _, h⟩ | ⟨h3, hreq, _⟩
      · rw [h] at hT; exact Outcome.noConfusion hT
      · rw [h] at hT; exact Outcome.noConfusion hT
      · exact ⟨h3, hreq⟩
    · rintro ⟨h3, hreq⟩
      exact ⟨_, groupData_eq rows settings h3 hreq⟩
  · intro hno
    rcases processReturns_cases rows with ⟨h3, h⟩ | ⟨_, col, h1, h2, _, h⟩ | ⟨h3, hreq, _⟩
    · exact Or.inl ⟨h3, h⟩
    · exact Or.inr ⟨col, h1, h2, h⟩
    · exact absurd ⟨h3, hreq⟩ hno
  · intro hno
    rcases groupData_cases rows settings with ⟨h3, h⟩ | ⟨_, col, h1, h2, _, h⟩ | ⟨h3, hreq, _⟩
    · exact Or.inl ⟨h3, h⟩
    · exact Or.inr ⟨col, h1, h2, h⟩
    · exact absurd ⟨h3, hreq⟩ hno
  · intro h3 hreq hno
    refine ⟨⟨_, processReturns_eq rows h3 hreq⟩, ?_⟩
    rcases groupData_cases rows settings with ⟨h, _⟩ | ⟨_, col, h1, h2, hf, h⟩ | ⟨_, hreq2, _⟩
    · omega
    · have hcol : col = "Тип начисления" := by
        have hmem : col ∈ ["ID начисления", "Группа услуг", "Тип начисления",
            "Сумма итого, руб"] := h1
        simp only [List.mem_cons, List.mem_singleton, List.not_mem_nil, or_false] at hmem
        rcases hmem with e | e | e | e
        · exact absurd (hreq _ (by decide)) (e ▸ h2)
        · exact absurd (hreq _ (by decide)) (e ▸ h2)
        · exact e
        · exact absurd (hreq _ (by decide)) (e ▸ h2)
      rw [h, hcol]
    · exact absurd (hreq2 _ (by decide)) hno

theorem required_columns_witness :
    (∃ T, processReturns noTypeSheet = Outcome.written T) ∧
      groupData noTypeSheet [] = Outcome.missingColumn "Тип начисления" ∧
      processReturns noTypeSheet =
        Outcome.written (Table.mk ["ID начисления", "Группа услуг", "Сумма итого, руб"]
          [[Cell.text "A-1", Cell.text "Возвраты", Cell.number (3 / 2)]]) :=
  ⟨((required_columns noTypeSheet []).2.2.2.2 (by decide) (by decide) (by decide)).1,
   ((required_columns noTypeSheet []).2.2.2.2 (by decide) (by decide) (by decide)).2,
   by decide!⟩

/-! ## No access out of range (C18) -/

theorem cellAt_in_bounds (headers row : List String) (name : String)
    (h : name ∈ headers) (hlen : headers.length ≤ row.length) :
    ∃ i, mapGet (colIndexes headers) name = some i ∧ 1 ≤ i ∧ i - 1 < row.length ∧
      cellAt (colIndexes headers) row name = row[i - 1]? ∧
      ∃ v, row[i - 1]? = some v := by
  obtain ⟨i, hi, h1, h2⟩ := colIndexes_get headers name h
  have hlt : i - 1 < row.length := by omega
  refine ⟨i, hi, h1, hlt, ?_, ⟨row[i - 1], List.getElem?_eq_getElem hlt⟩⟩
  unfold cellAt index
  rw [hi]
  have hnn : ¬ (((some i).getD 0 : Nat) : Int) - 1 < 0 := by
    simp only [Option.getD_some]
    omega
  rw [if_neg hnn]
  congr 1
  simp only [Option.getD_some]
  omega

/-- C18. No row can make a pass fail with an out-of-range access: for every sheet (any number
of rows, rows of any lengths, any header row) and every rule table, the Returns Extractor
and the Grouping Aggregator never end on an index out of range; each ends on too few rows,
on a missing required column, or with its table.  A row shorter than the header is skipped
by each loop body before any lookup, whatever the column indexes are; on a row that is not
shorter, the index looked up for a column name of the header is within the bounds of the
row, and no loop body fails once the required columns are present. -/
theorem no_index_out_of_range (rows : List (List String)) (settings : List GroupingSetting) :
    processReturns rows ≠ Outcome.indexOutOfRange ∧
    groupData rows settings ≠ Outcome.indexOutOfRange ∧
    ((rows.length < 3 ∧ processReturns rows = Outcome.notEnoughData) ∨
      (∃ col ∈ returnsRequired, col ∉ headerRow rows ∧
        processReturns rows = Outcome.missingColumn col) ∨
      ∃ T, processReturns rows = Outcome.written T) ∧
    ((rows.length < 3 ∧ groupData rows settings = Outcome.notEnoughData) ∨
      (∃ col ∈ groupRequired, col ∉ headerRow rows ∧
        groupData rows settings = Outcome.missingColumn col) ∨
      ∃ T, groupData rows settings = Outcome.written T) ∧
    (∀ (headers : List String) (ci : List (String × Nat)) (row : List String)
        (m : List (String × ReturnData)) (g : List (String × GroupData))
        (u : List (String × Bool)) (mapping : List (String × GroupingSetting)),
      row.length < headers.length →
        returnsStep headers ci m row = some m ∧ groupStep headers ci mapping g row = some g ∧
          uniqueTypesStep headers ci u row = some u) ∧
    (∀ (row : List String) (name : String), name ∈ headerRow rows →
      (headerRow rows).length ≤ row.length →
        ∃ i, mapGet (colIndexes (headerRow rows)) name = some i ∧ 1 ≤ i ∧ i - 1 < row.length ∧
          cellAt (colIndexes (headerRow rows)) row name = row[i - 1]? ∧
          ∃ v, row[i - 1]? = some v) ∧
    ((∀ col ∈ returnsRequired, col ∈ headerRow rows) →
      ∀ (row : List String) (m : List (String × ReturnData)),
        ∃ m2, returnsStep (headerRow rows) (colIndexes (headerRow rows)) m row = some m2) ∧
    ((∀ col ∈ groupRequired, col ∈ headerRow rows) →
      ∀ (row : List String) (g : List (String × GroupData)) (u : List (String × Bool)),
        (∃ g2, groupStep (headerRow rows) (colIndexes (headerRow rows))
          (columnMapping settings) g row = some g2) ∧
        ∃ u2, uniqueTypesStep (headerRow rows) (colIndexes (headerRow rows)) u row = some u2) := by
  refine ⟨?_, ?_, ?_, ?_, ?_, ?_, ?_, ?_⟩
  · intro h
    rcases processReturns_cases rows with ⟨_, h2⟩ | ⟨_, col, _, _, _, h2⟩ | ⟨_, _, h2⟩ <;>
      · rw [h2] at h; exact Outcome.noConfusion h
  · intro h
    rcases groupData_cases rows settings with ⟨_, h2⟩ | ⟨_, col, _, _, _, h2⟩ | ⟨_, _, h2⟩ <;>
      · rw [h2] at h; exact Outcome.noConfusion h
  · rcases processReturns_cases rows with ⟨h3, h2⟩ | ⟨_, col, h1, hno, _, h2⟩ | ⟨_, _, h2⟩
    · exact Or.inl ⟨h3, h2⟩
    · exact Or.inr (Or.inl ⟨col, h1, hno, h2⟩)
    · exact Or.inr (Or.inr ⟨_, h2⟩)
  · rcases groupData_cases rows settings with ⟨h3, h2⟩ | ⟨_, col, h1, hno, _, h2⟩ | ⟨_, _, h2⟩
    · exact Or.inl ⟨h3, h2⟩
    · exact Or.inr (Or.inl ⟨col, h1, hno, h2⟩)
    · exact Or.inr (Or.inr ⟨_, h2⟩)
  · intro headers ci row m g u mapping hlt
    refine ⟨?_, ?_, ?_⟩
    · unfold returnsStep
      rw [if_pos hlt]
    · unfold groupStep
      rw [if_pos hlt]
    · unfold uniqueTypesStep
      rw [if_neg (by omega)]
  · intro row name hname hlen
    exact cellAt_in_bounds _ row name hname hlen
  · intro hreq row m
    exact ⟨_, returnsStep_eq _ hreq m row⟩
  · intro hreq row g u
    exact ⟨⟨_, groupStep_eq _ hreq _ g row⟩, ⟨_, uniqueTypesStep_eq _ hreq u row⟩⟩

theorem no_index_out_of_range_witness :
    (∃ i, mapGet (colIndexes (headerRow shortRowSheet)) "Сумма итого, руб" = some i ∧ 1 ≤ i ∧
      i - 1 < ["A-1-7", "Продажи", "Плата", "100", "x"].length ∧
      cellAt (colIndexes (headerRow shortRowSheet)) ["A-1-7", "Продажи", "Плата", "100", "x"]
        "Сумма итого, руб" = ["A-1-7", "Продажи", "Плата", "100", "x"][i - 1]? ∧
      ∃ v, ["A-1-7", "Продажи", "Плата", "100", "x"][i - 1]? = some v) ∧
    (returnsStep wideHeader [] [] ["A-1-9", "Возвраты", "Плата", "200"] = some [] ∧
      groupStep wideHeader [] [] [] ["A-1-9", "Возвраты", "Плата", "200"] = some [] ∧
      uniqueTypesStep wideHeader [] [] ["A-1-9", "Возвраты", "Плата", "200"] = some []) ∧
    processReturns [[], [], [], ["x"]] = Outcome.missingColumn "ID начисления" :=
  ⟨(no_index_out_of_range shortRowSheet []).2.2.2.2.2.1 ["A-1-7", "Продажи", "Плата", "100", "x"]
      "Сумма итого, руб" (by decide) (by decide),
   (no_index_out_of_range shortRowSheet []).2.2.2.2.1 wideHeader [] _ [] [] [] [] (by decide),
   by decide!⟩

/-! ## Creation of the group records (C17) -/

theorem contribution_none_of_amount (headers row : List String)
    (h : rowAmount headers row = none) : contribution headers row = none := by
  unfold contribution
  split
  · rw [h]
    cases rowKey headers row <;>
      cases cellAt (colIndexes headers) row "Тип начисления" <;> rfl
  · rfl

theorem mem_keys_groupRead (headers : List String)
    (hreq : ∀ col ∈ groupRequired, col ∈ headers) (mapping : List (String × GroupingSetting))
    (g : List (String × GroupData)) (row : List String) (k : String) :
    k ∈ (groupRead headers mapping g row).map Prod.fst ↔
      k ∈ g.map Prod.fst ∨
        (headers.length ≤ row.length ∧ isGroupedRow headers k row = true) := by
  rw [groupRead_eq_contribution headers hreq]
  cases hc : contribution headers row with
  | none =>
    simp only
    constructor
    · exact fun h => Or.inl h
    · rintro (h | ⟨h1, h2⟩)
      · exact h
      · rcases contribution_eq_none headers row hreq hc with e | e | e
        · exact absurd h1 e
        · simp [isGroupedRow, e] at h2
        · simp [isGroupedRow, e] at h2
  | some c =>
    obtain ⟨hle, hnr, hk, ht, ha⟩ := contribution_eq_some headers row c hc
    simp only [keys_accumulate]
    simp only [isGroupedRow, hle, hnr, hk, ha, Option.isSome_some, Bool.and_true, Bool.true_and,
      decide_eq_true_eq, Option.some.injEq, true_and]
    constructor
    · rintro (h | h)
      · exact Or.inr h.symm
      · exact Or.inl h
    · rintro (h | h)
      · exact Or.inr h
      · exact Or.inl h.symm

theorem mem_keys_groupsOf (rows : List (List String)) (settings : List GroupingSetting)
    (hreq : ∀ col ∈ groupRequired, col ∈ headerRow rows) (k : String) :
    k ∈ (groupsOf rows settings).map Prod.fst ↔
      ∃ row ∈ fullRows rows, isGroupedRow (headerRow rows) k row = true := by
  unfold groupsOf
  rw [foldl_keys (fun s => s.map Prod.fst) (groupRead (headerRow rows) (columnMapping settings))
    (fun row k => (headerRow rows).length ≤ row.length ∧
      isGroupedRow (headerRow rows) k row = true)
    (fun s x k => mem_keys_groupRead (headerRow rows) hreq _ s x k)]
  unfold fullRows
  simp only [List.map_nil, List.not_mem_nil, false_or, List.mem_filter, decide_eq_true_eq]
  constructor
  · rintro ⟨row, hrow, hle, h1⟩
    exact ⟨row, ⟨hrow, hle⟩, h1⟩
  · rintro ⟨row, ⟨hrow, hle⟩, h1⟩
    exact ⟨row, hrow, hle, h1⟩

/-- C17, counterexample to the claim as stated.  The only data row of `unparsedSheet` is
not a return, has a cell in every column and the identifier `A-1-7`; its amount `n/a` does
not parse, the loop body leaves before any record is created, and the grouping table has
no row for the key `A-1`. -/
theorem groupData_unparsed_counterexample :
    groupData unparsedSheet [] =
        Outcome.written (Table.mk ["Вид", "ID начисления", "Отмена"] []) ∧
      isNonReturn (headerRow unparsedSheet) ["A-1-7", "Продажи", "Плата", "n/a", "x"] = true ∧
      rowKey (headerRow unparsedSheet) ["A-1-7", "Продажи", "Плата", "n/a", "x"] = some "A-1" ∧
      ¬ (∀ T, groupData unparsedSheet [] = Outcome.written T →
          ∀ row ∈ dataRows unparsedSheet, isNonReturn (headerRow unparsedSheet) row = true →
            ∀ k, rowKey (headerRow unparsedSheet) row = some k →
              ∃ r ∈ T.rows, r[1]? = some (Cell.text k)) := by
  have heval : groupData unparsedSheet [] =
      Outcome.written (Table.mk ["Вид", "ID начисления", "Отмена"] []) := by decide!
  refine ⟨heval, by decide!, by decide!, ?_⟩
  intro h
  obtain ⟨r, hr, _⟩ := h _ heval ["A-1-7", "Продажи", "Плата", "n/a", "x"] (by decide)
    (by decide!) "A-1" (by decide!)
  simp at hr

/-- C17, amended.  In the Grouping Aggregator a Group Record is created on the first
non-return data row of a key that has at least as many cells as the header row and whose
amount parses, after the amount is parsed: for a sheet that passes the header checks the
output has exactly one row for each normalized identifier of such rows and no other row; a
row whose amount fails to parse leaves the records as they are, and a row that passes the
length guard, is not a return and has a parsing amount leaves a record for its key. -/
theorem groupData_keys (rows : List (List String)) (settings : List GroupingSetting)
    (h3 : 3 ≤ rows.length) (hreq : ∀ col ∈ groupRequired, col ∈ headerRow rows) :
    (∃ T, groupData rows settings = Outcome.written T ∧
      (T.rows.map (fun r => r[1]?)).Nodup ∧
      (∀ k, (∃ r ∈ T.rows, r[1]? = some (Cell.text k)) ↔
        ∃ row ∈ fullRows rows, isGroupedRow (headerRow rows) k row = true) ∧
      (∀ r ∈ T.rows, ∃ k, r[1]? = some (Cell.text k))) ∧
    (∀ (row : List String) (g : List (String × GroupData)),
      rowAmount (headerRow rows) row = none →
        groupStep (headerRow rows) (colIndexes (headerRow rows)) (columnMapping settings) g row
          = some g) ∧
    (∀ (row : List String) (g : List (String × GroupData)) (k : String),
      (headerRow rows).length ≤ row.length → isGroupedRow (headerRow rows) k row = true →
        ∃ g2, groupStep (headerRow rows) (colIndexes (headerRow rows)) (columnMapping settings)
            g row = some g2 ∧ k ∈ g2.map Prod.fst) := by
  have hw := wellKeyed_groupsOf rows settings hreq
  have hcell : ∀ p ∈ groupsOf rows settings,
      (groupRow (keptColumns rows settings) p.2)[1]? = some (Cell.text p.1) := by
    intro p hp
    rw [groupRow_eq _ hw _ p hp]
    rfl
  refine ⟨⟨_, groupData_eq rows settings h3 hreq, ?_, ?_, ?_⟩, ?_, ?_⟩
  · have hmap : ((groupsOf rows settings).map
        (fun p => groupRow (keptColumns rows settings) p.2)).map (fun r => r[1]?) =
        ((groupsOf rows settings).map Prod.fst).map (fun k => some (Cell.text k)) := by
      rw [List.map_map, List.map_map]
      apply List.map_congr_left
      intro p hp
      simp only [Function.comp_apply]
      exact hcell p hp
    show (List.map _ (List.map _ (groupsOf rows settings))).Nodup
    rw [hmap]
    exact hw.1.map (fun a b h => Cell.text.inj (Option.some.inj h))
  · intro k
    rw [← mem_keys_groupsOf rows settings hreq k]
    simp only [List.mem_map]
    constructor
    · rintro ⟨r, ⟨p, hp, rfl⟩, hc⟩
      rw [hcell p hp] at hc
      exact ⟨p, hp, Cell.text.inj (Option.some.inj hc)⟩
    · rintro ⟨p, hp, rfl⟩
      exact ⟨_, ⟨p, hp, rfl⟩, hcell p hp⟩
  · intro r hr
    simp only [List.mem_map] at hr
    obtain ⟨p, hp, rfl⟩ := hr
    exact ⟨p.1, hcell p hp⟩
  · intro row g ha
    rw [groupStep_eq _ hreq, groupRead_eq_contribution _ hreq,
      contribution_none_of_amount _ _ ha]
  · intro row g k hle hk
    refine ⟨_, groupStep_eq _ hreq _ g row, ?_⟩
    rw [mem_keys_groupRead _ hreq]
    exact Or.inr ⟨hle, hk⟩

theorem groupData_keys_witness :
    (∃ T, groupData twoTypeSheet [] = Outcome.written T ∧
      (T.rows.map (fun r => r[1]?)).Nodup ∧
      (∀ k, (∃ r ∈ T.rows, r[1]? = some (Cell.text k)) ↔
        ∃ row ∈ fullRows twoTypeSheet, isGroupedRow (headerRow twoTypeSheet) k row = true) ∧
      (∀ r ∈ T.rows, ∃ k, r[1]? = some (Cell.text k))) ∧
    groupData twoTypeSheet [] =
      Outcome.written (Table.mk ["Вид", "ID начисления", "Отмена", "Бонус", "Плата"]
        [[Cell.text "", Cell.text "A-1", Cell.number 0, Cell.number 0, Cell.number 1],
         [Cell.text "", Cell.text "B-2", Cell.number 0, Cell.number 3, Cell.number 0]]) :=
  ⟨(groupData_keys twoTypeSheet [] (by decide) (by decide)).1, by decide!⟩

/-! ## The end-to-end scenario (C11) -/

theorem mem_of_cellAt (headers row : List String) (name v : String)
    (h : cellAt (colIndexes headers) row name = some v) : name ∈ headers := by
  by_contra hno
  unfold cellAt index at h
  rw [colIndexes_none headers name hno] at h
  simp at h

theorem field_of_cellAt (headers row : List String) (name v : String)
    (h : cellAt (colIndexes headers) row name = some v) : field headers row name = v := by
  unfold field
  rw [h]
  rfl

/-- C11, counterexample to the claim as stated.  `scenarioShortSheet` has a banner row, a
header row with the four required columns and one more, and the three data rows of the
scenario; the rows have no cell in the fifth column, both passes skip them, and both
tables come out without any row. -/
theorem scenario_shortRows_counterexample :
    groupData scenarioShortSheet scenarioRules =
        Outcome.written (Table.mk ["Вид", "ID начисления", "Отмена"] []) ∧
      processReturns scenarioShortSheet =
        Outcome.written
          (Table.mk ["ID начисления", "Группа услуг", "Сумма итого, руб", "Примечание"] []) := by
  constructor <;> decide!

/-- C11, amended.  End-to-end scenario: for a source sheet with a banner row, a header row
containing the four required columns (and any others), and three data rows that have at
least as many cells as the header row and carry ("X-1-A", "Обычные", "Плата", "1000"),
("X-1-B", "Обычные", "Плата", "500"), ("X-2-A", "Возвраты", "Плата", "-300") in the
required columns (the accrual type of the third row is not read), with the rule table
["Плата" → "Сборы", no flag]: the grouping table is the header "Вид", "ID начисления", "Отмена", "Сборы" and the single row of key "X-1"
with empty marker, cancellation 0 and "Сборы" = 15.00, and the returns table has exactly
one row, of key "X-2", with amount -3.00. -/
theorem scenario_tables (banner headers r1 r2 r3 : List String)
    (hl1 : headers.length ≤ r1.length) (hl2 : headers.length ≤ r2.length)
    (hl3 : headers.length ≤ r3.length)
    (hi1 : cellAt (colIndexes headers) r1 "ID начисления" = some "X-1-A")
    (hg1 : cellAt (colIndexes headers) r1 "Группа услуг" = some "Обычные")
    (ht1 : cellAt (colIndexes headers) r1 "Тип начисления" = some "Плата")
    (hs1 : cellAt (colIndexes headers) r1 "Сумма итого, руб" = some "1000")
    (hi2 : cellAt (colIndexes headers) r2 "ID начисления" = some "X-1-B")
    (hg2 : cellAt (colIndexes headers) r2 "Группа услуг" = some "Обычные")
    (ht2 : cellAt (colIndexes headers) r2 "Тип начисления" = some "Плата")
    (hs2 : cellAt (colIndexes headers) r2 "Сумма итого, руб" = some "500")
    (hi3 : cellAt (colIndexes headers) r3 "ID начисления" = some "X-2-A")
    (hg3 : cellAt (colIndexes headers) r3 "Группа услуг" = some "Возвраты")
    (hs3 : cellAt (colIndexes headers) r3 "Сумма итого, руб" = some "-300") :
    groupData [banner, headers, r1, r2, r3] scenarioRules =
        Outcome.written (Table.mk ["Вид", "ID начисления", "Отмена", "Сборы"]
          [[Cell.text "", Cell.text "X-1", Cell.number 0, Cell.number 15]]) ∧
      ∃ r, processReturns [banner, headers, r1, r2, r3] =
          Outcome.written (Table.mk (outputHeaders headers) [r]) ∧
        r.length = (outputHeaders headers).length ∧
        cellUnder (outputHeaders headers) r "ID начисления" = some (Cell.text "X-2") ∧
        cellUnder (outputHeaders headers) r "Сумма итого, руб" = some (Cell.number (-3)) := by
  have hreq : ∀ col ∈ groupRequired, col ∈ headers := by
    intro col hcol
    have hmem : col ∈ ["ID начисления", "Группа услуг", "Тип начисления",
        "Сумма итого, руб"] := hcol
    simp only [List.mem_cons, List.mem_singleton, List.not_mem_nil, or_false] at hmem
    rcases hmem with e | e | e | e
    · exact e ▸ mem_of_cellAt _ _ _ _ hi1
    · exact e ▸ mem_of_cellAt _ _ _ _ hg1
    · exact e ▸ mem_of_cellAt _ _ _ _ ht1
    · exact e ▸ mem_of_cellAt _ _ _ _ hs1
  have hreqR : ∀ col ∈ returnsRequired, col ∈ headers := by
    intro col hcol
    have hmem : col ∈ ["ID начисления", "Группа услуг", "Сумма итого, руб"] := hcol
    simp only [List.mem_cons, List.mem_singleton, List.not_mem_nil, or_false] at hmem
    rcases hmem with e | e | e
    · exact e ▸ mem_of_cellAt _ _ _ _ hi1
    · exact e ▸ mem_of_cellAt _ _ _ _ hg1
    · exact e ▸ mem_of_cellAt _ _ _ _ hs1
  have fg1 := field_of_cellAt _ _ _ _ hg1
  have fg2 := field_of_cellAt _ _ _ _ hg2
  have fg3 := field_of_cellAt _ _ _ _ hg3
  have fi1 := field_of_cellAt _ _ _ _ hi1
  have fi2 := field_of_cellAt _ _ _ _ hi2
  have fi3 := field_of_cellAt _ _ _ _ hi3
  have ft1 := field_of_cellAt _ _ _ _ ht1
  have ft2 := field_of_cellAt _ _ _ _ ht2
  have fs1 := field_of_cellAt _ _ _ _ hs1
  have fs2 := field_of_cellAt _ _ _ _ hs2
  have fs3 := field_of_cellAt _ _ _ _ hs3
  have n1 : ¬ r1.length < headers.length := by omega
  have n2 : ¬ r2.length < headers.length := by omega
  have n3 : ¬ r3.length < headers.length := by omega
  have p1 : parseSum "1000" = some 10 := by decide!
  have p2 : parseSum "500" = some 5 := by decide!
  have p3 : parseSum "-300" = some (-3) := by decide!
  have k1 : normalizeID "X-1-A" = "X-1" := by decide
  have k2 : normalizeID "X-1-B" = "X-1" := by decide
  have k3 : normalizeID "X-2-A" = "X-2" := by decide
  have d1 : ¬ ("Обычные" : String) = "Возвраты" := by decide
  have hgroups : groupsOf [banner, headers, r1, r2, r3] scenarioRules =
      [("X-1", GroupData.mk "" "X-1" 0 [("Сборы", 15)])] := by
    have e : groupsOf [banner, headers, r1, r2, r3] scenarioRules =
        groupRead headers (columnMapping scenarioRules)
          (groupRead headers (columnMapping scenarioRules)
            (groupRead headers (columnMapping scenarioRules) [] r1) r2) r3 := rfl
    rw [e]
    have s1 : groupRead headers (columnMapping scenarioRules) [] r1 =
        accumulate (columnMapping scenarioRules) [] "X-1" "Плата" 10 := by
      unfold groupRead
      rw [if_neg n1, fg1, if_neg d1, fs1, p1, fi1, ft1, k1]
    have a1 : accumulate (columnMapping scenarioRules) [] "X-1" "Плата" 10 =
        [("X-1", GroupData.mk "" "X-1" 0 [("Сборы", 10)])] := by decide!
    rw [s1, a1]
    have s2 : groupRead headers (columnMapping scenarioRules)
        [("X-1", GroupData.mk "" "X-1" 0 [("Сборы", 10)])] r2 =
        accumulate (columnMapping scenarioRules)
          [("X-1", GroupData.mk "" "X-1" 0 [("Сборы", 10)])] "X-1" "Плата" 5 := by
      unfold groupRead
      rw [if_neg n2, fg2, if_neg d1, fs2, p2, fi2, ft2, k2]
    have a2 : accumulate (columnMapping scenarioRules)
        [("X-1", GroupData.mk "" "X-1" 0 [("Сборы", 10)])] "X-1" "Плата" 5 =
        [("X-1", GroupData.mk "" "X-1" 0 [("Сборы", 15)])] := by decide!
    rw [s2, a2]
    unfold groupRead
    rw [if_neg n3, fg3, if_pos rfl]
  have htypes : typesOf [banner, headers, r1, r2, r3] = [("Плата", true)] := by
    have e : typesOf [banner, headers, r1, r2, r3] =
        typesRead headers (typesRead headers (typesRead headers [] r1) r2) r3 := rfl
    rw [e]
    have t1 : typesRead headers [] r1 = [("Плата", true)] := by
      unfold typesRead
      rw [if_pos hl1, fg1, if_neg d1, ft1]
      rfl
    have t2 : typesRead headers [("Плата", true)] r2 = [("Плата", true)] := by
      unfold typesRead
      rw [if_pos hl2, fg2, if_neg d1, ft2]
      decide
    rw [t1, t2]
    unfold typesRead
    rw [if_pos hl3, fg3, if_pos rfl]
  have hkept : keptColumns [banner, headers, r1, r2, r3] scenarioRules = ["Сборы"] := by
    unfold keptColumns dynamicColumns
    rw [hgroups, htypes]
    decide!
  have hreturns : returnsOf [banner, headers, r1, r2, r3] =
      [("X-2", ReturnData.mk "X-2" (-3) r3)] := by
    have e : returnsOf [banner, headers, r1, r2, r3] =
        returnsRead headers (returnsRead headers (returnsRead headers [] r1) r2) r3 := rfl
    rw [e]
    have u1 : returnsRead headers [] r1 = [] := by
      unfold returnsRead
      rw [if_neg n1, fg1, if_pos d1]
    have u2 : returnsRead headers [] r2 = [] := by
      unfold returnsRead
      rw [if_neg n2, fg2, if_pos d1]
    rw [u1, u2]
    unfold returnsRead
    rw [if_neg n3, fg3, if_neg (by simp), fs3, p3]
    simp only [fi3, k3]
    rfl
  constructor
  · rw [groupData_eq [banner, headers, r1, r2, r3] scenarioRules (by simp) hreq, hkept, hgroups]
    rfl
  · refine ⟨(outputHeaders headers).map
      (returnsCellRead headers (ReturnData.mk "X-2" (-3) r3)), ?_, by simp, ?_, ?_⟩
    · rw [processReturns_eq [banner, headers, r1, r2, r3] (by simp) hreqR, hreturns]
      rfl
    · exact (returnsRow_cells headers hreqR _).1
    · exact (returnsRow_cells headers hreqR _).2

theorem scenario_tables_witness :
    groupData scenarioSheet scenarioRules =
        Outcome.written (Table.mk ["Вид", "ID начисления", "Отмена", "Сборы"]
          [[Cell.text "", Cell.text "X-1", Cell.number 0, Cell.number 15]]) ∧
      ∃ r, processReturns scenarioSheet =
          Outcome.written (Table.mk (outputHeaders wideHeader) [r]) ∧
        r.length = (outputHeaders wideHeader).length ∧
        cellUnder (outputHeaders wideHeader) r "ID начисления" = some (Cell.text "X-2") ∧
        cellUnder (outputHeaders wideHeader) r "Сумма итого, руб" = some (Cell.number (-3)) :=
  scenario_tables ["Отчёт"] wideHeader ["X-1-A", "Обычные", "Плата", "1000", "a"]
    ["X-1-B", "Обычные", "Плата", "500", "b"] ["X-2-A", "Возвраты", "Плата", "-300", "c"]
    (by decide) (by decide) (by decide)
    (by decide) (by decide) (by decide) (by decide)
    (by decide) (by decide) (by decide) (by decide)
    (by decide) (by decide) (by decide)

/-! ## The template row of a return record (C12) -/

theorem processReturns_of_loop (rows : List (List String)) :
    processReturns rows =
      match returnsLoop rows with
      | Outcome.notEnoughData => Outcome.notEnoughData
      | Outcome.missingColumn col => Outcome.missingColumn col
      | Outcome.indexOutOfRange => Outcome.indexOutOfRange
      | Outcome.written returnsMap =>
        match returnsMap.mapM
            (fun p => returnsRow (rows.getD 1 []) (colIndexes (rows.getD 1 [])) p.2) with
        | none => Outcome.indexOutOfRange
        | some outRows => Outcome.written (Table.mk (outputHeaders (rows.getD 1 [])) outRows) := by
  unfold processReturns returnsLoop
  by_cases h3 : rows.length < 3
  · simp only [h3, ↓reduceIte]
  · simp only [h3, ↓reduceIte]
    cases firstMissing (colIndexes (rows.getD 1 [])) returnsRequired with
    | some col => rfl
    | none =>
      simp only
      cases (rows.drop 2).foldlM (returnsStep (rows.getD 1 []) (colIndexes (rows.getD 1 []))) [] with
      | none => rfl
      | some m => rfl

theorem returnsLoop_eq (rows : List (List String)) (h3 : 3 ≤ rows.length)
    (hreq : ∀ col ∈ returnsRequired, col ∈ headerRow rows) :
    returnsLoop rows = Outcome.written (returnsOf rows) := by
  unfold returnsLoop
  rw [if_neg (by omega)]
  simp only []
  have hfm : firstMissing (colIndexes (rows.getD 1 [])) returnsRequired = none :=
    firstMissing_eq_none _ _ hreq
  have hfold : (rows.drop 2).foldlM (returnsStep (rows.getD 1 [])
      (colIndexes (rows.getD 1 []))) [] = some (returnsOf rows) :=
    foldlM_eq_some_foldl _ (returnsRead (rows.getD 1 [])) _ _
      (fun t x _ => returnsStep_eq _ hreq t x)
  rw [hfm]
  simp only [hfold]

theorem template_fold (headers : List String)
    (hreq : ∀ col ∈ returnsRequired, col ∈ headers) (l : List (List String)) (k : String) :
    (mapGet (l.foldl (returnsRead headers) []) k).map (fun ret => ret.FullData) =
      (l.filter (fun row => decide (headers.length ≤ row.length))).find?
        (isReturnRow headers k) := by
  induction l using List.reverseRecOn with
  | nil => rfl
  | append_singleton l x ih =>
    rw [List.foldl_append, List.filter_append, List.find?_append, ← ih]
    simp only [List.foldl_cons, List.foldl_nil]
    rcases returnsRead_cases headers hreq (l.foldl (returnsRead headers) []) x with
      ⟨h1, h2⟩ | ⟨id, sum, hle, ha, hk, h⟩
    · rw [h1]
      have hnone : ([x].filter (fun row => decide (headers.length ≤ row.length))).find?
          (isReturnRow headers k) = none := by
        have := h2 k
        by_cases hle : headers.length ≤ x.length
        · simp only [hle, decide_True, Bool.true_and] at this
          simp [hle, this]
        · simp [hle]
      rw [hnone]
      simp
    · rw [h]
      have hfind : ([x].filter (fun row => decide (headers.length ≤ row.length))).find?
          (isReturnRow headers k) = if id = k then some x else none := by
        simp only [List.filter_cons, hle, decide_True, ↓reduceIte, List.filter_nil,
          List.find?_cons, hk k, List.find?_nil]
        by_cases e : id = k
        · simp [e]
        · simp [e]
      rw [hfind]
      by_cases e : id = k
      · subst e
        cases hg : mapGet (l.foldl (returnsRead headers) []) id with
        | none => simp [mapGet_mapSet_self]
        | some existing => simp [mapGet_mapSet_self]
      · cases hg : mapGet (l.foldl (returnsRead headers) []) id with
        | none => simp [mapGet_mapSet_ne _ _ _ _ e, e]
        | some existing => simp [mapGet_mapSet_ne _ _ _ _ e, e]

theorem template_returnsOf (rows : List (List String))
    (hreq : ∀ col ∈ returnsRequired, col ∈ headerRow rows)
    (p : String × ReturnData) (hp : p ∈ returnsOf rows) :
    (fullRows rows).find? (isReturnRow (headerRow rows) p.1) = some p.2.FullData := by
  have hw := wellKeyedReturns_returnsOf rows hreq
  have hget : mapGet (returnsOf rows) p.1 = some p.2 := mapGet_of_mem _ hw.1 p.1 p.2 hp
  have := template_fold (headerRow rows) hreq (dataRows rows) p.1
  unfold fullRows
  rw [← this]
  unfold returnsOf at hget
  rw [hget]
  rfl

theorem returnsStep_frame (headers : List String) (ci : List (String × Nat))
    (m m2 : List (String × ReturnData)) (row : List String) (k : String) (ret : ReturnData)
    (h : returnsStep headers ci m row = some m2) (hk : mapGet m k = some ret) :
    ∃ ret2, mapGet m2 k = some ret2 ∧ ret2.FullData = ret.FullData ∧ ret2.ID = ret.ID := by
  have hset : ∀ id sum, (∀ existing, mapGet m id = some existing →
      m2 = mapSet m id (ReturnData.mk existing.ID (existing.Sum + sum) existing.FullData)) →
      (mapGet m id = none → m2 = mapSet m id (ReturnData.mk id sum row)) →
      ∃ ret2, mapGet m2 k = some ret2 ∧ ret2.FullData = ret.FullData ∧ ret2.ID = ret.ID := by
    intro id sum h1 h2
    cases hg : mapGet m id with
    | none =>
      have hne : id ≠ k := by
        intro e
        rw [e, hk] at hg
        exact Option.noConfusion hg
      rw [h2 hg, mapGet_mapSet_ne _ _ _ _ hne]
      exact ⟨ret, hk, rfl, rfl⟩
    | some existing =>
      rw [h1 existing hg]
      by_cases e : id = k
      · subst e
        rw [hk] at hg
        have : ret = existing := Option.some.inj hg
        subst this
        exact ⟨_, mapGet_mapSet_self _ _ _, rfl, rfl⟩
      · rw [mapGet_mapSet_ne _ _ _ _ e]
        exact ⟨ret, hk, rfl, rfl⟩
  unfold returnsStep at h
  split at h
  · rw [← Option.some.inj h]; exact ⟨ret, hk, rfl, rfl⟩
  · split at h
    · exact Option.noConfusion h
    · split at h
      · rw [← Option.some.inj h]; exact ⟨ret, hk, rfl, rfl⟩
      · split at h
        · exact Option.noConfusion h
        · simp only at h
          split at h
          · exact Option.noConfusion h
          · split at h
            · rw [← Option.some.inj h]; exact ⟨ret, hk, rfl, rfl⟩
            · rename_i rawID _ _ _ _ _ sum _
              apply hset (normalizeID rawID) sum
              · intro existing he
                rw [he] at h
                exact (Option.some.inj h).symm
              · intro he
                rw [he] at h
                exact (Option.some.inj h).symm

/-- C12, counterexample to the claim as stated.  In `templateSheet` the first data row with
category "Возвраты" and key `A-1` is the row ending in "first"; its amount does not parse,
so the record of `A-1` is created on the next row and retains that one: the output row
shows "second". -/
theorem returns_template_counterexample :
    returnsLoop templateSheet =
        Outcome.written
          [("A-1", ReturnData.mk "A-1" (3 / 2)
            ["A-1-9", "Возвраты", "Плата", "100", "second"])] ∧
      processReturns templateSheet =
        Outcome.written
          (Table.mk ["ID начисления", "Группа услуг", "Сумма итого, руб", "Примечание"]
            [[Cell.text "A-1", Cell.text "Возвраты", Cell.number (3 / 2),
              Cell.text "second"]]) ∧
      (dataRows templateSheet).find? (isReturnOfKey (headerRow templateSheet) "A-1") =
        some ["A-1-7", "Возвраты", "Плата", "n/a", "first"] := by
  refine ⟨by decide!, by decide!, by decide!⟩

/-- C12, amended.  Returns Extractor template row: for a sheet that passes the header
checks and every key `k` in the returns output, the Return Record of `k` retains as its
template the first data row in source order that has at least as many cells as the header
row, whose category equals "Возвраты", whose normalized identifier is `k` and whose amount
parses; the output rows are written from these records.  A later row changes at most the
running sum of a record, never its retained row or its key. -/
theorem returns_template (rows : List (List String)) (h3 : 3 ≤ rows.length)
    (hreq : ∀ col ∈ returnsRequired, col ∈ headerRow rows) :
    (∃ records T, returnsLoop rows = Outcome.written records ∧
      processReturns rows = Outcome.written T ∧
      T.rows = records.map
        (fun p => T.header.map (returnsCellRead (headerRow rows) p.2)) ∧
      ∀ p ∈ records,
        (fullRows rows).find? (isReturnRow (headerRow rows) p.1) = some p.2.FullData) ∧
    (∀ (ci : List (String × Nat)) (m m2 : List (String × ReturnData)) (row : List String)
        (k : String) (ret : ReturnData),
      returnsStep (headerRow rows) ci m row = some m2 → mapGet m k = some ret →
        ∃ ret2, mapGet m2 k = some ret2 ∧ ret2.FullData = ret.FullData ∧ ret2.ID = ret.ID) := by
  refine ⟨⟨_, _, returnsLoop_eq rows h3 hreq, processReturns_eq rows h3 hreq, rfl, ?_⟩, ?_⟩
  · intro p hp
    exact template_returnsOf rows hreq p hp
  · intro ci m m2 row k ret h hk
    exact returnsStep_frame _ ci m m2 row k ret h hk

theorem returns_template_witness :
    ∃ records T, returnsLoop templateSheet = Outcome.written records ∧
      processReturns templateSheet = Outcome.written T ∧
      T.rows = records.map
        (fun p => T.header.map (returnsCellRead (headerRow templateSheet) p.2)) ∧
      ∀ p ∈ records,
        (fullRows templateSheet).find? (isReturnRow (headerRow templateSheet) p.1)
          = some p.2.FullData :=
  (returns_template templateSheet (by decide) (by decide)).1

/-! ## The shape of the returns table (C13) -/

theorem getElem?_filter_take {α : Type} (q : α → Bool) (l : List α) (i : Nat) (a : α)
    (h : l[i]? = some a) (hq : q a = true) :
    (l.filter q)[((l.take i).filter q).length]? = some a := by
  induction l generalizing i with
  | nil => simp at h
  | cons b l ih =>
    cases i with
    | zero =>
      simp only [List.getElem?_cons_zero, Option.some.injEq] at h
      subst h
      simp [List.filter_cons, hq]
    | succ i =>
      simp only [List.getElem?_cons_succ] at h
      have := ih i h
      by_cases hb : q b = true
      · simp [List.filter_cons, hb, this]
      · simp [List.filter_cons, hb, this]

theorem field_at_last (headers row : List String) (name : String) (i : Nat)
    (hi : headers[i]? = some name) (hlast : ∀ j, i < j → headers[j]? ≠ some name)
    (hlen : headers.length ≤ row.length) :
    row[i]? = some (field headers row name) := by
  have hmem : name ∈ headers := List.getElem?_mem hi
  obtain ⟨l, hl, hl2, hl3⟩ := colIndexes_last headers name hmem
  have hil : i = l := by
    rcases Nat.lt_trichotomy i l with h | h | h
    · exact absurd hl2 (hlast l h)
    · exact h
    · exact absurd hi (hl3 i h)
  subst hil
  have hcell := cellAt_eq_some_field headers row name hmem hlen
  rw [← hcell]
  unfold cellAt index
  rw [hl]
  simp only [Option.getD_some]
  have hnn : ¬ (((i + 1 : Nat) : Int) - 1 < 0) := by omega
  rw [if_neg hnn]
  congr 1
  omega

/-- C13, counterexample to the claim as stated.  The header of `duplicateHeaderSheet` has
the name "Заметка" in input columns 3 and 4 and the template row has `p` and `q` there;
the cell is looked up by name, the map of column indexes keeps the last column of a name,
and the output shows `q` in both columns. -/
theorem returns_duplicateHeader_counterexample :
    processReturns duplicateHeaderSheet =
        Outcome.written
          (Table.mk ["ID начисления", "Группа услуг", "Сумма итого, руб", "Заметка", "Заметка"]
            [[Cell.text "A-1", Cell.text "Возвраты", Cell.number 1, Cell.text "q",
              Cell.text "q"]]) ∧
      returnsLoop duplicateHeaderSheet =
        Outcome.written
          [("A-1", ReturnData.mk "A-1" 1 ["A-1-7", "Возвраты", "100", "p", "q"])] ∧
      (headerRow duplicateHeaderSheet)[3]? = some "Заметка" ∧
      ["A-1-7", "Возвраты", "100", "p", "q"][3]? = some "p" := by
  refine ⟨by decide!, by decide!, by decide, by decide⟩

/-- C13, amended.  Returns Extractor output shape: for a sheet that passes the header checks
the output header is the input header row with the columns named "Тип начисления" removed
and the remaining columns in their original order; every output row belongs to a record and
has one cell per output header column, aligned with it: for every input column `i` whose
header `h` is not "Тип начисления", the output cell in the corresponding output column is
the normalized key when `h` is "ID начисления", the accumulated sum when `h` is
"Сумма итого, руб", and otherwise the template row's cell at the last input position whose
header is `h`, copied verbatim; that position is `i` itself when no later column repeats
the name. -/
theorem returns_shape (rows : List (List String)) (h3 : 3 ≤ rows.length)
    (hreq : ∀ col ∈ returnsRequired, col ∈ headerRow rows) :
    ∃ records T, returnsLoop rows = Outcome.written records ∧
      processReturns rows = Outcome.written T ∧
      T.header = (headerRow rows).filter (fun h => h ≠ "Тип начисления") ∧
      T.rows.length = records.length ∧
      ∀ (n : Nat) (r : List Cell), T.rows[n]? = some r →
        ∃ p : String × ReturnData, records[n]? = some p ∧ p.2.ID = p.1 ∧
        r.length = T.header.length ∧
        ∀ (i : Nat) (h : String), (headerRow rows)[i]? = some h → h ≠ "Тип начисления" →
          T.header[(((headerRow rows).take i).filter
              (fun h => h ≠ "Тип начисления")).length]? = some h ∧
          (h = "ID начисления" →
            r[(((headerRow rows).take i).filter (fun h => h ≠ "Тип начисления")).length]?
              = some (Cell.text p.1)) ∧
          (h = "Сумма итого, руб" →
            r[(((headerRow rows).take i).filter (fun h => h ≠ "Тип начисления")).length]?
              = some (Cell.number p.2.Sum)) ∧
          (h ≠ "ID начисления" → h ≠ "Сумма итого, руб" →
            ∀ l : Nat, (headerRow rows)[l]? = some h →
              (∀ j : Nat, l < j → (headerRow rows)[j]? ≠ some h) →
                r[(((headerRow rows).take i).filter (fun h => h ≠ "Тип начисления")).length]?
                  = (p.2.FullData[l]?).map Cell.text) := by
  refine ⟨_, _, returnsLoop_eq rows h3 hreq, processReturns_eq rows h3 hreq, rfl,
    by simp, ?_⟩
  intro n r hr
  have hw := wellKeyedReturns_returnsOf rows hreq
  simp only [List.getElem?_map] at hr
  cases hp : (returnsOf rows)[n]? with
  | none => rw [hp] at hr; exact Option.noConfusion hr
  | some p =>
    rw [hp] at hr
    have hmem : p ∈ returnsOf rows := List.getElem?_mem hp
    have hrow : (outputHeaders (headerRow rows)).map (returnsCellRead (headerRow rows) p.2) = r :=
      Option.some.inj hr
    refine ⟨p, rfl, (hw.2 p hmem).1, by rw [← hrow]; simp [outputHeaders], ?_⟩
    intro i h hi hne
    have hq : (fun h : String => decide (h ≠ "Тип начисления")) h = true := by simpa using hne
    have hpos := getElem?_filter_take (fun h : String => decide (h ≠ "Тип начисления"))
      (headerRow rows) i h hi hq
    have hcell : r[(((headerRow rows).take i).filter
        (fun h => decide (h ≠ "Тип начисления"))).length]? =
        some (returnsCellRead (headerRow rows) p.2 h) := by
      rw [← hrow, List.getElem?_map]
      unfold outputHeaders
      rw [hpos]
      rfl
    refine ⟨hpos, ?_, ?_, ?_⟩
    · intro e
      rw [hcell]
      unfold returnsCellRead
      rw [if_pos e, (hw.2 p hmem).1]
    · intro e
      rw [hcell]
      unfold returnsCellRead
      have hne2 : ¬ h = "ID начисления" := by rw [e]; decide
      rw [if_neg hne2, if_pos e]
    · intro e1 e2 l hl hlast
      rw [hcell, field_at_last (headerRow rows) p.2.FullData h l hl hlast (hw.2 p hmem).2]
      unfold returnsCellRead
      rw [if_neg e1, if_neg e2]
      rfl

theorem returns_shape_witness :
    ∃ records T, returnsLoop templateSheet = Outcome.written records ∧
      processReturns templateSheet = Outcome.written T ∧
      T.header = (headerRow templateSheet).filter (fun h => h ≠ "Тип начисления") ∧
      T.rows.length = records.length ∧
      ∀ (n : Nat) (r : List Cell), T.rows[n]? = some r →
        ∃ p : String × ReturnData, records[n]? = some p ∧ p.2.ID = p.1 ∧
        r.length = T.header.length ∧
        ∀ (i : Nat) (h : String), (headerRow templateSheet)[i]? = some h → h ≠ "Тип начисления" →
          T.header[(((headerRow templateSheet).take i).filter
              (fun h => h ≠ "Тип начисления")).length]? = some h ∧
          (h = "ID начисления" →
            r[(((headerRow templateSheet).take i).filter
                (fun h => h ≠ "Тип начисления")).length]?
              = some (Cell.text p.1)) ∧
          (h = "Сумма итого, руб" →
            r[(((headerRow templateSheet).take i).filter
                (fun h => h ≠ "Тип начисления")).length]?
              = some (Cell.number p.2.Sum)) ∧
          (h ≠ "ID начисления" → h ≠ "Сумма итого, руб" →
            ∀ l : Nat, (headerRow templateSheet)[l]? = some h →
              (∀ j : Nat, l < j → (headerRow templateSheet)[j]? ≠ some h) →
                r[(((headerRow templateSheet).take i).filter
                    (fun h => h ≠ "Тип начисления")).length]?
                  = (p.2.FullData[l]?).map Cell.text) :=
  returns_shape templateSheet (by decide) (by decide)

/-! ## Rule file parsing (C16) -/

theorem splitHash_ne_nil (s : List Char) : splitHash s ≠ [] := by
  cases s with
  | nil => simp [splitHash]
  | cons c cs =>
    unfold splitHash
    split
    · simp
    · split <;> simp

theorem splitHash_no_hash (s : List Char) : ∀ f ∈ splitHash s, '#' ∉ f := by
  induction s with
  | nil => simp [splitHash]
  | cons c cs ih =>
    unfold splitHash
    split
    · intro f hf
      rcases List.mem_cons.1 hf with h | h
      · subst h; simp
      · exact ih f h
    · rename_i hc
      cases hs : splitHash cs with
      | nil => exact absurd hs (splitHash_ne_nil cs)
      | cons p ps =>
        rw [hs] at ih
        intro f hf
        rcases List.mem_cons.1 hf with h | h
        · subst h
          intro hm
          rcases List.mem_cons.1 hm with h1 | h1
          · exact hc h1.symm
          · exact ih p (List.mem_cons_self _ _) h1
        · exact ih f (List.mem_cons_of_mem _ h)

theorem intercalate_cons_cons (sep x y : List Char) (ys : List (List Char)) :
    List.intercalate sep (x :: y :: ys) = x ++ sep ++ List.intercalate sep (y :: ys) := by
  simp [List.intercalate, List.intersperse]

theorem splitHash_join (s : List Char) : List.intercalate ['#'] (splitHash s) = s := by
  induction s with
  | nil => simp [splitHash, List.intercalate]
  | cons c cs ih =>
    unfold splitHash
    cases hs : splitHash cs with
    | nil => exact absurd hs (splitHash_ne_nil cs)
    | cons p ps =>
      rw [hs] at ih
      split
      · rename_i hc
        rw [intercalate_cons_cons, ih, hc]
        rfl
      · cases ps with
        | nil =>
          simp only [List.intercalate, List.intersperse] at ih ⊢
          simp only [List.flatten, List.append_nil] at ih ⊢
          rw [ih]
        | cons q qs =>
          rw [intercalate_cons_cons] at ih ⊢
          simp only [List.cons_append]
          rw [← ih]

theorem dropWhile_decomp (q : Char → Bool) (l : List Char) :
    ∃ pre, l = pre ++ l.dropWhile q ∧ (∀ c ∈ pre, q c = true) ∧
      ∀ c, (l.dropWhile q).head? = some c → q c = false := by
  refine ⟨l.takeWhile q, (List.takeWhile_append_dropWhile q l).symm, ?_, ?_⟩
  · intro c hc
    exact List.mem_takeWhile_imp hc
  · intro c hc
    induction l with
    | nil => simp at hc
    | cons a l ih =>
      by_cases ha : q a = true
      · rw [List.dropWhile_cons_of_pos ha] at hc
        exact ih hc
      · rw [List.dropWhile_cons_of_neg ha] at hc
        simp only [List.head?_cons, Option.some.injEq] at hc
        subst hc
        simpa using ha

theorem trimSpace_spec (s : String) :
    ∃ pre post, s.data = pre ++ (trimSpace s).data ++ post ∧
      (∀ c ∈ pre, isSpace c = true) ∧ (∀ c ∈ post, isSpace c = true) ∧
      (∀ c, (trimSpace s).data.head? = some c → isSpace c = false) ∧
      (∀ c, (trimSpace s).data.getLast? = some c → isSpace c = false) := by
  obtain ⟨pre, h1, h2, h3⟩ := dropWhile_decomp isSpace s.data
  obtain ⟨post, g1, g2, g3⟩ := dropWhile_decomp isSpace (s.data.dropWhile isSpace).reverse
  have hmid : s.data.dropWhile isSpace = (trimSpace s).data ++ post.reverse := by
    have := congrArg List.reverse g1
    simpa [trimSpace] using this
  refine ⟨pre, post.reverse, ?_, h2, ?_, ?_, ?_⟩
  · rw [List.append_assoc, ← hmid]
    exact h1
  · intro c hc
    exact g2 c (List.mem_reverse.1 hc)
  · intro c hc
    apply h3
    rw [hmid]
    cases ht : (trimSpace s).data with
    | nil => rw [ht] at hc; simp at hc
    | cons a t => rw [ht] at hc; simpa using hc
  · intro c hc
    apply g3
    simpa [trimSpace, List.getLast?_reverse] using hc

theorem settingsStep_eq (settings : List GroupingSetting) (line : String) :
    settingsStep settings line =
      settings ++
        (if 2 ≤ (fieldsOf line).length ∧ trimSpace ((fieldsOf line).getD 0 "") ≠ "" ∧
            trimSpace ((fieldsOf line).getD 1 "") ≠ "" then
          [GroupingSetting.mk (trimSpace ((fieldsOf line).getD 0 ""))
            (trimSpace ((fieldsOf line).getD 1 ""))
            (decide (((fieldsOf line)[2]?).map trimSpace = some "Д"))]
        else []) := by
  unfold settingsStep
  simp only []
  by_cases h2 : (fieldsOf line).length < 2
  · rw [if_pos h2, if_neg (by omega)]
    simp
  · rw [if_neg h2]
    by_cases hl : trimSpace ((fieldsOf line).getD 0 "") ≠ "" ∧
        trimSpace ((fieldsOf line).getD 1 "") ≠ ""
    · rw [if_pos hl, if_pos ⟨by omega, hl⟩]
      congr 3
      by_cases h3 : 3 ≤ (fieldsOf line).length
      · have hlt : 2 < (fieldsOf line).length := h3
        simp [List.getD_eq_getElem?_getD, List.getElem?_eq_getElem hlt, h3]
      · have hge : (fieldsOf line).length ≤ 2 := by omega
        simp [List.getElem?_eq_none hge, h3]
    · rw [if_neg hl, if_neg (fun h => hl h.2)]
      simp

theorem readGroupingSettings_fold (lines : List String) (init : List GroupingSetting) :
    lines.foldl settingsStep init =
      init ++ (lines.filter (fun line =>
          decide (2 ≤ (fieldsOf line).length ∧ trimSpace ((fieldsOf line).getD 0 "") ≠ "" ∧
            trimSpace ((fieldsOf line).getD 1 "") ≠ ""))).map (fun line =>
          GroupingSetting.mk (trimSpace ((fieldsOf line).getD 0 ""))
            (trimSpace ((fieldsOf line).getD 1 ""))
            (decide (((fieldsOf line)[2]?).map trimSpace = some "Д"))) := by
  induction lines generalizing init with
  | nil => simp
  | cons line lines ih =>
    rw [List.foldl_cons, ih, settingsStep_eq]
    by_cases h : 2 ≤ (fieldsOf line).length ∧ trimSpace ((fieldsOf line).getD 0 "") ≠ "" ∧
        trimSpace ((fieldsOf line).getD 1 "") ≠ ""
    · rw [if_pos h, List.filter_cons_of_pos (by simpa using h)]
      simp
    · rw [if_neg h, List.filter_cons_of_neg (by simpa using h)]
      simp

theorem settingsStep_congr (settings : List GroupingSetting) (a b : String)
    (h : (fieldsOf a).take 3 = (fieldsOf b).take 3) :
    settingsStep settings a = settingsStep settings b := by
  have hlen : min 3 (fieldsOf a).length = min 3 (fieldsOf b).length := by
    have := congrArg List.length h
    simpa [List.length_take] using this
  have hget : ∀ i, i < 3 → (fieldsOf a)[i]? = (fieldsOf b)[i]? := by
    intro i hi
    have := congrArg (fun l => l[i]?) h
    simpa [List.getElem?_take, hi] using this
  unfold settingsStep
  simp only [List.getD_eq_getElem?_getD, hget 0 (by omega), hget 1 (by omega),
    hget 2 (by omega)]
  have e2 : ((fieldsOf a).length < 2) = ((fieldsOf b).length < 2) := by
    apply propext; omega
  have e3 : ((fieldsOf a).length ≥ 3) = ((fieldsOf b).length ≥ 3) := by
    apply propext; omega
  simp only [e2, e3]

theorem rawLines_append (l rest : List Char) (h : Char.ofNat 10 ∉ l) :
    rawLines (l ++ Char.ofNat 10 :: rest) = l :: rawLines rest := by
  induction l with
  | nil => simp [rawLines]
  | cons c l ih =>
    have hc : ¬ c = Char.ofNat 10 := fun e => h (by rw [e]; exact List.mem_cons_self _ _)
    have hl : Char.ofNat 10 ∉ l := fun e => h (List.mem_cons_of_mem _ e)
    rw [List.cons_append]
    simp only [rawLines, hc, ↓reduceIte, ih hl]

theorem rawLines_fileOfLines (lines : List String)
    (h : ∀ l ∈ lines, Char.ofNat 10 ∉ l.data) :
    rawLines (fileOfLines lines).data = lines.map String.data := by
  unfold fileOfLines
  induction lines with
  | nil => simp [rawLines]
  | cons l lines ih =>
    simp only [List.flatMap_cons, List.append_assoc, List.singleton_append, List.map_cons]
    rw [rawLines_append _ _ (h l (List.mem_cons_self _ _))]
    have := ih (fun x hx => h x (List.mem_cons_of_mem _ hx))
    simp only at this
    rw [this]

theorem scanLines_fileOfLines (lines : List String)
    (h : ∀ l ∈ lines, Char.ofNat 10 ∉ l.data ∧ l.data.getLast? ≠ some (Char.ofNat 13) ∧
      utf8Length l.data < maxScanTokenSize) :
    scanLines (fileOfLines lines) = some lines := by
  unfold scanLines
  rw [rawLines_fileOfLines lines (fun l hl => (h l hl).1)]
  have hall : (lines.map String.data).all
      (fun l => decide (utf8Length l < maxScanTokenSize)) = true := by
    rw [List.all_eq_true]
    intro x hx
    obtain ⟨l, hl, rfl⟩ := List.mem_map.1 hx
    simpa using (h l hl).2.2
  rw [if_pos hall, List.map_map]
  congr 1
  conv_rhs => rw [← List.map_id lines]
  apply List.map_congr_left
  intro l hl
  simp only [Function.comp_apply, id_eq]
  unfold dropCR
  rw [if_neg (h l hl).2.1]

theorem utf8Length_replicate (n : Nat) : utf8Length (List.replicate n 'x') = n := by
  unfold utf8Length
  induction n with
  | zero => rfl
  | succ n ih =>
    rw [List.replicate_succ, List.map_cons, List.sum_cons, ih]
    have : Char.utf8Size 'x' = 1 := by decide
    rw [this]
    omega

theorem scanLines_eq_none (content : String) (l : List Char) (hl : l ∈ rawLines content.data)
    (hlong : maxScanTokenSize ≤ utf8Length l) : scanLines content = none := by
  unfold scanLines
  rw [if_neg]
  intro hall
  rw [List.all_eq_true] at hall
  have := hall l hl
  simp only [decide_eq_true_eq] at this
  omega

theorem isSpace_iff (c : Char) :
    isSpace c = true ↔
      c.toNat ∈ [9, 10, 11, 12, 13, 32, 133, 160, 5760, 8192, 8193, 8194, 8195, 8196, 8197,
        8198, 8199, 8200, 8201, 8202, 8232, 8233, 8239, 8287, 12288] := by
  unfold isSpace
  generalize c.toNat = n
  simp only [Bool.or_eq_true, Bool.and_eq_true, decide_eq_true_eq, beq_iff_eq, List.mem_cons,
    List.mem_singleton, List.not_mem_nil, or_false]
  omega

theorem foldl_settingsStep_congr (lines lines2 : List String)
    (h : List.Forall₂ (fun a b => (fieldsOf a).take 3 = (fieldsOf b).take 3) lines lines2)
    (init : List GroupingSetting) :
    lines2.foldl settingsStep init = lines.foldl settingsStep init := by
  induction h generalizing init with
  | nil => rfl
  | cons hab _ ih =>
    rw [List.foldl_cons, List.foldl_cons, settingsStep_congr _ _ _ hab]
    exact ih _

theorem readGroupingSettings_of_lines (content : String) (lines : List String)
    (h : scanLines content = some lines) :
    readGroupingSettings content = some ((lines.filter specGivesEntry).map specEntry) := by
  unfold readGroupingSettings
  rw [h, Option.map_some', readGroupingSettings_fold]
  simp only [List.nil_append]
  rfl

/-- C16, counterexample to the claim as stated.  The rule file with the two lines `a#b`
and `longLine` has a first line that gives the entry `a` → `b`, and a second line of 65536
bytes: the scanner stops with `ErrTooLong`, `readGroupingSettings` returns `nil, err`, and
no rule list is loaded. -/
theorem readGroupingSettings_longLine_counterexample :
    readGroupingSettings (fileOfLines ["a#b", longLine]) = none ∧
      specGivesEntry "a#b" = true ∧ specEntry "a#b" = GroupingSetting.mk "a" "b" false ∧
      utf8Length longLine.data = maxScanTokenSize := by
  have hlen : utf8Length longLine.data = maxScanTokenSize := utf8Length_replicate 65536
  refine ⟨?_, by decide, by decide, hlen⟩
  unfold readGroupingSettings
  have hraw : rawLines (fileOfLines ["a#b", longLine]).data =
      ["a#b", longLine].map String.data := by
    apply rawLines_fileOfLines
    intro l hl
    simp only [List.mem_cons, List.mem_singleton, List.not_mem_nil, or_false] at hl
    rcases hl with rfl | rfl
    · decide
    · intro hm
      have := List.eq_of_mem_replicate hm
      exact absurd this (by decide)
  rw [scanLines_eq_none _ longLine.data (by rw [hraw]; simp) (le_of_eq hlen.symm)]
  rfl

/-- C16, amended.  Rule file parsing: for every rule file whose lines are each shorter than
64 KiB (65536 bytes of UTF-8 before the line feed), the scanner yields the lines of the
file (cut at line feeds, one trailing carriage return dropped) and the loaded rule list
contains, in line order, one entry per line that, split on "#", has at least two fields
with non-empty whitespace-trimmed field 0 and field 1, and no entry for any other line; the
entry's source label is trimmed field 0, its target label is trimmed field 1, and its
special flag is set if and only if a field 2 exists and its trimmed text is exactly "Д";
fields after field 2 are ignored.  A file with a line of 64 KiB or more loads no rule list:
the reader returns an error.  In particular every list of lines without line feeds and
trailing carriage returns, each shorter than 64 KiB, loads the entries of its lines.  The
fields of a line contain no "#" and joined by "#" give the line back; trimming removes a
prefix and a suffix of white space and leaves a text that neither starts nor ends with
white space; white space is the characters U+0009 to U+000D, U+0020, U+0085, U+00A0,
U+1680, U+2000 to U+200A, U+2028, U+2029, U+202F, U+205F and U+3000. -/
theorem readGroupingSettings_entries (content : String) :
    ((∀ l ∈ rawLines content.data, utf8Length l < maxScanTokenSize) →
      scanLines content =
          some ((rawLines content.data).map (fun l => String.mk (dropCR l))) ∧
        readGroupingSettings content =
          some ((((rawLines content.data).map (fun l => String.mk (dropCR l))).filter
            specGivesEntry).map specEntry)) ∧
    ((∃ l ∈ rawLines content.data, maxScanTokenSize ≤ utf8Length l) →
      readGroupingSettings content = none) ∧
    (∀ lines : List String,
      (∀ l ∈ lines, Char.ofNat 10 ∉ l.data ∧ l.data.getLast? ≠ some (Char.ofNat 13) ∧
        utf8Length l.data < maxScanTokenSize) →
      readGroupingSettings (fileOfLines lines) =
        some ((lines.filter specGivesEntry).map specEntry)) ∧
    (∀ lines lines2 : List String,
      (∀ l ∈ lines, Char.ofNat 10 ∉ l.data ∧ l.data.getLast? ≠ some (Char.ofNat 13) ∧
        utf8Length l.data < maxScanTokenSize) →
      (∀ l ∈ lines2, Char.ofNat 10 ∉ l.data ∧ l.data.getLast? ≠ some (Char.ofNat 13) ∧
        utf8Length l.data < maxScanTokenSize) →
      List.Forall₂ (fun a b => (fieldsOf a).take 3 = (fieldsOf b).take 3) lines lines2 →
        readGroupingSettings (fileOfLines lines2) = readGroupingSettings (fileOfLines lines)) ∧
    (∀ line : String, (∀ f ∈ fieldsOf line, '#' ∉ f.data) ∧
      List.intercalate ['#'] ((fieldsOf line).map String.data) = line.data) ∧
    (∀ s : String, ∃ pre post, s.data = pre ++ (trimSpace s).data ++ post ∧
      (∀ c ∈ pre, isSpace c = true) ∧ (∀ c ∈ post, isSpace c = true) ∧
      (∀ c, (trimSpace s).data.head? = some c → isSpace c = false) ∧
      (∀ c, (trimSpace s).data.getLast? = some c → isSpace c = false)) ∧
    (∀ c : Char, isSpace c = true ↔
      c.toNat ∈ [9, 10, 11, 12, 13, 32, 133, 160, 5760, 8192, 8193, 8194, 8195, 8196, 8197,
        8198, 8199, 8200, 8201, 8202, 8232, 8233, 8239, 8287, 12288]) := by
  refine ⟨?_, ?_, ?_, ?_, ?_, trimSpace_spec, isSpace_iff⟩
  · intro hall
    have hscan : scanLines content =
        some ((rawLines content.data).map (fun l => String.mk (dropCR l))) := by
      unfold scanLines
      rw [if_pos]
      rw [List.all_eq_true]
      intro l hl
      simpa using hall l hl
    exact ⟨hscan, readGroupingSettings_of_lines content _ hscan⟩
  · rintro ⟨l, hl, hlong⟩
    unfold readGroupingSettings
    rw [scanLines_eq_none content l hl hlong]
    rfl
  · intro lines h
    exact readGroupingSettings_of_lines _ lines (scanLines_fileOfLines lines h)
  · intro lines lines2 h h2 hf
    unfold readGroupingSettings
    rw [scanLines_fileOfLines lines h, scanLines_fileOfLines lines2 h2, Option.map_some',
      Option.map_some', foldl_settingsStep_congr lines lines2 hf]
  · intro line
    constructor
    · intro f hf
      unfold fieldsOf at hf
      obtain ⟨g, hg, rfl⟩ := List.mem_map.1 hf
      exact splitHash_no_hash _ g hg
    · unfold fieldsOf
      rw [List.map_map]
      have : (String.data ∘ String.mk) = id := by funext l; rfl
      rw [this, List.map_id, splitHash_join]

theorem readGroupingSettings_entries_witness :
    (scanLines ruleFile =
        some ((rawLines ruleFile.data).map (fun l => String.mk (dropCR l))) ∧
      readGroupingSettings ruleFile =
        some ((((rawLines ruleFile.data).map (fun l => String.mk (dropCR l))).filter
          specGivesEntry).map specEntry)) ∧
    readGroupingSettings ruleFile =
      some [GroupingSetting.mk "Плата" "Сборы" true, GroupingSetting.mk "x" "y" false,
        GroupingSetting.mk "a" "b" true,
        GroupingSetting.mk (String.mk [Char.ofNat 8203, 'q']) "r" false] ∧
    (rawLines ruleFile.data).length = 6 :=
  ⟨(readGroupingSettings_entries ruleFile).1 (by decide), by decide, by decide⟩

/-! ## Skipped rows leave no trace (C19) -/

theorem headerRow_remove (pre post : List (List String)) (row : List String)
    (hpre : 2 ≤ pre.length) : headerRow (pre ++ row :: post) = headerRow (pre ++ post) := by
  unfold headerRow
  rw [List.getD_eq_getElem?_getD, List.getD_eq_getElem?_getD,
    List.getElem?_append_left (by omega), List.getElem?_append_left (by omega)]

theorem dataRows_append (pre l : List (List String)) (hpre : 2 ≤ pre.length) :
    dataRows (pre ++ l) = pre.drop 2 ++ l := by
  unfold dataRows
  rw [List.drop_append_of_le_length hpre]

theorem returnsRead_skip (headers : List String)
    (hreq : ∀ col ∈ returnsRequired, col ∈ headers) (m : List (String × ReturnData))
    (row : List String)
    (hskip : row.length < headers.length ∨ rowAmount headers row = none) :
    returnsRead headers m row = m := by
  unfold returnsRead
  by_cases hlen : row.length < headers.length
  · rw [if_pos hlen]
  · rw [if_neg hlen]
    rcases hskip with h | h
    · exact absurd h hlen
    · have hc := cellAt_eq_some_field headers row "Сумма итого, руб"
        (hreq _ (by simp [returnsRequired])) (by omega)
      unfold rowAmount at h
      rw [hc] at h
      have h2 : parseSum (field headers row "Сумма итого, руб") = none := h
      rw [h2]
      split <;> rfl

theorem groupRead_skip (headers : List String)
    (hreq : ∀ col ∈ groupRequired, col ∈ headers) (mapping : List (String × GroupingSetting))
    (g : List (String × GroupData)) (row : List String)
    (hskip : row.length < headers.length ∨ rowAmount headers row = none) :
    groupRead headers mapping g row = g := by
  rw [groupRead_eq_contribution headers hreq]
  have hn : contribution headers row = none := by
    rcases hskip with h | h
    · unfold contribution
      rw [if_neg (fun hc => by omega)]
    · exact contribution_none_of_amount headers row h
  rw [hn]

theorem returnsOf_remove (pre post : List (List String)) (row : List String)
    (hpre : 2 ≤ pre.length)
    (hreq : ∀ col ∈ returnsRequired, col ∈ headerRow (pre ++ post))
    (hskip : row.length < (headerRow (pre ++ post)).length ∨
      rowAmount (headerRow (pre ++ post)) row = none) :
    returnsOf (pre ++ row :: post) = returnsOf (pre ++ post) := by
  unfold returnsOf
  rw [headerRow_remove pre post row hpre, dataRows_append pre _ hpre,
    dataRows_append pre _ hpre, List.foldl_append, List.foldl_cons,
    returnsRead_skip _ hreq _ row hskip, List.foldl_append]

theorem groupsOf_remove (pre post : List (List String)) (row : List String)
    (settings : List GroupingSetting) (hpre : 2 ≤ pre.length)
    (hreq : ∀ col ∈ groupRequired, col ∈ headerRow (pre ++ post))
    (hskip : row.length < (headerRow (pre ++ post)).length ∨
      rowAmount (headerRow (pre ++ post)) row = none) :
    groupsOf (pre ++ row :: post) settings = groupsOf (pre ++ post) settings := by
  unfold groupsOf
  rw [headerRow_remove pre post row hpre, dataRows_append pre _ hpre,
    dataRows_append pre _ hpre, List.foldl_append, List.foldl_cons,
    groupRead_skip _ hreq _ _ row hskip, List.foldl_append]

theorem sum_ne_zero_exists (l : List ℚ) (h : l.sum ≠ 0) : ∃ x ∈ l, x ≠ 0 := by
  induction l with
  | nil => simp at h
  | cons a l ih =>
    by_cases ha : a = 0
    · rw [List.sum_cons, ha, zero_add] at h
      obtain ⟨x, hx, hx0⟩ := ih h
      exact ⟨x, List.mem_cons_of_mem _ hx, hx0⟩
    · exact ⟨a, List.mem_cons_self _ _, ha⟩

/-- A dynamic column that holds a non-zero value has a processed row: a data row with a
cell for every header column, not a return, whose amount parses and whose accrual type is
not the cancellation and resolves to the column. -/
theorem hasData_row (rows : List (List String)) (settings : List GroupingSetting)
    (hreq : ∀ col ∈ groupRequired, col ∈ headerRow rows) (t : String)
    (h : hasData (groupsOf rows settings) t = true) :
    ∃ row ∈ fullRows rows, ∃ k, isCategoryRow (headerRow rows) settings k t row = true := by
  unfold hasData at h
  rw [List.any_eq_true] at h
  obtain ⟨p, hp, hv⟩ := h
  have hv0 : columnValue p.2 t ≠ 0 := by simpa using hv
  have hw := wellKeyed_groupsOf rows settings hreq
  have hget : mapGet (groupsOf rows settings) p.1 = some p.2 :=
    mapGet_of_mem _ hw.1 p.1 p.2 hp
  have hval : valueAt (groupsOf rows settings) p.1 t ≠ 0 := by
    unfold valueAt
    rw [hget]
    exact hv0
  rw [valueAt_groupsOf rows settings hreq] at hval
  unfold sumAmounts at hval
  obtain ⟨x, hx, _⟩ := sum_ne_zero_exists _ hval
  obtain ⟨row, hrow, _⟩ := List.mem_map.1 hx
  rw [List.mem_filter] at hrow
  exact ⟨row, hrow.1, p.1, hrow.2⟩

theorem isCategoryRow_dynamic (rows : List (List String)) (settings : List GroupingSetting)
    (hreq : ∀ col ∈ groupRequired, col ∈ headerRow rows) (t k : String) (row : List String)
    (hrow : row ∈ fullRows rows)
    (h : isCategoryRow (headerRow rows) settings k t row = true) :
    t ∈ dynamicColumns rows settings := by
  rw [mem_dynamicColumns rows settings hreq]
  unfold isCategoryRow at h
  simp only [Bool.and_eq_true] at h
  obtain ⟨⟨⟨hnr, _⟩, _⟩, ht⟩ := h
  refine ⟨row, hrow, hnr, ?_⟩
  cases hc : cellAt (colIndexes (headerRow rows)) row "Тип начисления" with
  | none => rw [hc] at ht; exact Bool.noConfusion ht
  | some tipNach =>
    rw [hc] at ht
    simp only [Bool.and_eq_true, decide_eq_true_eq] at ht
    exact ⟨tipNach, rfl, ht.2⟩

theorem mem_keptColumns (rows : List (List String)) (settings : List GroupingSetting)
    (hreq : ∀ col ∈ groupRequired, col ∈ headerRow rows) (t : String) :
    t ∈ keptColumns rows settings ↔ hasData (groupsOf rows settings) t = true := by
  unfold keptColumns
  rw [List.mem_filter]
  constructor
  · exact fun h => h.2
  · intro h
    obtain ⟨row, hrow, k, hk⟩ := hasData_row rows settings hreq t h
    exact ⟨isCategoryRow_dynamic rows settings hreq t k row hrow hk, h⟩

theorem sorted_keptColumns (rows : List (List String)) (settings : List GroupingSetting) :
    (keptColumns rows settings).Sorted (fun a b => a < b) :=
  (sorted_dynamicColumns rows settings).filter _

theorem eq_of_sorted_of_mem (l1 l2 : List String) (h1 : l1.Sorted (fun a b => a < b))
    (h2 : l2.Sorted (fun a b => a < b)) (h : ∀ t, t ∈ l1 ↔ t ∈ l2) : l1 = l2 := by
  have n1 : l1.Nodup := h1.imp (fun hab => ne_of_lt hab)
  have n2 : l2.Nodup := h2.imp (fun hab => ne_of_lt hab)
  have hp : l1.Perm l2 := (List.perm_ext_iff_of_nodup n1 n2).2 h
  exact List.eq_of_perm_of_sorted hp (h1.imp (fun hab => le_of_lt hab))
    (h2.imp (fun hab => le_of_lt hab))

theorem keptColumns_remove (pre post : List (List String)) (row : List String)
    (settings : List GroupingSetting) (hpre : 2 ≤ pre.length)
    (hreq : ∀ col ∈ groupRequired, col ∈ headerRow (pre ++ post))
    (hskip : row.length < (headerRow (pre ++ post)).length ∨
      rowAmount (headerRow (pre ++ post)) row = none) :
    keptColumns (pre ++ row :: post) settings = keptColumns (pre ++ post) settings := by
  have hreq2 : ∀ col ∈ groupRequired, col ∈ headerRow (pre ++ row :: post) := by
    rw [headerRow_remove pre post row hpre]; exact hreq
  apply eq_of_sorted_of_mem _ _ (sorted_keptColumns _ _) (sorted_keptColumns _ _)
  intro t
  rw [mem_keptColumns _ settings hreq2, mem_keptColumns _ settings hreq,
    groupsOf_remove pre post row settings hpre hreq hskip]

/-- C19, counterexample to the claim as stated.  The sheet `unparsedSheet` has the banner
row, the header row and one data row whose amount does not parse.  With the row both passes
write a table; without it the sheet has two rows and both passes stop at the guard
`len(rows) < 3` before any table is written. -/
theorem skipped_row_boundary_counterexample :
    unparsedSheet = [["Отчёт"], wideHeader] ++ ["A-1-7", "Продажи", "Плата", "n/a", "x"] :: [] ∧
      rowAmount (headerRow unparsedSheet) ["A-1-7", "Продажи", "Плата", "n/a", "x"] = none ∧
      processReturns unparsedSheet =
        Outcome.written (Table.mk ["ID начисления", "Группа услуг", "Сумма итого, руб",
          "Примечание"] []) ∧
      processReturns ([["Отчёт"], wideHeader] ++ []) = Outcome.notEnoughData ∧
      groupData unparsedSheet [] =
        Outcome.written (Table.mk ["Вид", "ID начисления", "Отмена"] []) ∧
      groupData ([["Отчёт"], wideHeader] ++ []) [] = Outcome.notEnoughData := by
  refine ⟨rfl, by decide!, by decide!, by decide!, by decide!, by decide!⟩

/-- C19, amended.  Skipped rows leave no trace: for every sheet and rule table, removing a
data row whose amount fails to parse, or a data row that has fewer cells than the header
row (even one that has a cell in every required column), from a sheet that keeps at least
three rows changes neither the final returns table nor the final grouping table (header
after pruning, keys, markers, cancellation and column values: the outcomes of both passes
are equal); in particular every dynamic column of the final grouping header has, among the
remaining rows, a row with a cell for every header column, category not "Возвраты", an
amount that parses and an accrual type, not the cancellation, that resolves to the column,
so that an accrual type that occurs only on unparseable rows gives no column. -/
theorem skipped_row_no_trace (pre post : List (List String)) (row : List String)
    (settings : List GroupingSetting) (hpre : 2 ≤ pre.length)
    (h3 : 3 ≤ (pre ++ post).length)
    (hskip : row.length < (headerRow (pre ++ row :: post)).length ∨
      rowAmount (headerRow (pre ++ row :: post)) row = none) :
    processReturns (pre ++ post) = processReturns (pre ++ row :: post) ∧
      groupData (pre ++ post) settings = groupData (pre ++ row :: post) settings ∧
      ∀ T, groupData (pre ++ row :: post) settings = Outcome.written T →
        ∀ t ∈ T.header.drop 3, ∃ row2 ∈ fullRows (pre ++ post), ∃ k,
          isCategoryRow (headerRow (pre ++ post)) settings k t row2 = true := by
  have hh := headerRow_remove pre post row hpre
  rw [hh] at hskip
  have h3r : 3 ≤ (pre ++ row :: post).length := by
    simp only [List.length_append, List.length_cons] at h3 ⊢; omega
  have hdata : groupData (pre ++ post) settings = groupData (pre ++ row :: post) settings := by
    rcases groupData_cases (pre ++ post) settings with ⟨hlt, _⟩ | ⟨_, col, _, hcol, hf, e⟩ |
      ⟨_, hreq, e⟩
    · omega
    · rcases groupData_cases (pre ++ row :: post) settings with ⟨hlt, _⟩ |
        ⟨_, col2, _, _, hf2, e2⟩ | ⟨_, hreq2, _⟩
      · omega
      · rw [hh, hf] at hf2
        rw [e, e2, Option.some.inj hf2]
      · rw [hh] at hreq2
        exact absurd (hreq2 col (by assumption)) hcol
    · have hreq2 : ∀ col ∈ groupRequired, col ∈ headerRow (pre ++ row :: post) := by
        rw [hh]; exact hreq
      rw [e, groupData_eq _ settings h3r hreq2,
        keptColumns_remove pre post row settings hpre hreq hskip,
        groupsOf_remove pre post row settings hpre hreq hskip]
  refine ⟨?_, hdata, ?_⟩
  · rcases processReturns_cases (pre ++ post) with ⟨hlt, _⟩ | ⟨_, col, _, hcol, hf, e⟩ |
      ⟨_, hreq, e⟩
    · omega
    · rcases processReturns_cases (pre ++ row :: post) with ⟨hlt, _⟩ |
        ⟨_, col2, _, _, hf2, e2⟩ | ⟨_, hreq2, _⟩
      · omega
      · rw [hh, hf] at hf2
        rw [e, e2, Option.some.inj hf2]
      · rw [hh] at hreq2
        exact absurd (hreq2 col (by assumption)) hcol
    · have hreq2 : ∀ col ∈ returnsRequired, col ∈ headerRow (pre ++ row :: post) := by
        rw [hh]; exact hreq
      rw [e, processReturns_eq _ h3r hreq2, hh,
        returnsOf_remove pre post row hpre hreq hskip]
  · intro T hT t ht
    rw [← hdata] at hT
    rcases groupData_cases (pre ++ post) settings with ⟨hlt, _⟩ | ⟨_, col, _, _, _, e⟩ |
      ⟨_, hreq, e⟩
    · omega
    · rw [e] at hT; exact Outcome.noConfusion hT
    · rw [e] at hT
      have hTe := Outcome.written.inj hT
      rw [← hTe] at ht
      simp only [List.drop_append_of_le_length, List.length_cons, List.length_nil] at ht
      have hk : t ∈ keptColumns (pre ++ post) settings := by simpa using ht
      exact hasData_row _ settings hreq t ((mem_keptColumns _ settings hreq t).1 hk)

theorem skipped_row_no_trace_witness :
    processReturns ([["Отчёт"], wideHeader] ++ [["A-1-9", "Возвраты", "Плата", "100", "second"],
        ["A-1-8", "Продажи", "Плата", "50", "third"]]) =
      processReturns ([["Отчёт"], wideHeader] ++ ["A-1-7", "Продажи", "Бонус", "n/a", "first"] ::
        [["A-1-9", "Возвраты", "Плата", "100", "second"],
         ["A-1-8", "Продажи", "Плата", "50", "third"]]) ∧
    groupData ([["Отчёт"], wideHeader] ++ [["A-1-9", "Возвраты", "Плата", "100", "second"],
        ["A-1-8", "Продажи", "Плата", "50", "third"]]) [] =
      groupData ([["Отчёт"], wideHeader] ++ ["A-1-7", "Продажи", "Бонус", "n/a", "first"] ::
        [["A-1-9", "Возвраты", "Плата", "100", "second"],
         ["A-1-8", "Продажи", "Плата", "50", "third"]]) [] :=
  ⟨(skipped_row_no_trace [["Отчёт"], wideHeader]
      [["A-1-9", "Возвраты", "Плата", "100", "second"],
       ["A-1-8", "Продажи", "Плата", "50", "third"]]
      ["A-1-7", "Продажи", "Бонус", "n/a", "first"] [] (by decide) (by decide)
      (Or.inr (by decide!))).1,
   (skipped_row_no_trace [["Отчёт"], wideHeader]
      [["A-1-9", "Возвраты", "Плата", "100", "second"],
       ["A-1-8", "Продажи", "Плата", "50", "third"]]
      ["A-1-7", "Продажи", "Бонус", "n/a", "first"] [] (by decide) (by decide)
      (Or.inr (by decide!))).2.1⟩

/-! ## Conservation of totals (C20) -/

theorem sum_mapSet {κ α : Type} [DecidableEq κ] (f : α → ℚ) (m : List (κ × α)) (k : κ)
    (v : α) :
    ((mapSet m k v).map (fun p => f p.2)).sum =
      (m.map (fun p => f p.2)).sum - ((mapGet m k).map f).getD 0 + f v := by
  induction m with
  | nil => simp [mapSet, mapGet]
  | cons p m ih =>
    obtain ⟨k2, v2⟩ := p
    by_cases hk : k2 = k
    · simp only [mapSet, mapGet, hk, ↓reduceIte, List.map_cons, List.sum_cons, Option.map_some',
        Option.getD_some]
      ring
    · simp only [mapSet, mapGet, hk, ↓reduceIte, List.map_cons, List.sum_cons, ih]
      ring

theorem mem_mapSet {κ α : Type} [DecidableEq κ] (m : List (κ × α)) (k : κ) (v : α)
    (p : κ × α) (h : p ∈ mapSet m k v) : p = (k, v) ∨ p ∈ m := by
  induction m with
  | nil => simpa [mapSet] using h
  | cons q m ih =>
    obtain ⟨k2, v2⟩ := q
    by_cases hk : k2 = k
    · simp only [mapSet, hk, ↓reduceIte, List.mem_cons] at h
      rcases h with h | h
      · exact Or.inl h
      · exact Or.inr (List.mem_cons_of_mem _ h)
    · simp only [mapSet, hk, ↓reduceIte, List.mem_cons] at h
      rcases h with h | h
      · exact Or.inr (by rw [h]; exact List.mem_cons_self _ _)
      · rcases ih h with h2 | h2
        · exact Or.inl h2
        · exact Or.inr (List.mem_cons_of_mem _ h2)

theorem mapGet_eq_none_of_not_mem {κ α : Type} [DecidableEq κ] (m : List (κ × α)) (k : κ)
    (h : k ∉ m.map Prod.fst) : mapGet m k = none := by
  rw [mem_keys_iff] at h
  cases hg : mapGet m k with
  | none => rfl
  | some v => rw [hg] at h; simp at h

theorem sum_indicator (L : List String) (hL : L.Nodup) (k : String) (v : ℚ) :
    (L.map (fun t => if k = t then v else 0)).sum = if k ∈ L then v else 0 := by
  induction L with
  | nil => simp
  | cons a L ih =>
    rw [List.nodup_cons] at hL
    rw [List.map_cons, List.sum_cons, ih hL.2]
    by_cases hka : k = a
    · subst hka
      simp [hL.1]
    · have : ¬ a = k := fun h => hka h.symm
      simp [hka, this]

theorem sum_columns (cols : List (String × ℚ)) (L : List String) (hL : L.Nodup)
    (hc : (cols.map Prod.fst).Nodup) (hmem : ∀ t v, (t, v) ∈ cols → v ≠ 0 → t ∈ L) :
    (L.map (fun t => (mapGet cols t).getD 0)).sum = (cols.map Prod.snd).sum := by
  induction cols with
  | nil => simp [mapGet]
  | cons p cols ih =>
    obtain ⟨k, v⟩ := p
    rw [List.map_cons, List.nodup_cons] at hc
    have hnone : mapGet cols k = none := mapGet_eq_none_of_not_mem cols k hc.1
    have hterm : ∀ t, (mapGet ((k, v) :: cols) t).getD 0 =
        (if k = t then v else 0) + (mapGet cols t).getD 0 := by
      intro t
      by_cases hkt : k = t
      · subst hkt
        simp [mapGet, hnone]
      · simp [mapGet, hkt]
    have hfun : (fun t => (mapGet ((k, v) :: cols) t).getD 0) =
        (fun t => (if k = t then v else 0) + (mapGet cols t).getD 0) := funext hterm
    rw [hfun, List.sum_map_add, sum_indicator L hL k v,
      ih hc.2 (fun t w htw hw => hmem t w (List.mem_cons_of_mem _ htw) hw),
      List.map_cons, List.sum_cons]
    congr 1
    by_cases hk : k ∈ L
    · rw [if_pos hk]
    · rw [if_neg hk]
      by_contra hv
      exact hk (hmem k v (List.mem_cons_self _ _) (fun h0 => hv h0.symm))

theorem columnsNodup_accumulate (mapping : List (String × GroupingSetting))
    (groups : List (String × GroupData)) (id tipNach : String) (sum : ℚ)
    (h : ColumnsNodup groups) : ColumnsNodup (accumulate mapping groups id tipNach sum) := by
  have hdata : ((match mapGet groups id with
      | some data => data
      | none => GroupData.mk "" id 0 []).Columns.map Prod.fst).Nodup := by
    cases hg : mapGet groups id with
    | none => simp
    | some data => exact h (id, data) (mem_of_mapGet groups id data hg)
  intro p hp
  unfold accumulate at hp
  simp only [] at hp
  split at hp
  · rcases mem_mapSet _ _ _ p hp with e | e
    · rw [e]; exact hdata
    · exact h p e
  · rcases mem_mapSet _ _ _ p hp with e | e
    · rw [e]; exact nodup_keys_mapSet _ _ _ hdata
    · exact h p e

theorem sum_mapSet_snd (m : List (String × ℚ)) (k : String) (v : ℚ) :
    ((mapSet m k v).map Prod.snd).sum = (m.map Prod.snd).sum - (mapGet m k).getD 0 + v := by
  have h := sum_mapSet (fun v : ℚ => v) m k v
  have e : ((mapGet m k).map (fun v : ℚ => v)).getD 0 = (mapGet m k).getD 0 := by
    cases mapGet m k <;> rfl
  rw [e] at h
  exact h

theorem recordsTotal_set (groups : List (String × GroupData)) (id : String)
    (data new : GroupData) (sum : ℚ)
    (hdata : ((mapGet groups id).map recordTotal).getD 0 = recordTotal data)
    (hnew : recordTotal new = recordTotal data + sum) :
    ((mapSet groups id new).map (fun p => recordTotal p.2)).sum =
      (groups.map (fun p => recordTotal p.2)).sum + sum := by
  rw [sum_mapSet recordTotal, hdata, hnew]
  ring

theorem recordsTotal_accumulate (mapping : List (String × GroupingSetting))
    (groups : List (String × GroupData)) (id tipNach : String) (sum : ℚ) :
    ((accumulate mapping groups id tipNach sum).map (fun p => recordTotal p.2)).sum =
      (groups.map (fun p => recordTotal p.2)).sum + sum := by
  unfold accumulate
  cases hg : mapGet groups id with
  | none =>
    have hold : ((mapGet groups id).map recordTotal).getD 0 =
        recordTotal (GroupData.mk "" id 0 []) := by
      rw [hg]; simp [recordTotal]
    simp only []
    split
    · apply recordsTotal_set groups id _ _ sum hold
      simp only [recordTotal]
      ring
    · apply recordsTotal_set groups id _ _ sum hold
      simp only [recordTotal]
      rw [sum_mapSet_snd]
      ring
  | some data =>
    have hold : ((mapGet groups id).map recordTotal).getD 0 = recordTotal data := by
      rw [hg]; simp
    simp only []
    split
    · apply recordsTotal_set groups id _ _ sum hold
      simp only [recordTotal]
      ring
    · apply recordsTotal_set groups id _ _ sum hold
      simp only [recordTotal]
      rw [sum_mapSet_snd]
      ring

theorem contribution_amount (headers : List String)
    (hreq : ∀ col ∈ groupRequired, col ∈ headers) (row : List String) :
    ((contribution headers row).map (fun c => c.2.2)).getD 0 =
      if (decide (headers.length ≤ row.length) && isProcessedNonReturn headers row) = true
        then (rowAmount headers row).getD 0 else 0 := by
  cases hc : contribution headers row with
  | some c =>
    obtain ⟨hle, hnr, _, _, ha⟩ := contribution_eq_some headers row c hc
    simp [isProcessedNonReturn, hle, hnr, ha]
  | none =>
    rcases contribution_eq_none headers row hreq hc with h | h | h
    · simp [h]
    · simp [isProcessedNonReturn, h]
    · simp [isProcessedNonReturn, h]

theorem recordsTotal_groupRead (headers : List String)
    (hreq : ∀ col ∈ groupRequired, col ∈ headers) (mapping : List (String × GroupingSetting))
    (groups : List (String × GroupData)) (row : List String) :
    ((groupRead headers mapping groups row).map (fun p => recordTotal p.2)).sum =
      (groups.map (fun p => recordTotal p.2)).sum +
        (if (decide (headers.length ≤ row.length) && isProcessedNonReturn headers row) = true
          then (rowAmount headers row).getD 0 else 0) := by
  rw [groupRead_eq_contribution headers hreq, ← contribution_amount headers hreq row]
  cases contribution headers row with
  | none => simp
  | some c => simp [recordsTotal_accumulate]

theorem columnsNodup_groupRead (headers : List String)
    (hreq : ∀ col ∈ groupRequired, col ∈ headers) (mapping : List (String × GroupingSetting))
    (groups : List (String × GroupData)) (row : List String) (h : ColumnsNodup groups) :
    ColumnsNodup (groupRead headers mapping groups row) := by
  rw [groupRead_eq_contribution headers hreq]
  cases contribution headers row with
  | none => exact h
  | some c => exact columnsNodup_accumulate mapping groups _ _ _ h

theorem columnsNodup_foldl (headers : List String)
    (hreq : ∀ col ∈ groupRequired, col ∈ headers) (mapping : List (String × GroupingSetting))
    (l : List (List String)) (groups : List (String × GroupData)) (h : ColumnsNodup groups) :
    ColumnsNodup (l.foldl (groupRead headers mapping) groups) := by
  induction l generalizing groups with
  | nil => exact h
  | cons row l ih =>
    exact ih _ (columnsNodup_groupRead headers hreq mapping groups row h)

theorem recordsTotal_groupsOf (rows : List (List String)) (settings : List GroupingSetting)
    (hreq : ∀ col ∈ groupRequired, col ∈ headerRow rows) :
    ((groupsOf rows settings).map (fun p => recordTotal p.2)).sum =
      sumAmounts (headerRow rows) (isProcessedNonReturn (headerRow rows)) (fullRows rows) := by
  unfold groupsOf
  rw [foldl_additive (groupRead (headerRow rows) (columnMapping settings))
    (fun g => (g.map (fun p => recordTotal p.2)).sum) _
    (recordsTotal_groupRead (headerRow rows) hreq (columnMapping settings))]
  simp only [List.map_nil, List.sum_nil, zero_add]
  unfold sumAmounts
  rw [sum_map_ite_eq_sum_filter, filter_fullRows]

theorem groupRow_total (groups : List (String × GroupData)) (kept : List String)
    (hk : kept.Nodup) (hc : ColumnsNodup groups)
    (hmem : ∀ t, hasData groups t = true → t ∈ kept) (p : String × GroupData)
    (hp : p ∈ groups) :
    (((groupRow kept p.2).drop 2).map cellValue).sum = recordTotal p.2 := by
  have hcols := sum_columns p.2.Columns kept hk (hc p hp) (by
    intro t v htv hv
    apply hmem t
    unfold hasData
    rw [List.any_eq_true]
    refine ⟨p, hp, ?_⟩
    have : columnValue p.2 t = v := by
      unfold columnValue
      rw [mapGet_of_mem p.2.Columns (hc p hp) t v htv]
      rfl
    simpa [this] using hv)
  unfold groupRow recordTotal
  simp only [List.cons_append, List.nil_append, List.drop_succ_cons, List.drop_zero,
    List.map_cons, List.sum_cons, cellValue, List.map_map]
  congr 1

theorem groupingTotal_eq (rows : List (List String)) (settings : List GroupingSetting)
    (hreq : ∀ col ∈ groupRequired, col ∈ headerRow rows) :
    groupingTotal (Table.mk (["Вид", "ID начисления", "Отмена"] ++ keptColumns rows settings)
        ((groupsOf rows settings).map (fun p => groupRow (keptColumns rows settings) p.2))) =
      sumAmounts (headerRow rows) (isProcessedNonReturn (headerRow rows)) (fullRows rows) := by
  rw [← recordsTotal_groupsOf rows settings hreq]
  unfold groupingTotal
  simp only [List.map_map]
  congr 1
  apply List.map_congr_left
  intro p hp
  have hk : (keptColumns rows settings).Nodup :=
    (sorted_keptColumns rows settings).imp (fun hab => ne_of_lt hab)
  have hc : ColumnsNodup (groupsOf rows settings) :=
    columnsNodup_foldl (headerRow rows) hreq (columnMapping settings) _ []
      (fun p hp => by simp at hp)
  exact groupRow_total (groupsOf rows settings) _ hk hc
    (fun t ht => (mem_keptColumns rows settings hreq t).2 ht) p hp
theorem recordsSum_returnsRead (headers : List String)
    (hreq : ∀ col ∈ returnsRequired, col ∈ headers)
    (m : List (String × ReturnData)) (row : List String) :
    ((returnsRead headers m row).map (fun p => p.2.Sum)).sum =
      (m.map (fun p => p.2.Sum)).sum +
        (if (decide (headers.length ≤ row.length) && isProcessedReturn headers row) = true
          then (rowAmount headers row).getD 0 else 0) := by
  rcases returnsRead_cases headers hreq m row with ⟨e, hk⟩ | ⟨id, sum, hle, ha, hk, e⟩
  · rw [e]
    have hfalse : (decide (headers.length ≤ row.length) && isProcessedReturn headers row) =
        false := by
      by_cases hle : headers.length ≤ row.length
      · have hid := cellAt_eq_some_field headers row "ID начисления"
          (hreq _ (by simp [returnsRequired])) hle
        have h := hk (normalizeID (field headers row "ID начисления"))
        unfold isReturnRow rowKey at h
        rw [hid] at h
        unfold isProcessedReturn
        simpa [hle] using h
      · simp [hle]
    rw [hfalse]
    simp
  · have htrue : (decide (headers.length ≤ row.length) && isProcessedReturn headers row) =
        true := by
      have h := hk id
      simp only [decide_True] at h
      unfold isReturnRow at h
      unfold isProcessedReturn
      simp only [Bool.and_eq_true, decide_eq_true_eq] at h ⊢
      exact ⟨hle, h.1.1, h.2⟩
    rw [htrue, if_pos rfl, ha, e]
    cases hg : mapGet m id with
    | none =>
      simp only []
      rw [sum_mapSet (fun r : ReturnData => r.Sum), hg]
      simp
    | some existing =>
      simp only []
      rw [sum_mapSet (fun r : ReturnData => r.Sum), hg]
      simp only [Option.map_some', Option.getD_some]
      ring

theorem recordsSum_returnsOf (rows : List (List String))
    (hreq : ∀ col ∈ returnsRequired, col ∈ headerRow rows) :
    ((returnsOf rows).map (fun p => p.2.Sum)).sum =
      sumAmounts (headerRow rows) (isProcessedReturn (headerRow rows)) (fullRows rows) := by
  unfold returnsOf
  rw [foldl_additive (returnsRead (headerRow rows))
    (fun m => (m.map (fun p => p.2.Sum)).sum) _
    (recordsSum_returnsRead (headerRow rows) hreq)]
  simp only [List.map_nil, List.sum_nil, zero_add]
  unfold sumAmounts
  rw [sum_map_ite_eq_sum_filter, filter_fullRows]

theorem amountCells_map (header : List String) (f : String → Cell) :
    amountCells header (header.map f) =
      (header.filter (fun h => decide (h = "Сумма итого, руб"))).map f := by
  unfold amountCells
  induction header with
  | nil => rfl
  | cons a l ih =>
    simp only [List.map_cons, List.zip_cons_cons]
    by_cases ha : a = "Сумма итого, руб"
    · rw [List.filter_cons_of_pos (by simpa using ha),
        List.filter_cons_of_pos (by simpa using ha), List.map_cons, List.map_cons, ih]
    · rw [List.filter_cons_of_neg (by simpa using ha),
        List.filter_cons_of_neg (by simpa using ha), ih]

theorem sum_filter_eq (l : List String) (a : String) (g : String → ℚ) :
    ((l.filter (fun h => decide (h = a))).map g).sum = (l.count a : ℚ) * g a := by
  induction l with
  | nil => simp
  | cons b l ih =>
    by_cases hb : b = a
    · subst hb
      rw [List.filter_cons_of_pos (by simp), List.map_cons, List.sum_cons, ih,
        List.count_cons_self]
      push_cast
      ring
    · rw [List.filter_cons_of_neg (by simpa using hb), ih,
        List.count_cons_of_ne (fun h => hb h.symm)]

theorem returnsTotal_eq (rows : List (List String))
    (hreq : ∀ col ∈ returnsRequired, col ∈ headerRow rows) :
    returnsTotal (Table.mk (outputHeaders (headerRow rows))
        ((returnsOf rows).map (fun p =>
          (outputHeaders (headerRow rows)).map (returnsCellRead (headerRow rows) p.2)))) =
      ((headerRow rows).count "Сумма итого, руб" : ℚ) *
        sumAmounts (headerRow rows) (isProcessedReturn (headerRow rows)) (fullRows rows) := by
  rw [← recordsSum_returnsOf rows hreq]
  unfold returnsTotal
  simp only [List.map_map]
  have hcount : (outputHeaders (headerRow rows)).count "Сумма итого, руб" =
      (headerRow rows).count "Сумма итого, руб" := by
    unfold outputHeaders
    exact List.count_filter (by decide)
  have hrow : ∀ p : String × ReturnData,
      ((fun r => ((amountCells (outputHeaders (headerRow rows)) r).map cellValue).sum) ∘
        (fun p : String × ReturnData =>
          (outputHeaders (headerRow rows)).map (returnsCellRead (headerRow rows) p.2))) p =
        ((headerRow rows).count "Сумма итого, руб" : ℚ) * p.2.Sum := by
    intro p
    simp only [Function.comp]
    rw [amountCells_map, List.map_map, sum_filter_eq, hcount]
    congr 1
  rw [List.map_congr_left (fun p _ => hrow p), List.sum_map_mul_left]

theorem processed_row_cases (headers : List String)
    (hreq : ∀ col ∈ groupRequired, col ∈ headers) (settings : List GroupingSetting)
    (row : List String) (hle : headers.length ≤ row.length)
    (ha : (rowAmount headers row).isSome = true) :
    ∃ k, rowKey headers row = some k ∧
      (∀ k2, (isReturnRow headers k2 row = true ∨ isCancellationRow headers k2 row = true ∨
          ∃ t, isCategoryRow headers settings k2 t row = true) → k2 = k) ∧
      ((isProcessedReturn headers row = true ∧ isProcessedNonReturn headers row = false ∧
          isReturnRow headers k row = true ∧ isCancellationRow headers k row = false ∧
          ∀ t, isCategoryRow headers settings k t row = false) ∨
        (isProcessedNonReturn headers row = true ∧ isProcessedReturn headers row = false ∧
          isReturnRow headers k row = false ∧ isCancellationRow headers k row = true ∧
          ∀ t, isCategoryRow headers settings k t row = false) ∨
        (isProcessedNonReturn headers row = true ∧ isProcessedReturn headers row = false ∧
          isReturnRow headers k row = false ∧ isCancellationRow headers k row = false ∧
          ∃ tipNach, cellAt (colIndexes headers) row "Тип начисления" = some tipNach ∧
            ∀ t, isCategoryRow headers settings k t row = true ↔
              t = targetOf settings tipNach)) := by
  have hid := cellAt_eq_some_field headers row "ID начисления"
    (hreq _ (by simp [groupRequired])) hle
  have hgr := cellAt_eq_some_field headers row "Группа услуг"
    (hreq _ (by simp [groupRequired])) hle
  have htp := cellAt_eq_some_field headers row "Тип начисления"
    (hreq _ (by simp [groupRequired])) hle
  refine ⟨normalizeID (field headers row "ID начисления"), by unfold rowKey; rw [hid]; rfl,
    ?_, ?_⟩
  · intro k2 h
    have hkey : rowKey headers row = some k2 := by
      rcases h with h | h | ⟨t, h⟩
      · unfold isReturnRow at h
        simp only [Bool.and_eq_true, decide_eq_true_eq] at h
        exact h.1.2
      · unfold isCancellationRow at h
        simp only [Bool.and_eq_true, decide_eq_true_eq] at h
        exact h.1.1.2
      · unfold isCategoryRow at h
        simp only [Bool.and_eq_true, decide_eq_true_eq] at h
        exact h.1.1.2
    unfold rowKey at hkey
    rw [hid] at hkey
    exact (Option.some.inj hkey).symm
  · unfold isProcessedReturn isProcessedNonReturn isReturnRow isCancellationRow isCategoryRow
      isNonReturn rowKey
    rw [hid, hgr, htp, ha]
    by_cases hg : field headers row "Группа услуг" = "Возвраты"
    · left
      simp [hg]
    · by_cases ht : field headers row "Тип начисления" = cancellation
      · right; left
        simp [hg, ht]
      · right; right
        refine ⟨by simp [hg], by simp [hg], by simp [hg], by simp [hg, ht],
          field headers row "Тип начисления", rfl, ?_⟩
        intro t
        simp only [hg, ht, ne_eq, not_false_eq_true, decide_True, Bool.true_and,
          Option.isSome_some, Bool.and_true, decide_eq_true_eq, Option.map_some',
          Bool.and_eq_true, true_and]
        exact eq_comm
/-- C20, counterexample to the claim as stated.  The header of `duplicateAmountSheet`
passes the header checks of both passes and has the name "Сумма итого, руб" twice.  The
one return row is processed with the parsed amount 1.00; the returns table has two amount
columns and the accumulated sum is written into both, so that the amount cells of the
table add up to 2.00 and the row is counted in two cells. -/
theorem totals_duplicateAmount_counterexample :
    (∀ col ∈ groupRequired, col ∈ headerRow duplicateAmountSheet) ∧
      processReturns duplicateAmountSheet =
        Outcome.written
          (Table.mk ["ID начисления", "Группа услуг", "Сумма итого, руб", "Сумма итого, руб"]
            [[Cell.text "A-1", Cell.text "Возвраты", Cell.number 1, Cell.number 1]]) ∧
      returnsTotal
          (Table.mk ["ID начисления", "Группа услуг", "Сумма итого, руб", "Сумма итого, руб"]
            [[Cell.text "A-1", Cell.text "Возвраты", Cell.number 1, Cell.number 1]]) = 2 ∧
      sumAmounts (headerRow duplicateAmountSheet)
        (isProcessedReturn (headerRow duplicateAmountSheet))
        (fullRows duplicateAmountSheet) = 1 := by
  refine ⟨by decide, by decide!, by decide!, by decide!⟩

/-- C20, amended.  Conservation of totals (with exact arithmetic on cents): for every sheet
that passes the header checks and every rule table, both passes write their table; the sum
of all cancellation cells and all dynamic-column cells of the final (pruned) grouping table
equals the sum of the parsed amounts of the processed non-return rows; the sum of the
amount cells of the returns table equals the sum of the parsed amounts of the processed
rows with category "Возвраты" multiplied by the number of header columns named
"Сумма итого, руб", hence equals that sum when the header names the amount column once.
Pruning removes only columns whose cells are all zero.  Every processed row (a cell for
every header column, amount parses) has one normalized key and is counted for exactly one
table and exactly one cell of that key: the amount cell of the returns row, the
cancellation cell, or the cell of the one target category its accrual type resolves to,
which is a column of the unpruned header. -/
theorem totals_conserved (rows : List (List String)) (settings : List GroupingSetting)
    (h3 : 3 ≤ rows.length) (hreq : ∀ col ∈ groupRequired, col ∈ headerRow rows) :
    ∃ sheet groups G R, groupSheet rows settings = Outcome.written (sheet, groups) ∧
      groupData rows settings = Outcome.written G ∧
      processReturns rows = Outcome.written R ∧
      groupingTotal G =
        sumAmounts (headerRow rows) (isProcessedNonReturn (headerRow rows)) (fullRows rows) ∧
      returnsTotal R =
        ((headerRow rows).count "Сумма итого, руб" : ℚ) *
          sumAmounts (headerRow rows) (isProcessedReturn (headerRow rows)) (fullRows rows) ∧
      ((headerRow rows).count "Сумма итого, руб" = 1 →
        returnsTotal R =
          sumAmounts (headerRow rows) (isProcessedReturn (headerRow rows)) (fullRows rows)) ∧
      (∀ t ∈ sheet.header.drop 3, t ∉ G.header.drop 3 →
        ∀ p ∈ groups, columnValue p.2 t = 0) ∧
      ∀ row ∈ fullRows rows, (rowAmount (headerRow rows) row).isSome = true →
        ∃ k, rowKey (headerRow rows) row = some k ∧
          (∀ k2, (isReturnRow (headerRow rows) k2 row = true ∨
              isCancellationRow (headerRow rows) k2 row = true ∨
              ∃ t, isCategoryRow (headerRow rows) settings k2 t row = true) → k2 = k) ∧
          ((isProcessedReturn (headerRow rows) row = true ∧
              isProcessedNonReturn (headerRow rows) row = false ∧
              isReturnRow (headerRow rows) k row = true ∧
              isCancellationRow (headerRow rows) k row = false ∧
              ∀ t, isCategoryRow (headerRow rows) settings k t row = false) ∨
            (isProcessedNonReturn (headerRow rows) row = true ∧
              isProcessedReturn (headerRow rows) row = false ∧
              isReturnRow (headerRow rows) k row = false ∧
              isCancellationRow (headerRow rows) k row = true ∧
              ∀ t, isCategoryRow (headerRow rows) settings k t row = false) ∨
            (isProcessedNonReturn (headerRow rows) row = true ∧
              isProcessedReturn (headerRow rows) row = false ∧
              isReturnRow (headerRow rows) k row = false ∧
              isCancellationRow (headerRow rows) k row = false ∧
              ∃ tipNach,
                cellAt (colIndexes (headerRow rows)) row "Тип начисления" = some tipNach ∧
                targetOf settings tipNach ∈ sheet.header.drop 3 ∧
                ∀ t, isCategoryRow (headerRow rows) settings k t row = true ↔
                  t = targetOf settings tipNach)) := by
  have hreqR : ∀ col ∈ returnsRequired, col ∈ headerRow rows := by
    intro col hcol
    apply hreq
    simp only [returnsRequired, List.mem_cons, List.mem_singleton, List.not_mem_nil,
      or_false] at hcol
    rcases hcol with h | h | h <;> simp [groupRequired, h]
  have hR := returnsTotal_eq rows hreqR
  refine ⟨_, _, _, _, groupSheet_eq rows settings h3 hreq, groupData_eq rows settings h3 hreq,
    processReturns_eq rows h3 hreqR, groupingTotal_eq rows settings hreq, hR, ?_, ?_, ?_⟩
  · intro hone
    rw [hR, hone]
    simp
  · intro t ht hnot p hp
    have ht2 : t ∈ dynamicColumns rows settings := by simpa using ht
    have hn : hasData (groupsOf rows settings) t ≠ true := by
      intro hd
      apply hnot
      have : t ∈ keptColumns rows settings := (mem_keptColumns rows settings hreq t).2 hd
      simpa using this
    by_contra hv
    apply hn
    unfold hasData
    rw [List.any_eq_true]
    exact ⟨p, hp, by simpa using hv⟩
  · intro row hrow ha
    have hle : (headerRow rows).length ≤ row.length := by
      unfold fullRows at hrow
      rw [List.mem_filter] at hrow
      simpa using hrow.2
    obtain ⟨k, hk, huniq, hcases⟩ :=
      processed_row_cases (headerRow rows) hreq settings row hle ha
    refine ⟨k, hk, huniq, ?_⟩
    rcases hcases with h | h | ⟨h1, h2, h3, h4, tipNach, htip, hiff⟩
    · exact Or.inl h
    · exact Or.inr (Or.inl h)
    · refine Or.inr (Or.inr ⟨h1, h2, h3, h4, tipNach, htip, ?_, hiff⟩)
      have hnr : isNonReturn (headerRow rows) row = true := by
        unfold isProcessedNonReturn at h1
        rw [Bool.and_eq_true] at h1
        exact h1.1
      have : targetOf settings tipNach ∈ dynamicColumns rows settings :=
        (mem_dynamicColumns rows settings hreq _).2 ⟨row, hrow, hnr, tipNach, htip, rfl⟩
      simpa using this

theorem totals_conserved_witness :
    ∃ G R, groupData totalsSheet [] = Outcome.written G ∧
      processReturns totalsSheet = Outcome.written R ∧
      groupingTotal G =
        sumAmounts (headerRow totalsSheet) (isProcessedNonReturn (headerRow totalsSheet))
          (fullRows totalsSheet) ∧
      returnsTotal R =
        sumAmounts (headerRow totalsSheet) (isProcessedReturn (headerRow totalsSheet))
          (fullRows totalsSheet) := by
  obtain ⟨_, _, G, R, _, hG, hR, hg, _, hr, _, _⟩ :=
    totals_conserved totalsSheet [] (by decide) (by decide)
  exact ⟨G, R, hG, hR, hg, hr (by decide)⟩

/-! ## The `float64` nearest to an integer -/

theorem bitLength_zero (fuel : Nat) : bitLength fuel 0 = 0 := by
  cases fuel <;> simp [bitLength]

theorem bitLength_spec (fuel n : Nat) (h : n ≤ fuel) (hn : n ≠ 0) :
    1 ≤ bitLength fuel n ∧ 2 ^ (bitLength fuel n - 1) ≤ n ∧ n < 2 ^ bitLength fuel n := by
  induction fuel generalizing n with
  | zero => omega
  | succ fuel ih =>
    unfold bitLength
    rw [if_neg hn]
    by_cases h2 : n / 2 = 0
    · rw [h2, bitLength_zero]
      have : n = 1 := by omega
      subst this
      simp
    · obtain ⟨hb, hlo, hhi⟩ := ih (n / 2) (by omega) h2
      refine ⟨by omega, ?_, ?_⟩
      · have e : bitLength fuel (n / 2) + 1 - 1 = (bitLength fuel (n / 2) - 1) + 1 := by omega
        rw [e, pow_succ]
        omega
      · rw [pow_succ]
        omega

theorem log2Nat_spec (n : Nat) (hn : n ≠ 0) :
    2 ^ log2Nat n ≤ n ∧ n < 2 ^ (log2Nat n + 1) := by
  obtain ⟨hb, hlo, hhi⟩ := bitLength_spec n n (le_refl n) hn
  unfold log2Nat
  have e : bitLength n n - 1 + 1 = bitLength n n := by omega
  rw [e]
  exact ⟨hlo, hhi⟩

theorem roundHalfEven_one (m : Nat) : roundHalfEven m 1 = m := by
  unfold roundHalfEven
  simp [Nat.mod_one]

theorem roundHalfEven_bounds (n d : Nat) :
    n / d ≤ roundHalfEven n d ∧ roundHalfEven n d ≤ n / d + 1 := by
  unfold roundHalfEven
  simp only []
  split
  · omega
  · split
    · omega
    · split <;> omega

theorem roundHalfEven_of_dvd (n d : Nat) (hd : 0 < d) (h : n % d = 0) :
    roundHalfEven n d = n / d := by
  unfold roundHalfEven
  simp only [h]
  rw [if_pos (by omega)]

theorem floorLog2_one (n : Nat) (hn : n ≠ 0) : floorLog2 n 1 = (log2Nat n : Int) := by
  have h := (log2Nat_spec n hn).1
  have h1 : log2Nat 1 = 0 := by decide
  unfold floorLog2
  simp only [h1, Nat.cast_zero, sub_zero, Nat.cast_nonneg, ↓reduceIte, Int.toNat_ofNat, one_mul]
  rw [if_neg (by omega)]

theorem ulpExponent_one (n : Nat) (hn : n ≠ 0) :
    ulpExponent n 1 = (log2Nat n : Int) - 52 := by
  unfold ulpExponent
  rw [floorLog2_one n hn]
  omega

theorem roundMagnitude_zero : roundMagnitude 0 1 = 0 := by decide!

/-- An integer with fewer than 53 binary digits is a `float64`. -/
theorem roundMagnitude_small (n : Nat) (hn : n ≠ 0) (hL : log2Nat n < 52) :
    roundMagnitude n 1 = (n : ℚ) := by
  unfold roundMagnitude
  rw [ulpExponent_one n hn]
  simp only []
  rw [if_neg (by omega), roundHalfEven_one]
  have hpos : ((2 ^ (-((log2Nat n : Int) - 52)).toNat : Nat) : ℚ) ≠ 0 := by positivity
  rw [Nat.cast_mul]
  field_simp

/-- An integer with 53 binary digits or more is rounded to a multiple of the unit in the
last place `2^(L-52)`. -/
theorem roundMagnitude_large (n : Nat) (hn : n ≠ 0) (hL : 52 ≤ log2Nat n) :
    roundMagnitude n 1 =
      ((roundHalfEven n (2 ^ (log2Nat n - 52)) * 2 ^ (log2Nat n - 52) : Nat) : ℚ) := by
  unfold roundMagnitude
  rw [ulpExponent_one n hn]
  simp only []
  have e : ((log2Nat n : Int) - 52).toNat = log2Nat n - 52 := by omega
  rw [if_pos (by omega), e, one_mul]
theorem roundHalfEven_top (n : Nat) (hlo : 2 ^ 1023 ≤ n) (hhi : n < 2 ^ 1024) :
    roundHalfEven n (2 ^ 971) * 2 ^ 971 < 2 ^ 1024 ↔ n < 2 ^ 1024 - 2 ^ 970 := by
  unfold roundHalfEven
  simp only []
  split
  · omega
  · split
    · omega
    · split <;> omega

theorem two_pow_le_two_pow (a b : Nat) (h : a ≤ b) : 2 ^ a ≤ 2 ^ b :=
  Nat.pow_le_pow_right (by decide) h

theorem two_pow_lt_two_pow (a b : Nat) (h : a < b) : 2 ^ a < 2 ^ b :=
  Nat.pow_lt_pow_right (by decide) h

theorem roundHalfEven_mul_bounds (n L : Nat) (hL : 52 ≤ L) (hlo : 2 ^ L ≤ n)
    (hhi : n < 2 ^ (L + 1)) :
    2 ^ L ≤ roundHalfEven n (2 ^ (L - 52)) * 2 ^ (L - 52) ∧
      roundHalfEven n (2 ^ (L - 52)) * 2 ^ (L - 52) ≤ 2 ^ (L + 1) := by
  have hD : 0 < 2 ^ (L - 52) := Nat.two_pow_pos _
  have e1 : 2 ^ L = 2 ^ 52 * 2 ^ (L - 52) := by
    rw [← pow_add]; congr 1; omega
  have e2 : 2 ^ (L + 1) = 2 ^ 53 * 2 ^ (L - 52) := by
    rw [← pow_add]; congr 1; omega
  have hq1 : 2 ^ 52 ≤ n / 2 ^ (L - 52) := by
    rw [Nat.le_div_iff_mul_le hD, ← e1]; exact hlo
  have hq2 : n / 2 ^ (L - 52) < 2 ^ 53 := by
    rw [Nat.div_lt_iff_lt_mul hD, ← e2]; exact hhi
  obtain ⟨hm1, hm2⟩ := roundHalfEven_bounds n (2 ^ (L - 52))
  constructor
  · rw [e1]
    exact Nat.mul_le_mul_right _ (le_trans hq1 hm1)
  · rw [e2]
    exact Nat.mul_le_mul_right _ (by omega)

theorem float64Overflow_pos : 0 < float64Overflow := by
  unfold float64Overflow
  omega

theorem pow_1023_le_float64Overflow : 2 ^ 1023 ≤ float64Overflow := by
  unfold float64Overflow
  omega

/-- The magnitude of an integer rounds to a finite `float64` exactly when the integer is
below `2^1024 - 2^970`. -/
theorem roundMagnitude_nat_lt (n : Nat) :
    roundMagnitude n 1 < (2 : ℚ) ^ 1024 ↔ n < float64Overflow := by
  have hcast : (2 : ℚ) ^ 1024 = ((2 ^ 1024 : Nat) : ℚ) := by
    rw [Nat.cast_pow, Nat.cast_ofNat]
  by_cases hn : n = 0
  · subst hn
    rw [roundMagnitude_zero]
    constructor
    · intro _; exact float64Overflow_pos
    · intro _; positivity
  · obtain ⟨hlo, hhi⟩ := log2Nat_spec n hn
    by_cases hL : log2Nat n < 52
    · rw [roundMagnitude_small n hn hL, hcast, Nat.cast_lt]
      have h52 : 2 ^ (log2Nat n + 1) ≤ 2 ^ 1023 :=
        two_pow_le_two_pow _ _ (by omega)
      have := pow_1023_le_float64Overflow
      constructor
      · intro _; omega
      · intro _
        have : 2 ^ 1023 < 2 ^ 1024 := two_pow_lt_two_pow _ _ (by omega)
        omega
    · have hL2 : 52 ≤ log2Nat n := by omega
      rw [roundMagnitude_large n hn hL2, hcast, Nat.cast_lt]
      obtain ⟨hb1, hb2⟩ := roundHalfEven_mul_bounds n (log2Nat n) hL2 hlo hhi
      rcases Nat.lt_trichotomy (log2Nat n) 1023 with h | h | h
      · have h1 : 2 ^ (log2Nat n + 1) ≤ 2 ^ 1023 :=
          two_pow_le_two_pow _ _ (by omega)
        have h2 : 2 ^ 1023 < 2 ^ 1024 := two_pow_lt_two_pow _ _ (by omega)
        have := pow_1023_le_float64Overflow
        constructor
        · intro _; omega
        · intro _; omega
      · rw [h] at hlo hhi ⊢
        have e : 1023 - 52 = 971 := rfl
        have e2 : 1023 + 1 = 1024 := rfl
        rw [e2] at hhi
        rw [e]
        unfold float64Overflow
        exact roundHalfEven_top n hlo hhi
      · have h1 : 2 ^ 1024 ≤ 2 ^ log2Nat n :=
          two_pow_le_two_pow _ _ (by omega)
        have h2 : float64Overflow < 2 ^ 1024 := by unfold float64Overflow; omega
        constructor
        · intro _; omega
        · intro _; omega

theorem roundFloat64_natCast (n : Nat) :
    roundFloat64 (n : ℚ) =
      if float64Overflow ≤ n then Float64.posInf else Float64.finite (roundMagnitude n 1) := by
  unfold roundFloat64
  simp only [Rat.num_natCast, Int.natAbs_ofNat, Rat.den_natCast]
  have hneg : ¬ ((n : ℚ) < 0) := by
    have : (0 : ℚ) ≤ (n : ℚ) := Nat.cast_nonneg n
    exact not_lt.2 this
  have h := roundMagnitude_nat_lt n
  by_cases ho : float64Overflow ≤ n
  · rw [if_pos ho, if_pos (not_lt.1 (fun hlt => absurd (h.1 hlt) (by omega))), if_neg hneg]
  · rw [if_neg ho, if_neg (not_le.2 (h.2 (by omega))), if_neg hneg]

/-- An integer of magnitude at most `2^53` is a `float64`. -/
theorem roundMagnitude_exact (n : Nat) (h : n ≤ 2 ^ 53) : roundMagnitude n 1 = (n : ℚ) := by
  by_cases hn : n = 0
  · subst hn; rw [roundMagnitude_zero]; simp
  · obtain ⟨hlo, hhi⟩ := log2Nat_spec n hn
    by_cases hL : log2Nat n < 52
    · exact roundMagnitude_small n hn hL
    · have hL2 : 52 ≤ log2Nat n := by omega
      rw [roundMagnitude_large n hn hL2]
      have hL3 : log2Nat n ≤ 53 := by
        by_contra hc
        have : 2 ^ 54 ≤ 2 ^ log2Nat n := two_pow_le_two_pow _ _ (by omega)
        omega
      congr 1
      have hcases : log2Nat n = 52 ∨ log2Nat n = 53 := by omega
      rcases hcases with e | e
      · rw [e]
        simp [roundHalfEven_one]
      · rw [e] at hlo hhi ⊢
        have hn53 : n = 2 ^ 53 := by omega
        subst hn53
        decide

theorem roundFloat64_natCast_exact (n : Nat) (h : n ≤ 2 ^ 53) :
    roundFloat64 (n : ℚ) = Float64.finite (n : ℚ) := by
  have h53 : (2 : Nat) ^ 53 < float64Overflow := by unfold float64Overflow; omega
  rw [roundFloat64_natCast, if_neg (by omega), roundMagnitude_exact n h]
/-! ## The Money Parser with `float64` values (C10) -/

theorem finiteOrErrRange_signed (negative : Bool) (mant : Nat) :
    finiteOrErrRange
        (if negative = true then float64Neg (roundFloat64 (mant : ℚ))
          else roundFloat64 (mant : ℚ)) =
      if float64Overflow ≤ mant then none
      else some (if negative = true then float64Neg (roundFloat64 (mant : ℚ))
        else roundFloat64 (mant : ℚ)) := by
  rw [roundFloat64_natCast]
  by_cases ho : float64Overflow ≤ mant
  · rw [if_pos ho, if_pos ho]
    cases negative <;> rfl
  · rw [if_neg ho, if_neg ho]
    cases negative
    · rfl
    · simp only [↓reduceIte, float64Neg]
      split <;> rfl

theorem parseDigits64_eq (negative : Bool) (body : List Char) :
    parseDigits64 negative body =
      (parseMantissa body).map
        (fun (mant : Nat) =>
          if negative = true then float64Neg (roundFloat64 (mant : ℚ))
          else roundFloat64 (mant : ℚ)) := by
  unfold parseDigits64 parseMantissa
  rcases hr : readDigits body 0 false with ⟨mant, saw, rest⟩
  simp only []
  rw [finiteOrErrRange_signed]
  by_cases hs : saw = true
  · by_cases he : rest.isEmpty = true
    · simp only [hs, he, Bool.not_true, Bool.false_eq_true, ↓reduceIte]
      by_cases ho : float64Overflow ≤ mant
      · rw [if_pos ho, if_pos ho]
        rfl
      · rw [if_neg ho, if_neg ho]
        rfl
    · simp [hs, he]
  · simp [hs]

theorem parseFloat64_eq_none_iff (s : String) : parseFloat64 s = none ↔ parseFloat s = none := by
  unfold parseFloat64 parseFloat
  split
  · rw [parseDigits64_eq]
    simp
  · rw [parseDigits64_eq]
    simp

theorem parseFloat64_eq_some (s : String) (h : IsSignedDecimal s.data)
    (hr : magnitude s.data < float64Overflow) :
    parseFloat64 s = some (float64OfDecimal s.data) := by
  unfold parseFloat64 float64OfDecimal
  split
  · rename_i rest hd
    rw [hd] at h hr
    have hm : parseMantissa rest = some (decimalValue rest) := by
      rw [parseMantissa_eq_some_iff]
      exact ⟨((isSignedDecimal_dash_iff rest).1 h).1, ((isSignedDecimal_dash_iff rest).1 h).2,
        hr, rfl⟩
    rw [parseDigits64_eq, hm]
    rfl
  · rename_i hnd
    have hnd2 : ∀ cs, s.data ≠ '-' :: cs := fun cs hcs => hnd cs hcs
    have hsd := (isSignedDecimal_iff_of_not_dash s.data hnd2).1 h
    rw [magnitude_of_not_dash s.data hnd2] at hr
    have hm : parseMantissa s.data = some (decimalValue s.data) := by
      rw [parseMantissa_eq_some_iff]
      exact ⟨hsd.1, hsd.2, hr, rfl⟩
    rw [parseDigits64_eq, hm]
    cases hdata : s.data with
    | nil => rfl
    | cons c cs =>
      by_cases hc : c = '-'
      · exact absurd (by rw [hdata, hc]) (hnd2 cs)
      · simp only [Option.map_some', Bool.false_eq_true, ↓reduceIte]

theorem parseSum64_eq_none_iff (cell : String) :
    parseSum64 cell = none ↔ parseSum cell = none := by
  unfold parseSum64 parseSum
  rw [Option.map_eq_none', Option.map_eq_none', parseFloat64_eq_none_iff]

theorem float64OfDecimal_finite (s : List Char) (hr : magnitude s < float64Overflow) :
    finiteOrErrRange (float64OfDecimal s) = some (float64OfDecimal s) := by
  have key : ∀ (negative : Bool) (mant : Nat), mant < float64Overflow →
      finiteOrErrRange
          (if negative = true then float64Neg (roundFloat64 (mant : ℚ))
            else roundFloat64 (mant : ℚ)) =
        some (if negative = true then float64Neg (roundFloat64 (mant : ℚ))
          else roundFloat64 (mant : ℚ)) := by
    intro negative mant hm
    rw [finiteOrErrRange_signed, if_neg (by omega)]
  unfold float64OfDecimal
  unfold magnitude at hr
  split
  · rename_i ds
    exact key true (decimalValue ds) hr
  · rename_i hnd
    have hr2 : decimalValue s < float64Overflow := by
      split at hr
      · rename_i ds
        exact absurd rfl (hnd ds)
      · exact hr
    exact key false (decimalValue s) hr2

/-- For a non-zero integer of magnitude at most `2^53` the conversion is exact. -/
theorem float64OfDecimal_exact (s : List Char) (h53 : magnitude s ≤ 2 ^ 53)
    (h0 : magnitude s ≠ 0) :
    float64OfDecimal s = Float64.finite (signedValue s : ℚ) := by
  unfold float64OfDecimal signedValue
  unfold magnitude at h53 h0
  split
  · rename_i ds
    simp only at h53 h0
    rw [roundFloat64_natCast_exact _ h53]
    unfold float64Neg
    have hne : ((decimalValue ds : Nat) : ℚ) ≠ 0 := Nat.cast_ne_zero.2 h0
    simp only [hne, ↓reduceIte]
    push_cast
    rfl
  · rename_i hnd
    have h53b : decimalValue s ≤ 2 ^ 53 := by
      split at h53
      · rename_i ds
        exact absurd rfl (hnd ds)
      · exact h53
    have e : signedValue s = (decimalValue s : Int) := by
      unfold signedValue
      split
      · rename_i ds
        exact absurd rfl (hnd ds)
      · rfl
    rw [roundFloat64_natCast_exact _ h53b]
    congr 1

/-- C10, counterexample to the claim as stated.  The cell of 310 digits `1000...0` filters
to itself, a valid signed integer, and its parse fails: the nearest `float64` is an
infinity and `strconv.ParseFloat` returns `ErrRange`.  The cell `9007199254740993`
(`2^53 + 1`) parses, but not to the integer divided by 100: `ParseFloat` rounds the integer
to `2^53`, and the quotient written is 90071992547409.92, neither the exact quotient nor
the `float64` nearest to it (90071992547409.94). -/
theorem parseSum64_counterexample :
    ¬ (parseSum64 hugeCell = none ↔ ¬ IsSignedDecimal (cleanSum hugeCell).data) ∧
      parseSum64 "9007199254740993" = some (Float64.finite (5764607523034235 / 64)) ∧
      (5764607523034235 / 64 : ℚ) ≠ 9007199254740993 / 100 ∧
      roundFloat64 (9007199254740993 / 100) = Float64.finite (1441151880758559 / 16) := by
  refine ⟨?_, by decide!, by norm_num, by decide!⟩
  intro h
  have hnone : parseSum64 hugeCell = none := by
    rw [parseSum64_eq_none_iff, parseSum_eq_none_iff, cleanSum_hugeCell]
    right
    have hm : magnitude hugeCell.data = 10 ^ 309 := magnitude_one_zeros 309
    rw [hm]
    exact float64Overflow_le
  have hsd : IsSignedDecimal (cleanSum hugeCell).data := by
    rw [cleanSum_hugeCell]
    exact isSignedDecimal_hugeCell
  exact (h.1 hnone) hsd

/-- C10, amended.  For every cell text the parse fails if and only if the filtered text (the
`-` and ASCII digit characters of the cell, in order) is not a valid base-10 signed integer
(an optional single leading `-`, then one or more digits) or its magnitude is at least
`2^1024 - 2^970`, where the nearest `float64` is an infinity.  In every other case it
succeeds: `ParseFloat` gives the `float64` nearest to the magnitude (ties to even) with
the sign of the text, a finite value, and the amount is that value divided by 100 in
`float64`; for a non-zero integer of magnitude at most `2^53` the conversion is exact and
the amount is the `float64` nearest to the integer divided by 100.  In particular the parse
fails on the empty cell, on a lone `-`, on a cell with no digit, and on a cell with a `-`
after a digit. -/
theorem parseSum64_fails_iff (cell : String) :
    (parseSum64 cell = none ↔
      ¬ IsSignedDecimal (cleanSum cell).data ∨
        float64Overflow ≤ magnitude (cleanSum cell).data) ∧
    (IsSignedDecimal (cleanSum cell).data →
      magnitude (cleanSum cell).data < float64Overflow →
        finiteOrErrRange (float64OfDecimal (cleanSum cell).data) =
          some (float64OfDecimal (cleanSum cell).data) ∧
        parseSum64 cell = some (float64Div100 (float64OfDecimal (cleanSum cell).data))) ∧
    (IsSignedDecimal (cleanSum cell).data →
      magnitude (cleanSum cell).data ≤ 2 ^ 53 → magnitude (cleanSum cell).data ≠ 0 →
        parseSum64 cell =
          some (roundFloat64 ((signedValue (cleanSum cell).data : ℚ) / 100))) ∧
    parseSum64 "" = none ∧ parseSum64 "-" = none ∧
    ((∀ c ∈ cell.data, isDigit c = false) → parseSum64 cell = none) ∧
    (∀ (a b e : List Char) (d : Char), isDigit d = true →
      cell.data = a ++ d :: (b ++ '-' :: e) → parseSum64 cell = none) := by
  have hsome : IsSignedDecimal (cleanSum cell).data →
      magnitude (cleanSum cell).data < float64Overflow →
        parseSum64 cell = some (float64Div100 (float64OfDecimal (cleanSum cell).data)) := by
    intro hsd hr
    unfold parseSum64
    rw [parseFloat64_eq_some _ hsd hr]
    rfl
  refine ⟨by rw [parseSum64_eq_none_iff]; exact parseSum_eq_none_iff cell, ?_, ?_,
    by decide, by decide, ?_, ?_⟩
  · intro hsd hr
    exact ⟨float64OfDecimal_finite _ hr, hsome hsd hr⟩
  · intro hsd h53 h0
    have hlt : (2 : Nat) ^ 53 < float64Overflow := by unfold float64Overflow; omega
    rw [hsome hsd (by omega), float64OfDecimal_exact _ h53 h0]
    rfl
  · intro hno
    rw [parseSum64_eq_none_iff, parseSum_eq_none_iff]
    left
    intro hsd
    obtain ⟨d, hd, hdig⟩ := isSignedDecimal_has_digit _ hsd
    have hd2 : d ∈ cell.data := (List.mem_filter.1 hd).1
    rw [hno d hd2] at hdig
    exact Bool.noConfusion hdig
  · intro a b e d hd hcell
    rw [parseSum64_eq_none_iff, parseSum_eq_none_iff]
    left
    intro hsd
    have hfilter : (cleanSum cell).data =
        (a.filter keepRune ++ d :: b.filter keepRune) ++ '-' :: e.filter keepRune := by
      unfold cleanSum
      simp only [hcell, List.filter_append, List.filter_cons, keepRune_of_isDigit d hd,
        keepRune_dash, ↓reduceIte, List.append_assoc, List.cons_append]
    have := isSignedDecimal_dash_front _ hsd _ _ hfilter
    simp at this

theorem parseSum64_fails_iff_witness :
    parseSum64 "12.50" = some (roundFloat64 (((1250 : Int) : ℚ) / 100)) ∧
      parseSum64 "12.50" = some (Float64.finite (25 / 2)) ∧
      parseSum64 "0,10 руб." = some (Float64.finite (3602879701896397 / 36028797018963968)) ∧
      parseSum64 "-0,10" = some (Float64.finite (-3602879701896397 / 36028797018963968)) ∧
      parseSum64 "0" = some (Float64.finite 0) ∧ parseSum64 "-0" = some Float64.negZero ∧
      parseSum64 "n/a" = none ∧ parseSum64 "12-5" = none := by
  have hsd : IsSignedDecimal (cleanSum "12.50").data :=
    ⟨['1', '2', '5', '0'], by decide, by decide, Or.inl (by decide)⟩
  have hmag : magnitude (cleanSum "12.50").data ≤ 2 ^ 53 := by decide
  have hnz : magnitude (cleanSum "12.50").data ≠ 0 := by decide
  refine ⟨?_, by decide!, by decide!, by decide!, by decide!, by decide!,
    (parseSum64_fails_iff "n/a").2.2.2.2.2.1 (by decide),
    (parseSum64_fails_iff "12-5").2.2.2.2.2.2 ['1'] [] ['5'] '2' (by decide) (by decide)⟩
  have := (parseSum64_fails_iff "12.50").2.2.1 hsd hmag hnz
  have hv : signedValue (cleanSum "12.50").data = 1250 := by decide
  rw [hv] at this
  exact this

/-! ## The Grouping Aggregator with `float64` amounts -/

theorem contribution64_eq_some (headers : List String) (row : List String)
    (c : String × String × Float64) (h : contribution64 headers row = some c) :
    headers.length ≤ row.length ∧ isNonReturn headers row = true ∧
      rowKey headers row = some c.1 ∧
      cellAt (colIndexes headers) row "Тип начисления" = some c.2.1 ∧
      rowAmount64 headers row = some c.2.2 := by
  unfold contribution64 at h
  split at h
  · rename_i hc
    split at h
    · rename_i id tipNach sum h1 h2 h3
      have hcc : (id, tipNach, sum) = c := Option.some.inj h
      subst hcc
      exact ⟨hc.1, hc.2, h1, h2, h3⟩
    · exact Option.noConfusion h
  · exact Option.noConfusion h

theorem contribution64_of_facts (headers : List String) (row : List String)
    (id tipNach : String) (sum : Float64)
    (hle : headers.length ≤ row.length) (hnr : isNonReturn headers row = true)
    (hk : rowKey headers row = some id)
    (ht : cellAt (colIndexes headers) row "Тип начисления" = some tipNach)
    (ha : rowAmount64 headers row = some sum) :
    contribution64 headers row = some (id, tipNach, sum) := by
  unfold contribution64
  rw [if_pos ⟨hle, hnr⟩, hk, ht, ha]

theorem contribution64_eq_none (headers : List String) (row : List String)
    (hreq : ∀ col ∈ groupRequired, col ∈ headers)
    (h : contribution64 headers row = none) :
    ¬ headers.length ≤ row.length ∨ isNonReturn headers row = false ∨
      rowAmount64 headers row = none := by
  by_cases hle : headers.length ≤ row.length
  · right
    cases hnr : isNonReturn headers row with
    | false => exact Or.inl rfl
    | true =>
      right
      cases ha : rowAmount64 headers row with
      | none => rfl
      | some sum =>
        have h2 := cellAt_eq_some_field headers row "ID начисления" (hreq _ (by decide)) hle
        have h3 := cellAt_eq_some_field headers row "Тип начисления" (hreq _ (by decide)) hle
        have hk : rowKey headers row = some (normalizeID (field headers row "ID начисления")) := by
          unfold rowKey
          rw [h2]
          rfl
        rw [contribution64_of_facts headers row _ _ sum hle hnr hk h3 ha] at h
        exact Option.noConfusion h
  · exact Or.inl hle

theorem groupStep64_eq (headers : List String) (hreq : ∀ col ∈ groupRequired, col ∈ headers)
    (mapping : List (String × GroupingSetting)) (groups : List (String × GroupData64))
    (row : List String) :
    groupStep64 headers (colIndexes headers) mapping groups row =
      some (groupRead64 headers mapping groups row) := by
  unfold groupStep64 groupRead64 contribution64
  by_cases hlen : row.length < headers.length
  · have hle : ¬ headers.length ≤ row.length := by omega
    simp [hlen, hle]
  · have hle : headers.length ≤ row.length := by omega
    have h1 := cellAt_eq_some_field headers row "Группа услуг" (hreq _ (by decide)) hle
    have h2 := cellAt_eq_some_field headers row "ID начисления" (hreq _ (by decide)) hle
    have h3 := cellAt_eq_some_field headers row "Тип начисления" (hreq _ (by decide)) hle
    have h4 := cellAt_eq_some_field headers row "Сумма итого, руб" (hreq _ (by decide)) hle
    unfold isNonReturn rowKey rowAmount64
    rw [if_neg hlen, h1, h2, h3, h4]
    by_cases hg : field headers row "Группа услуг" = "Возвраты"
    · simp [hg]
    · simp only [hg, ↓reduceIte, hle, ne_eq, not_false_eq_true, decide_True, and_self,
        Option.map_some', Option.some_bind]
      cases parseSum64 (field headers row "Сумма итого, руб") <;> rfl

theorem groupStep64_of_cells (headers row : List String)
    (mapping : List (String × GroupingSetting)) (groups : List (String × GroupData64))
    (id tipNach : String) (a : Float64)
    (hlen : headers.length ≤ row.length) (hnr : isNonReturn headers row = true)
    (hk : rowKey headers row = some id)
    (ht : cellAt (colIndexes headers) row "Тип начисления" = some tipNach)
    (ha : rowAmount64 headers row = some a) :
    groupStep64 headers (colIndexes headers) mapping groups row =
      some (accumulate64 mapping groups id tipNach a) := by
  unfold groupStep64
  rw [if_neg (by omega)]
  unfold isNonReturn at hnr
  unfold rowKey at hk
  unfold rowAmount64 at ha
  cases hg : cellAt (colIndexes headers) row "Группа услуг" with
  | none => rw [hg] at hnr; exact Bool.noConfusion hnr
  | some group =>
    rw [hg] at hnr
    have hne : ¬ group = "Возвраты" := by simpa using hnr
    cases hi : cellAt (colIndexes headers) row "ID начисления" with
    | none => rw [hi] at hk; exact Option.noConfusion hk
    | some rawID =>
      rw [hi] at hk
      have hid : normalizeID rawID = id := Option.some.inj hk
      cases hs : cellAt (colIndexes headers) row "Сумма итого, руб" with
      | none => rw [hs] at ha; exact Option.noConfusion ha
      | some sumStr =>
        rw [hs] at ha
        have hp : parseSum64 sumStr = some a := ha
        simp only [hne, ↓reduceIte, ht, hp, hid]

theorem valueAt64_accumulate64 (mapping : List (String × GroupingSetting))
    (groups : List (String × GroupData64)) (id tipNach : String) (sum : Float64)
    (k t : String) :
    valueAt64 (accumulate64 mapping groups id tipNach sum) k t =
      if id = k ∧ tipNach ≠ cancellation ∧ (resolve mapping tipNach).1 = t then
        float64Add (valueAt64 groups k t) sum
      else valueAt64 groups k t := by
  unfold valueAt64 accumulate64
  by_cases hk : id = k
  · subst hk
    by_cases hc : tipNach = cancellation
    · simp only [hc, ↓reduceIte, mapGet_mapSet_self, ne_eq, not_true_eq_false, false_and,
        and_false]
      cases mapGet groups id <;> rfl
    · simp only [hc, ↓reduceIte, mapGet_mapSet_self, ne_eq, not_false_eq_true, true_and]
      unfold columnValue64
      simp only [mapGet_mapSet]
      by_cases ht : (resolve mapping tipNach).1 = t
      · subst ht
        cases mapGet groups id <;> simp [mapGet]
      · cases mapGet groups id <;> simp [ht, mapGet]
  · by_cases hc : tipNach = cancellation
    · simp [hc, hk, mapGet_mapSet_ne _ _ _ _ hk]
    · simp [hc, hk, mapGet_mapSet_ne _ _ _ _ hk]

theorem otmenaAt64_accumulate64 (mapping : List (String × GroupingSetting))
    (groups : List (String × GroupData64)) (id tipNach : String) (sum : Float64)
    (k : String) :
    otmenaAt64 (accumulate64 mapping groups id tipNach sum) k =
      if id = k ∧ tipNach = cancellation then float64Add (otmenaAt64 groups k) sum
      else otmenaAt64 groups k := by
  unfold otmenaAt64 accumulate64
  by_cases hk : id = k
  · subst hk
    by_cases hc : tipNach = cancellation
    · simp only [hc, ↓reduceIte, mapGet_mapSet_self, and_self]
      cases mapGet groups id <;> rfl
    · simp only [hc, ↓reduceIte, mapGet_mapSet_self, and_false]
      cases mapGet groups id <;> rfl
  · by_cases hc : tipNach = cancellation
    · simp [hc, hk, mapGet_mapSet_ne _ _ _ _ hk]
    · simp [hc, hk, mapGet_mapSet_ne _ _ _ _ hk]

theorem vidAt64_accumulate64 (mapping : List (String × GroupingSetting))
    (groups : List (String × GroupData64)) (id tipNach : String) (sum : Float64)
    (k : String) :
    vidAt64 (accumulate64 mapping groups id tipNach sum) k =
      if id = k ∧ tipNach ≠ cancellation ∧ (resolve mapping tipNach).2 = true ∧
          float64NonZero sum = true then "Д"
      else vidAt64 groups k := by
  unfold vidAt64 accumulate64
  by_cases hk : id = k
  · subst hk
    by_cases hc : tipNach = cancellation
    · simp only [hc, ↓reduceIte, mapGet_mapSet_self, ne_eq, not_true_eq_false, false_and,
        and_false]
      cases mapGet groups id <;> rfl
    · simp only [hc, ↓reduceIte, mapGet_mapSet_self, ne_eq, not_false_eq_true, true_and]
      by_cases hf : (resolve mapping tipNach).2 = true ∧ float64NonZero sum = true
      · simp [hf]
      · simp only [hf, ↓reduceIte]
        cases mapGet groups id <;> rfl
  · by_cases hc : tipNach = cancellation
    · simp [hc, hk, mapGet_mapSet_ne _ _ _ _ hk]
    · simp [hc, hk, mapGet_mapSet_ne _ _ _ _ hk]

theorem wellKeyed64_mapSet (groups : List (String × GroupData64)) (id : String)
    (data : GroupData64) (h : WellKeyed64 groups) (hid : data.ID = id) :
    WellKeyed64 (mapSet groups id data) := by
  refine ⟨nodup_keys_mapSet _ _ _ h.1, ?_⟩
  intro p hp
  have hnd := nodup_keys_mapSet groups id data h.1
  have hget := mapGet_of_mem _ hnd p.1 p.2 hp
  rw [mapGet_mapSet] at hget
  split at hget
  · rename_i hk
    rw [← Option.some.inj hget, hid, hk]
  · exact h.2 p (mem_of_mapGet _ _ _ hget)

theorem wellKeyed64_accumulate64 (mapping : List (String × GroupingSetting))
    (groups : List (String × GroupData64)) (id tipNach : String) (sum : Float64)
    (h : WellKeyed64 groups) : WellKeyed64 (accumulate64 mapping groups id tipNach sum) := by
  unfold accumulate64
  cases hg : mapGet groups id with
  | none =>
    simp only []
    split
    · exact wellKeyed64_mapSet _ _ _ h rfl
    · exact wellKeyed64_mapSet _ _ _ h rfl
  | some d =>
    have hd : d.ID = id := h.2 (id, d) (mem_of_mapGet _ _ _ hg)
    simp only []
    split
    · exact wellKeyed64_mapSet _ _ _ h hd
    · exact wellKeyed64_mapSet _ _ _ h hd

theorem foldl_conditional {σ β ν μ : Type} (g : σ → β → σ) (q : σ → ν) (p : β → Bool)
    (a : β → μ) (add : ν → μ → ν)
    (h : ∀ s x, q (g s x) = if p x = true then add (q s) (a x) else q s) (l : List β) (s : σ) :
    q (l.foldl g s) = ((l.filter p).map a).foldl add (q s) := by
  induction l generalizing s with
  | nil => rfl
  | cons x l ih =>
    rw [List.foldl_cons, ih, h]
    by_cases hp : p x = true
    · rw [if_pos hp, List.filter_cons_of_pos hp, List.map_cons, List.foldl_cons]
    · rw [if_neg hp, List.filter_cons_of_neg hp]

/-- What a data row adds to the accumulator of key `k` in column `t`. -/
theorem valueAt64_groupRead64 (headers : List String)
    (hreq : ∀ col ∈ groupRequired, col ∈ headers) (settings : List GroupingSetting)
    (groups : List (String × GroupData64)) (row : List String) (k t : String) :
    valueAt64 (groupRead64 headers (columnMapping settings) groups row) k t =
      if (decide (headers.length ≤ row.length) &&
          isCategoryRow64 headers settings k t row) = true
        then float64Add (valueAt64 groups k t) (amount64 headers row)
        else valueAt64 groups k t := by
  unfold groupRead64
  cases hc : contribution64 headers row with
  | none =>
    have hcond : (decide (headers.length ≤ row.length) &&
        isCategoryRow64 headers settings k t row) = false := by
      rcases contribution64_eq_none headers row hreq hc with h | h | h
      · simp [h]
      · simp [isCategoryRow64, h]
      · simp [isCategoryRow64, h]
    simp [hcond]
  | some c =>
    obtain ⟨hle, hnr, hk, ht, ha⟩ := contribution64_eq_some headers row c hc
    simp only [valueAt64_accumulate64, resolve_columnMapping, amount64, ha, Option.getD_some]
    congr 1
    simp only [isCategoryRow64, hle, hnr, hk, ht, ha, decide_True, Bool.true_and,
      Option.isSome_some, Bool.and_true, Option.some.injEq, Bool.and_eq_true, decide_eq_true_eq]

/-- What a data row adds to the cancellation accumulator of key `k`. -/
theorem otmenaAt64_groupRead64 (headers : List String)
    (hreq : ∀ col ∈ groupRequired, col ∈ headers) (mapping : List (String × GroupingSetting))
    (groups : List (String × GroupData64)) (row : List String) (k : String) :
    otmenaAt64 (groupRead64 headers mapping groups row) k =
      if (decide (headers.length ≤ row.length) && isCancellationRow64 headers k row) = true
        then float64Add (otmenaAt64 groups k) (amount64 headers row)
        else otmenaAt64 groups k := by
  unfold groupRead64
  cases hc : contribution64 headers row with
  | none =>
    have hcond : (decide (headers.length ≤ row.length) &&
        isCancellationRow64 headers k row) = false := by
      rcases contribution64_eq_none headers row hreq hc with h | h | h
      · simp [h]
      · simp [isCancellationRow64, h]
      · simp [isCancellationRow64, h]
    simp [hcond]
  | some c =>
    obtain ⟨hle, hnr, hk, ht, ha⟩ := contribution64_eq_some headers row c hc
    simp only [otmenaAt64_accumulate64, amount64, ha, Option.getD_some]
    congr 1
    simp only [isCancellationRow64, hle, hnr, hk, ht, ha, decide_True, Bool.true_and,
      Option.isSome_some, Bool.and_true, Option.some.injEq, Bool.and_eq_true,
      decide_eq_true_eq]

theorem wellKeyed64_groupsOf64 (rows : List (List String)) (settings : List GroupingSetting) :
    WellKeyed64 (groupsOf64 rows settings) := by
  unfold groupsOf64
  suffices h : ∀ (l : List (List String)) (s : List (String × GroupData64)), WellKeyed64 s →
      WellKeyed64 (l.foldl (groupRead64 (headerRow rows) (columnMapping settings)) s) from
    h _ [] ⟨by simp, by simp⟩
  intro l
  induction l with
  | nil => intro s hs; exact hs
  | cons x l ih =>
    intro s hs
    apply ih
    unfold groupRead64
    cases contribution64 (headerRow rows) x with
    | none => exact hs
    | some c => exact wellKeyed64_accumulate64 _ _ _ _ _ hs

theorem valueAt64_groupsOf64 (rows : List (List String)) (settings : List GroupingSetting)
    (hreq : ∀ col ∈ groupRequired, col ∈ headerRow rows) (k t : String) :
    valueAt64 (groupsOf64 rows settings) k t =
      float64Total (amountsOf (headerRow rows)
        (isCategoryRow64 (headerRow rows) settings k t) (fullRows rows)) := by
  unfold groupsOf64
  rw [foldl_conditional (groupRead64 (headerRow rows) (columnMapping settings))
    (fun s => valueAt64 s k t) _ (amount64 (headerRow rows)) float64Add
    (fun s x => valueAt64_groupRead64 (headerRow rows) hreq settings s x k t),
    filter_fullRows]
  rfl

theorem otmenaAt64_groupsOf64 (rows : List (List String)) (settings : List GroupingSetting)
    (hreq : ∀ col ∈ groupRequired, col ∈ headerRow rows) (k : String) :
    otmenaAt64 (groupsOf64 rows settings) k =
      float64Total (amountsOf (headerRow rows)
        (isCancellationRow64 (headerRow rows) k) (fullRows rows)) := by
  unfold groupsOf64
  rw [foldl_conditional (groupRead64 (headerRow rows) (columnMapping settings))
    (fun s => otmenaAt64 s k) _ (amount64 (headerRow rows)) float64Add
    (fun s x => otmenaAt64_groupRead64 (headerRow rows) hreq (columnMapping settings) s x k),
    filter_fullRows]
  rfl

theorem groupRow64_eq (groups : List (String × GroupData64)) (hw : WellKeyed64 groups)
    (dynamic : List String) (p : String × GroupData64) (hp : p ∈ groups) :
    groupRow64 dynamic p.2 =
      [Cell64.text (vidAt64 groups p.1), Cell64.text p.1,
        Cell64.number (otmenaAt64 groups p.1)] ++
        dynamic.map (fun header => Cell64.number (valueAt64 groups p.1 header)) := by
  have hget : mapGet groups p.1 = some p.2 := mapGet_of_mem _ hw.1 p.1 p.2 hp
  unfold groupRow64 vidAt64 otmenaAt64 valueAt64
  rw [hget, hw.2 p hp]
/-! ## Pruning and the written table with `float64` amounts -/

theorem foldl_removeCol64 (cols : List Nat) (sheet : Table64) :
    cols.foldl removeCol64 sheet =
      Table64.mk (cols.foldl (fun acc c => acc.eraseIdx (c - 1)) sheet.header)
        (sheet.rows.map (fun r => cols.foldl (fun acc c => acc.eraseIdx (c - 1)) r)) := by
  induction cols generalizing sheet with
  | nil => simp
  | cons c cols ih =>
    rw [List.foldl_cons, ih]
    simp [removeCol64, List.map_map, Function.comp]

theorem getD_columnHasData64 (headers : List String) (groups : List (String × GroupData64))
    (c : Nat) :
    (mapGet (columnHasData64 headers groups) c).getD false =
      groups.any (fun p => (headers.drop 3).enum.any
        (fun q => float64NonZero (columnValue64 p.2 q.2) && decide (q.1 + 4 = c))) := by
  unfold columnHasData64
  generalize hinit : (List.range' 4 (headers.length - 3)).foldl
    (fun m col => mapSet m col false) ([] : List (Nat × Bool)) = init
  have h0 : (mapGet init c).getD false = false := by
    rw [← hinit]
    exact getD_foldl_set_false _ _ _ rfl
  suffices hgen : ∀ (gs : List (String × GroupData64)) (m : List (Nat × Bool)),
      (mapGet (gs.foldl (fun m p => (headers.drop 3).enum.foldl
          (fun m2 q => if float64NonZero (columnValue64 p.2 q.2) = true then
            mapSet m2 (q.1 + 4) true else m2) m) m) c).getD false =
        ((mapGet m c).getD false || gs.any (fun p => (headers.drop 3).enum.any
          (fun q => float64NonZero (columnValue64 p.2 q.2) && decide (q.1 + 4 = c)))) by
    rw [hgen groups init, h0, Bool.false_or]
  intro gs
  induction gs with
  | nil => intro m; simp
  | cons p gs ih =>
    intro m
    rw [List.foldl_cons, ih, List.any_cons]
    have hinner := getD_foldl_set_true (headers.drop 3).enum
      (fun q => float64NonZero (columnValue64 p.2 q.2)) (fun q => q.1 + 4) m c
    rw [hinner, Bool.or_assoc]

theorem prune64_eq (fixed dynamic : List String) (hfixed : fixed.length = 3)
    (groups : List (String × GroupData64)) :
    (colsToDelete (fixed ++ dynamic) (columnHasData64 (fixed ++ dynamic) groups)).foldl
        removeCol64
        (Table64.mk (fixed ++ dynamic) (groups.map (fun p => groupRow64 dynamic p.2))) =
      Table64.mk (fixed ++ dynamic.filter (hasData64 groups))
        (groups.map (fun p => groupRow64 (dynamic.filter (hasData64 groups)) p.2)) := by
  have hdrop : (fixed ++ dynamic).drop 3 = dynamic := by
    rw [← hfixed, List.drop_left]
  have hlen : (fixed ++ dynamic).length - 3 = dynamic.length := by
    rw [List.length_append, hfixed]; omega
  have hkeep : ∀ x ∈ dynamic.enumFrom 0,
      (fun c => (mapGet (columnHasData64 (fixed ++ dynamic) groups) c).getD false) (x.1 + 3 + 1)
        = hasData64 groups x.2 := by
    intro x hx
    obtain ⟨i, h⟩ := x
    simp only
    rw [getD_columnHasData64, hdrop]
    unfold hasData64
    congr 1
    funext p
    exact any_enumFrom_index dynamic 0 i h (fun y => float64NonZero (columnValue64 p.2 y)) hx
  have hcols : colsToDelete (fixed ++ dynamic) (columnHasData64 (fixed ++ dynamic) groups) =
      (List.range' (3 + 1) dynamic.length).reverse.filter
        (fun c => !((mapGet (columnHasData64 (fixed ++ dynamic) groups) c).getD false)) := by
    unfold colsToDelete
    rw [hlen]
  rw [foldl_removeCol64, hcols]
  congr 1
  · have h := erase_columns_eq
      (fun c => (mapGet (columnHasData64 (fixed ++ dynamic) groups) c).getD false)
      (hasData64 groups) dynamic hkeep fixed hfixed id
    simpa using h
  · simp only [List.map_map]
    apply List.map_congr_left
    intro p _
    exact erase_columns_eq
      (fun c => (mapGet (columnHasData64 (fixed ++ dynamic) groups) c).getD false)
      (hasData64 groups) dynamic hkeep
      [Cell64.text p.2.Vid, Cell64.text p.2.ID, Cell64.number p.2.Otmena] rfl
      (fun header => Cell64.number (columnValue64 p.2 header))

theorem groupSheet64_eq (rows : List (List String)) (settings : List GroupingSetting)
    (h3 : 3 ≤ rows.length) (hreq : ∀ col ∈ groupRequired, col ∈ headerRow rows) :
    groupSheet64 rows settings =
      Outcome.written
        (Table64.mk (["Вид", "ID начисления", "Отмена"] ++ dynamicColumns rows settings)
          ((groupsOf64 rows settings).map
            (fun p => groupRow64 (dynamicColumns rows settings) p.2)),
          groupsOf64 rows settings) := by
  unfold groupSheet64
  rw [if_neg (by omega)]
  simp only []
  have hfm : firstMissing (colIndexes (rows.getD 1 [])) groupRequired = none :=
    firstMissing_eq_none _ _ hreq
  have htypes : (rows.drop 2).foldlM (uniqueTypesStep (rows.getD 1 [])
      (colIndexes (rows.getD 1 []))) [] = some (typesOf rows) :=
    foldlM_eq_some_foldl _ (typesRead (rows.getD 1 [])) _ _
      (fun t x _ => uniqueTypesStep_eq _ hreq t x)
  have hgroups : (rows.drop 2).foldlM (groupStep64 (rows.getD 1 [])
      (colIndexes (rows.getD 1 [])) (columnMapping settings)) [] =
      some (groupsOf64 rows settings) :=
    foldlM_eq_some_foldl _ (groupRead64 (rows.getD 1 []) (columnMapping settings)) _ _
      (fun t x _ => groupStep64_eq _ hreq _ t x)
  rw [hfm]
  simp only [htypes, hgroups]
  rfl

theorem groupData64_eq (rows : List (List String)) (settings : List GroupingSetting)
    (h3 : 3 ≤ rows.length) (hreq : ∀ col ∈ groupRequired, col ∈ headerRow rows) :
    groupData64 rows settings =
      Outcome.written
        (Table64.mk (["Вид", "ID начисления", "Отмена"] ++ keptColumns64 rows settings)
          ((groupsOf64 rows settings).map
            (fun p => groupRow64 (keptColumns64 rows settings) p.2))) := by
  unfold groupData64
  rw [groupSheet64_eq rows settings h3 hreq]
  simp only []
  exact congrArg Outcome.written
    (prune64_eq ["Вид", "ID начисления", "Отмена"] (dynamicColumns rows settings) rfl
      (groupsOf64 rows settings))

/-! ## Accumulated values (C1) -/

/-- C1, counterexample to the claim as stated.  In `shortRowSheet` both data rows are not
returns, have key `A-1`, accrual type `Плата` and a parsing amount (1.00 and 2.00), so the
stated sum for the cell of `A-1` in column `Плата` is 3.00; the second row has fewer cells
than the header, the pass skips it, and the cell is 1.00.  In `centsSheet` the two rows of
key `A-1` have the amounts of 10 and 20 cents, whose sum is 0.30; the accumulator is a
`float64`, the two additions round, and the cell holds 0.30000000000000004, which is
neither 3/10 nor the `float64` nearest to 3/10. -/
theorem groupData64_counterexample :
    groupData64 shortRowSheet [] =
        Outcome.written (Table64.mk ["Вид", "ID начисления", "Отмена", "Плата"]
          [[Cell64.text "", Cell64.text "A-1", Cell64.number (Float64.finite 0),
            Cell64.number (Float64.finite 1)]]) ∧
      sumAmounts (headerRow shortRowSheet)
        (isCategoryRow (headerRow shortRowSheet) [] "A-1" "Плата") (dataRows shortRowSheet) = 3 ∧
      groupData64 centsSheet [] =
        Outcome.written (Table64.mk ["Вид", "ID начисления", "Отмена", "Плата"]
          [[Cell64.text "", Cell64.text "A-1", Cell64.number (Float64.finite 0),
            Cell64.number (Float64.finite (1351079888211149 / 4503599627370496))],
           [Cell64.text "", Cell64.text "B-2",
            Cell64.number (Float64.finite (1351079888211149 / 4503599627370496)),
            Cell64.number (Float64.finite 0)]]) ∧
      sumAmounts (headerRow centsSheet)
        (isCategoryRow (headerRow centsSheet) [] "A-1" "Плата") (dataRows centsSheet) = 3 / 10 ∧
      (1351079888211149 / 4503599627370496 : ℚ) ≠ 3 / 10 ∧
      roundFloat64 (3 / 10) = Float64.finite (5404319552844595 / 18014398509481984) ∧
      (1351079888211149 / 4503599627370496 : ℚ) ≠ 5404319552844595 / 18014398509481984 := by
  refine ⟨by decide!, by decide!, by decide!, by decide!, by norm_num, by decide!, by norm_num⟩

/-- C1, amended.  For every rule table and every source sheet that passes the header checks,
the pass writes a table, and for every row of it, with key `k`, and every dynamic column
`t` of its header, the cell of the row in column `t` is the `float64` total, accumulated
from 0 with `+=` in source order, of the parsed amounts of exactly those data rows that
have at least as many cells as the header row, whose category is not "Возвраты", whose
normalized identifier is `k`, whose accrual type is not the cancellation, whose amount
parses, and whose accrual type resolves to `t`; the cell is 0 when there is no such row.
A parsed amount is the `float64` nearest to the cleaned integer, divided by 100 in
`float64`. -/
theorem groupData64_cell_sum (rows : List (List String)) (settings : List GroupingSetting)
    (h3 : 3 ≤ rows.length) (hreq : ∀ col ∈ groupRequired, col ∈ headerRow rows) :
    ∃ T, groupData64 rows settings = Outcome.written T ∧
      T.header.take 3 = ["Вид", "ID начисления", "Отмена"] ∧
      ∀ r ∈ T.rows, ∃ k, r[1]? = some (Cell64.text k) ∧
        ∀ j t, 3 ≤ j → T.header[j]? = some t →
          r[j]? = some (Cell64.number (float64Total (amountsOf (headerRow rows)
            (isCategoryRow64 (headerRow rows) settings k t) (fullRows rows)))) ∧
          ((∀ row ∈ fullRows rows, isCategoryRow64 (headerRow rows) settings k t row = false) →
            r[j]? = some (Cell64.number (Float64.finite 0))) := by
  refine ⟨_, groupData64_eq rows settings h3 hreq, rfl, ?_⟩
  intro r hr
  simp only [List.mem_map] at hr
  obtain ⟨p, hp, hrow⟩ := hr
  have hw := wellKeyed64_groupsOf64 rows settings
  rw [groupRow64_eq _ hw _ p hp] at hrow
  refine ⟨p.1, by rw [← hrow]; rfl, ?_⟩
  intro j t hj ht
  have hcell : r[j]? = some (Cell64.number (valueAt64 (groupsOf64 rows settings) p.1 t)) := by
    rw [← hrow]
    exact getElem?_aligned ["Вид", "ID начисления", "Отмена"]
      [Cell64.text (vidAt64 (groupsOf64 rows settings) p.1), Cell64.text p.1,
        Cell64.number (otmenaAt64 (groupsOf64 rows settings) p.1)] rfl _
      (fun header => Cell64.number (valueAt64 (groupsOf64 rows settings) p.1 header)) j t hj ht
  rw [valueAt64_groupsOf64 rows settings hreq] at hcell
  refine ⟨hcell, ?_⟩
  intro hnone
  rw [hcell]
  have : (fullRows rows).filter (isCategoryRow64 (headerRow rows) settings p.1 t) = [] := by
    rw [List.filter_eq_nil_iff]
    intro row hrow2
    simp [hnone row hrow2]
  simp [amountsOf, float64Total, this]

theorem groupData64_cell_sum_witness :
    (∃ T, groupData64 centsSheet [] = Outcome.written T ∧
      T.header.take 3 = ["Вид", "ID начисления", "Отмена"] ∧
      ∀ r ∈ T.rows, ∃ k, r[1]? = some (Cell64.text k) ∧
        ∀ j t, 3 ≤ j → T.header[j]? = some t →
          r[j]? = some (Cell64.number (float64Total (amountsOf (headerRow centsSheet)
            (isCategoryRow64 (headerRow centsSheet) [] k t) (fullRows centsSheet)))) ∧
          ((∀ row ∈ fullRows centsSheet,
              isCategoryRow64 (headerRow centsSheet) [] k t row = false) →
            r[j]? = some (Cell64.number (Float64.finite 0)))) ∧
      amountsOf (headerRow centsSheet) (isCategoryRow64 (headerRow centsSheet) [] "A-1" "Плата")
          (fullRows centsSheet) =
        [Float64.finite (3602879701896397 / 36028797018963968),
         Float64.finite (3602879701896397 / 18014398509481984)] ∧
      float64Total [Float64.finite (3602879701896397 / 36028797018963968),
          Float64.finite (3602879701896397 / 18014398509481984)] =
        Float64.finite (1351079888211149 / 4503599627370496) :=
  ⟨groupData64_cell_sum centsSheet [] (by decide) (by decide), by decide!, by decide!⟩

/-! ## The cancellation (C3) -/

/-- C3, counterexample to the claim as stated.  The row `shortCancellationRow` is not a
return, its accrual type is exactly the cancellation label and its amount parses to 5.00,
but it has four cells under a header of five: the loop body skips it, and the cancellation
accumulator of its key `A-1` stays 0 instead of growing by 5.00.  In `centsSheet` the two
cancellation rows of key `B-2` have the amounts of 10 and 20 cents, whose sum is 0.30; the
cancellation cell holds the `float64` 0.30000000000000004. -/
theorem groupStep64_counterexample :
    isNonReturn wideHeader shortCancellationRow = true ∧
      rowKey wideHeader shortCancellationRow = some "A-1" ∧
      cellAt (colIndexes wideHeader) shortCancellationRow "Тип начисления" = some cancellation ∧
      rowAmount64 wideHeader shortCancellationRow = some (Float64.finite 5) ∧
      groupStep64 wideHeader (colIndexes wideHeader) [] [] shortCancellationRow = some [] ∧
      otmenaAt64 [] "A-1" ≠ float64Add (otmenaAt64 [] "A-1") (Float64.finite 5) ∧
      groupData64 centsSheet [] =
        Outcome.written (Table64.mk ["Вид", "ID начисления", "Отмена", "Плата"]
          [[Cell64.text "", Cell64.text "A-1", Cell64.number (Float64.finite 0),
            Cell64.number (Float64.finite (1351079888211149 / 4503599627370496))],
           [Cell64.text "", Cell64.text "B-2",
            Cell64.number (Float64.finite (1351079888211149 / 4503599627370496)),
            Cell64.number (Float64.finite 0)]]) ∧
      sumAmounts (headerRow centsSheet) (isCancellationRow (headerRow centsSheet) "B-2")
        (dataRows centsSheet) = 3 / 10 ∧
      (1351079888211149 / 4503599627370496 : ℚ) ≠ 3 / 10 := by
  refine ⟨by decide!, by decide!, by decide!, by decide!, by decide!, by decide!, by decide!,
    by decide!, by norm_num⟩

/-- C3, amended.  Processing a non-return data row that has at least as many cells as the
header row, whose accrual type is exactly the cancellation label and whose amount parses to
`a`, adds `a` with a `float64` `+=` to the cancellation accumulator of the row's normalized
key and leaves the cancellation accumulator of every other key, every category accumulator
of every key and every marker unchanged, whatever the rule table contains.  Consequently,
for a sheet that passes the header checks, the cancellation cell of the row of key `k` is
the `float64` total, accumulated from 0 in source order, of the amounts of the cancellation
rows of key `k` among the data rows that have at least as many cells as the header row. -/
theorem groupStep64_cancellation (headers row : List String)
    (mapping : List (String × GroupingSetting)) (groups : List (String × GroupData64))
    (id : String) (a : Float64)
    (hlen : headers.length ≤ row.length) (hnr : isNonReturn headers row = true)
    (hk : rowKey headers row = some id)
    (ht : cellAt (colIndexes headers) row "Тип начисления" = some cancellation)
    (ha : rowAmount64 headers row = some a)
    (rows : List (List String)) (settings : List GroupingSetting)
    (h3 : 3 ≤ rows.length) (hreq : ∀ col ∈ groupRequired, col ∈ headerRow rows) :
    (∃ groups2, groupStep64 headers (colIndexes headers) mapping groups row = some groups2 ∧
      otmenaAt64 groups2 id = float64Add (otmenaAt64 groups id) a ∧
      (∀ k, k ≠ id → otmenaAt64 groups2 k = otmenaAt64 groups k) ∧
      (∀ k t, valueAt64 groups2 k t = valueAt64 groups k t) ∧
      (∀ k, vidAt64 groups2 k = vidAt64 groups k)) ∧
    (∃ T, groupData64 rows settings = Outcome.written T ∧
      T.header.take 3 = ["Вид", "ID начисления", "Отмена"] ∧
      ∀ r ∈ T.rows, ∃ k, r[1]? = some (Cell64.text k) ∧
        r[2]? = some (Cell64.number (float64Total (amountsOf (headerRow rows)
          (isCancellationRow64 (headerRow rows) k) (fullRows rows))))) := by
  constructor
  · refine ⟨_, groupStep64_of_cells headers row mapping groups id cancellation a hlen hnr hk
      ht ha, ?_, ?_, ?_, ?_⟩
    · rw [otmenaAt64_accumulate64]
      simp
    · intro k hne
      rw [otmenaAt64_accumulate64]
      have : ¬ id = k := fun e => hne e.symm
      simp [this]
    · intro k t
      rw [valueAt64_accumulate64]
      simp
    · intro k
      rw [vidAt64_accumulate64]
      simp
  · refine ⟨_, groupData64_eq rows settings h3 hreq, rfl, ?_⟩
    intro r hr
    simp only [List.mem_map] at hr
    obtain ⟨p, hp, hrow⟩ := hr
    have hw := wellKeyed64_groupsOf64 rows settings
    rw [groupRow64_eq _ hw _ p hp] at hrow
    refine ⟨p.1, by rw [← hrow]; rfl, ?_⟩
    rw [← hrow, ← otmenaAt64_groupsOf64 rows settings hreq]
    simp

theorem groupStep64_cancellation_witness :
    ((∃ groups2, groupStep64 wideHeader (colIndexes wideHeader)
        (columnMapping cancellationRules) [] fullCancellationRow = some groups2 ∧
      otmenaAt64 groups2 "A-1" = float64Add (otmenaAt64 [] "A-1") (Float64.finite 5) ∧
      (∀ k, k ≠ "A-1" → otmenaAt64 groups2 k = otmenaAt64 [] k) ∧
      (∀ k t, valueAt64 groups2 k t = valueAt64 [] k t) ∧
      (∀ k, vidAt64 groups2 k = vidAt64 [] k)) ∧
    (∃ T, groupData64 cancellationSheet cancellationRules = Outcome.written T ∧
      T.header.take 3 = ["Вид", "ID начисления", "Отмена"] ∧
      ∀ r ∈ T.rows, ∃ k, r[1]? = some (Cell64.text k) ∧
        r[2]? = some (Cell64.number (float64Total (amountsOf (headerRow cancellationSheet)
          (isCancellationRow64 (headerRow cancellationSheet) k)
          (fullRows cancellationSheet)))))) ∧
    groupData64 cancellationSheet cancellationRules =
      Outcome.written (Table64.mk ["Вид", "ID начисления", "Отмена", "Плата"]
        [[Cell64.text "", Cell64.text "A-1", Cell64.number (Float64.finite 4),
          Cell64.number (Float64.finite (5 / 2))]]) :=
  ⟨groupStep64_cancellation wideHeader fullCancellationRow (columnMapping cancellationRules) []
    "A-1" (Float64.finite 5) (by decide) (by decide!) (by decide!) (by decide!) (by decide!)
    cancellationSheet cancellationRules (by decide) (by decide), by decide!⟩

/-! ## The Returns Extractor with `float64` amounts -/

theorem returnContribution64_eq_some (headers : List String) (row : List String)
    (c : String × Float64) (h : returnContribution64 headers row = some c) :
    headers.length ≤ row.length ∧
      cellAt (colIndexes headers) row "Группа услуг" = some "Возвраты" ∧
      rowKey headers row = some c.1 ∧ rowAmount64 headers row = some c.2 := by
  unfold returnContribution64 at h
  split at h
  · rename_i hc
    split at h
    · rename_i id sum h1 h2
      have hcc : (id, sum) = c := Option.some.inj h
      subst hcc
      exact ⟨hc.1, hc.2, h1, h2⟩
    · exact Option.noConfusion h
  · exact Option.noConfusion h

theorem returnContribution64_eq_none (headers : List String) (row : List String)
    (hreq : ∀ col ∈ returnsRequired, col ∈ headers)
    (h : returnContribution64 headers row = none) (k : String) :
    (decide (headers.length ≤ row.length) && isReturnRow64 headers k row) = false := by
  by_cases hle : headers.length ≤ row.length
  · have h2 := cellAt_eq_some_field headers row "ID начисления" (hreq _ (by decide)) hle
    have hk : rowKey headers row = some (normalizeID (field headers row "ID начисления")) := by
      unfold rowKey
      rw [h2]
      rfl
    by_cases hg : cellAt (colIndexes headers) row "Группа услуг" = some "Возвраты"
    · cases ha : rowAmount64 headers row with
      | none => simp [isReturnRow64, ha]
      | some sum =>
        unfold returnContribution64 at h
        rw [if_pos ⟨hle, hg⟩, hk, ha] at h
        exact Option.noConfusion h
    · simp [isReturnRow64, hg]
  · simp [hle]

theorem isReturnRow64_of_contribution (headers : List String) (row : List String)
    (c : String × Float64) (h : returnContribution64 headers row = some c) (k : String) :
    (decide (headers.length ≤ row.length) && isReturnRow64 headers k row) = decide (c.1 = k) := by
  obtain ⟨hle, hg, hk, ha⟩ := returnContribution64_eq_some headers row c h
  simp [isReturnRow64, hle, hg, hk, ha]

theorem returnsStep64_eq (headers : List String)
    (hreq : ∀ col ∈ returnsRequired, col ∈ headers)
    (returnsMap : List (String × ReturnData64)) (row : List String) :
    returnsStep64 headers (colIndexes headers) returnsMap row =
      some (returnsRead64 headers returnsMap row) := by
  unfold returnsStep64 returnsRead64 returnContribution64
  by_cases hlen : row.length < headers.length
  · have hle : ¬ headers.length ≤ row.length := by omega
    simp [hlen, hle]
  · have hle : headers.length ≤ row.length := by omega
    have h1 := cellAt_eq_some_field headers row "Группа услуг" (hreq _ (by decide)) hle
    have h2 := cellAt_eq_some_field headers row "ID начисления" (hreq _ (by decide)) hle
    have h4 := cellAt_eq_some_field headers row "Сумма итого, руб" (hreq _ (by decide)) hle
    unfold rowKey rowAmount64
    rw [if_neg hlen, h1, h2, h4]
    by_cases hg : field headers row "Группа услуг" = "Возвраты"
    · simp only [hg, ne_eq, not_true_eq_false, ↓reduceIte, hle, and_self, Option.map_some',
        Option.some_bind]
      cases parseSum64 (field headers row "Сумма итого, руб") with
      | none => rfl
      | some sum =>
        simp only
        cases mapGet returnsMap (normalizeID (field headers row "ID начисления")) <;> rfl
    · simp [hg]

/-- The running total of the first amount stored and the later ones added. -/
theorem foldl_running (l : List Float64) (a : Float64) :
    l.foldl (fun (o : Option Float64) (x : Float64) =>
        some (match o with
          | some s => float64Add s x
          | none => x)) (some a) =
      some (l.foldl float64Add a) := by
  induction l generalizing a with
  | nil => rfl
  | cons x l ih => rw [List.foldl_cons, List.foldl_cons]; exact ih _

theorem sumAt64_returnsRead64 (headers : List String)
    (hreq : ∀ col ∈ returnsRequired, col ∈ headers)
    (m : List (String × ReturnData64)) (row : List String) (k : String) :
    sumAt64 (returnsRead64 headers m row) k =
      if (decide (headers.length ≤ row.length) && isReturnRow64 headers k row) = true then
        some (match sumAt64 m k with
          | some s => float64Add s (amount64 headers row)
          | none => amount64 headers row)
      else sumAt64 m k := by
  unfold returnsRead64
  cases hc : returnContribution64 headers row with
  | none =>
    rw [returnContribution64_eq_none headers row hreq hc k]
    simp
  | some c =>
    rw [isReturnRow64_of_contribution headers row c hc k]
    obtain ⟨_, _, _, ha⟩ := returnContribution64_eq_some headers row c hc
    unfold sumAt64 amount64
    rw [ha]
    by_cases hid : c.1 = k
    · subst hid
      cases hg : mapGet m c.1 <;> simp [hg, mapGet_mapSet_self]
    · cases hg : mapGet m c.1 <;> simp [hg, mapGet_mapSet_ne _ _ _ _ hid, hid]

theorem sumAt64_returnsOf64 (rows : List (List String))
    (hreq : ∀ col ∈ returnsRequired, col ∈ headerRow rows) (k : String) :
    sumAt64 (returnsOf64 rows) k =
      match amountsOf (headerRow rows) (isReturnRow64 (headerRow rows) k) (fullRows rows) with
      | [] => none
      | a :: l => some (float64Running (a :: l)) := by
  unfold returnsOf64
  rw [foldl_conditional (returnsRead64 (headerRow rows)) (fun s => sumAt64 s k) _
    (amount64 (headerRow rows))
    (fun (o : Option Float64) (x : Float64) =>
      some (match o with
        | some s => float64Add s x
        | none => x))
    (fun s x => sumAt64_returnsRead64 (headerRow rows) hreq s x k), filter_fullRows]
  unfold amountsOf
  cases ((fullRows rows).filter (isReturnRow64 (headerRow rows) k)).map
      (amount64 (headerRow rows)) with
  | nil => rfl
  | cons a l =>
    simp only [List.foldl_cons, sumAt64, mapGet, Option.map_none']
    rw [foldl_running]
    rfl

theorem mem_keys_returnsOf64 (rows : List (List String))
    (hreq : ∀ col ∈ returnsRequired, col ∈ headerRow rows) (k : String) :
    k ∈ (returnsOf64 rows).map Prod.fst ↔
      ∃ row ∈ fullRows rows, isReturnRow64 (headerRow rows) k row = true := by
  rw [mem_keys_iff]
  have h := sumAt64_returnsOf64 rows hreq k
  unfold sumAt64 at h
  have hiff : (mapGet (returnsOf64 rows) k).isSome =
      ((mapGet (returnsOf64 rows) k).map (fun ret => ret.Sum)).isSome := by
    cases mapGet (returnsOf64 rows) k <;> rfl
  rw [hiff, h]
  unfold amountsOf
  cases hf : (fullRows rows).filter (isReturnRow64 (headerRow rows) k) with
  | nil =>
    simp only [List.map_nil, Option.isSome_none, Bool.false_eq_true, false_iff]
    rintro ⟨row, hrow, hr⟩
    have : row ∈ (fullRows rows).filter (isReturnRow64 (headerRow rows) k) :=
      List.mem_filter.2 ⟨hrow, hr⟩
    rw [hf] at this
    exact List.not_mem_nil _ this
  | cons a l =>
    simp only [List.map_cons, Option.isSome_some, true_iff]
    have : a ∈ (fullRows rows).filter (isReturnRow64 (headerRow rows) k) := by
      rw [hf]; exact List.mem_cons_self _ _
    exact ⟨a, (List.mem_filter.1 this).1, (List.mem_filter.1 this).2⟩

theorem wellKeyedReturns64_mapSet (headers : List String) (m : List (String × ReturnData64))
    (id : String) (ret : ReturnData64) (h : WellKeyedReturns64 headers m) (hid : ret.ID = id)
    (hfull : headers.length ≤ ret.FullData.length) :
    WellKeyedReturns64 headers (mapSet m id ret) := by
  refine ⟨nodup_keys_mapSet _ _ _ h.1, ?_⟩
  intro p hp
  have hnd := nodup_keys_mapSet m id ret h.1
  have hget := mapGet_of_mem _ hnd p.1 p.2 hp
  rw [mapGet_mapSet] at hget
  split at hget
  · rename_i hk
    rw [← Option.some.inj hget, hid, hk]
    exact ⟨rfl, hfull⟩
  · exact h.2 p (mem_of_mapGet _ _ _ hget)

theorem wellKeyedReturns64_returnsOf64 (rows : List (List String)) :
    WellKeyedReturns64 (headerRow rows) (returnsOf64 rows) := by
  unfold returnsOf64
  suffices h : ∀ (l : List (List String)) (s : List (String × ReturnData64)),
      WellKeyedReturns64 (headerRow rows) s →
      WellKeyedReturns64 (headerRow rows) (l.foldl (returnsRead64 (headerRow rows)) s) from
    h _ [] ⟨by simp, by simp⟩
  intro l
  induction l with
  | nil => intro s hs; exact hs
  | cons x l ih =>
    intro s hs
    apply ih
    unfold returnsRead64
    cases hc : returnContribution64 (headerRow rows) x with
    | none => exact hs
    | some c =>
      obtain ⟨hle, _, _, _⟩ := returnContribution64_eq_some _ _ c hc
      simp only []
      cases hg : mapGet s c.1 with
      | none => exact wellKeyedReturns64_mapSet _ s c.1 _ hs rfl hle
      | some existing =>
        have := hs.2 (c.1, existing) (mem_of_mapGet _ _ _ hg)
        exact wellKeyedReturns64_mapSet _ s c.1 _ hs this.1 this.2

theorem returnsCell64_eq (headers : List String) (ret : ReturnData64) (header : String)
    (hmem : header ∈ headers) (hfull : headers.length ≤ ret.FullData.length) :
    returnsCell64 (colIndexes headers) ret header =
      some (returnsCellRead64 headers ret header) := by
  unfold returnsCell64 returnsCellRead64
  by_cases h1 : header = "ID начисления"
  · simp [h1]
  · by_cases h2 : header = "Сумма итого, руб"
    · simp [h2]
    · rw [if_neg h1, if_neg h2, if_neg h1, if_neg h2]
      obtain ⟨i, hi, hi1, hi2⟩ := colIndexes_get headers header hmem
      have hcell := cellAt_eq_some_field headers ret.FullData header hmem hfull
      unfold cellAt at hcell
      have hlt : ((((mapGet (colIndexes headers) header).getD 0 : Nat) : Int) - 1) <
          (ret.FullData.length : Int) := by
        rw [hi]
        simp only [Option.getD_some]
        omega
      simp only [hlt, ↓reduceIte, hcell, Option.map_some']

theorem processReturns64_eq (rows : List (List String)) (h3 : 3 ≤ rows.length)
    (hreq : ∀ col ∈ returnsRequired, col ∈ headerRow rows) :
    processReturns64 rows =
      Outcome.written (Table64.mk (outputHeaders (headerRow rows))
        ((returnsOf64 rows).map
          (fun p => (outputHeaders (headerRow rows)).map
            (returnsCellRead64 (headerRow rows) p.2)))) := by
  unfold processReturns64
  rw [if_neg (by omega)]
  simp only []
  have hfm : firstMissing (colIndexes (rows.getD 1 [])) returnsRequired = none :=
    firstMissing_eq_none _ _ hreq
  have hfold : (rows.drop 2).foldlM (returnsStep64 (rows.getD 1 [])
      (colIndexes (rows.getD 1 []))) [] = some (returnsOf64 rows) :=
    foldlM_eq_some_foldl _ (returnsRead64 (rows.getD 1 [])) _ _
      (fun t x _ => returnsStep64_eq _ hreq t x)
  have hw := wellKeyedReturns64_returnsOf64 rows
  have hrows : (returnsOf64 rows).mapM
      (fun p => returnsRow64 (rows.getD 1 []) (colIndexes (rows.getD 1 [])) p.2) =
      some ((returnsOf64 rows).map
        (fun p => (outputHeaders (headerRow rows)).map
          (returnsCellRead64 (headerRow rows) p.2))) := by
    apply mapM_eq_some_map
    intro p hp
    unfold returnsRow64
    apply mapM_eq_some_map
    intro header hheader
    have hmem : header ∈ headerRow rows := (List.mem_filter.1 hheader).1
    exact returnsCell64_eq _ _ _ hmem (hw.2 p hp).2
  rw [hfm]
  simp only [hfold, hrows]
  rfl

theorem cellUnder64_map (header : List String) (f : String → Cell64) (name : String)
    (h : name ∈ header) : cellUnder64 header (header.map f) name = some (f name) := by
  unfold cellUnder64
  have hlt : header.indexOf name < header.length := List.indexOf_lt_length.2 h
  rw [List.getElem?_map, List.getElem?_eq_getElem hlt, List.getElem_indexOf hlt]
  rfl

theorem returnsRow64_cells (headers : List String)
    (hreq : ∀ col ∈ returnsRequired, col ∈ headers) (ret : ReturnData64) :
    cellUnder64 (outputHeaders headers)
        ((outputHeaders headers).map (returnsCellRead64 headers ret))
        "ID начисления" = some (Cell64.text ret.ID) ∧
      cellUnder64 (outputHeaders headers)
        ((outputHeaders headers).map (returnsCellRead64 headers ret))
        "Сумма итого, руб" = some (Cell64.number ret.Sum) := by
  have h1 : "ID начисления" ∈ outputHeaders headers :=
    List.mem_filter.2 ⟨hreq _ (by decide), by decide⟩
  have h2 : "Сумма итого, руб" ∈ outputHeaders headers :=
    List.mem_filter.2 ⟨hreq _ (by decide), by decide⟩
  rw [cellUnder64_map _ _ _ h1, cellUnder64_map _ _ _ h2]
  exact ⟨rfl, rfl⟩

/-! ## Keys and sums of the returns table (C2) -/

theorem fullRows_eq_dataRows (rows : List (List String))
    (hfull : ∀ row ∈ dataRows rows, (headerRow rows).length ≤ row.length) :
    fullRows rows = dataRows rows := by
  unfold fullRows
  rw [List.filter_eq_self]
  intro row hrow
  simpa using hfull row hrow

/-- C2, counterexample to the claim as stated.  The sheet `centsReturns` passes the header
checks and its two data rows have a cell for every header column, category "Возвраты", key
`A-1` and the amounts of 10 and 20 cents, whose sum is 0.30.  The record stores the first
amount and adds the second with a `float64` `+=`; the amount written is
0.30000000000000004, which is neither 3/10 nor the `float64` nearest to 3/10. -/
theorem processReturns64_counterexample :
    processReturns64 centsReturns =
        Outcome.written (Table64.mk ["ID начисления", "Группа услуг", "Сумма итого, руб"]
          [[Cell64.text "A-1", Cell64.text "Возвраты",
            Cell64.number (Float64.finite (1351079888211149 / 4503599627370496))]]) ∧
      (∀ row ∈ dataRows centsReturns, (headerRow centsReturns).length ≤ row.length) ∧
      sumAmounts (headerRow centsReturns) (isReturnRow (headerRow centsReturns) "A-1")
        (dataRows centsReturns) = 3 / 10 ∧
      (1351079888211149 / 4503599627370496 : ℚ) ≠ 3 / 10 ∧
      roundFloat64 (3 / 10) = Float64.finite (5404319552844595 / 18014398509481984) ∧
      (1351079888211149 / 4503599627370496 : ℚ) ≠ 5404319552844595 / 18014398509481984 := by
  refine ⟨by decide!, by decide, by decide!, by norm_num, by decide!, by norm_num⟩

/-- C2, amended.  Returns Extractor, keys and sums: for every source sheet that passes the
header checks and whose data rows all have a cell for every header column, the pass writes
a table that has exactly one row for each normalized identifier `k` among the data rows
with category "Возвраты" and a parsing amount, and no other row; the amount of the row of
`k` is the `float64` total of the parsed amounts of those rows with key `k`, accumulated in
source order: the first amount is stored and each later one is added with `+=`.  Rows of
another category give neither a row nor an amount. -/
theorem processReturns64_keys_sums (rows : List (List String)) (h3 : 3 ≤ rows.length)
    (hreq : ∀ col ∈ returnsRequired, col ∈ headerRow rows)
    (hfull : ∀ row ∈ dataRows rows, (headerRow rows).length ≤ row.length) :
    ∃ T, processReturns64 rows = Outcome.written T ∧
      (T.rows.map (fun r => cellUnder64 T.header r "ID начисления")).Nodup ∧
      (∀ k, (∃ r ∈ T.rows, cellUnder64 T.header r "ID начисления" = some (Cell64.text k)) ↔
        ∃ row ∈ dataRows rows, isReturnRow64 (headerRow rows) k row = true) ∧
      (∀ r ∈ T.rows, ∃ k, cellUnder64 T.header r "ID начисления" = some (Cell64.text k) ∧
        (∃ row ∈ dataRows rows, isReturnRow64 (headerRow rows) k row = true) ∧
        cellUnder64 T.header r "Сумма итого, руб" =
          some (Cell64.number (float64Running (amountsOf (headerRow rows)
            (isReturnRow64 (headerRow rows) k) (dataRows rows))))) := by
  have hw := wellKeyedReturns64_returnsOf64 rows
  refine ⟨_, processReturns64_eq rows h3 hreq, ?_, ?_, ?_⟩
  · have hmap : ((returnsOf64 rows).map
        (fun p => (outputHeaders (headerRow rows)).map
          (returnsCellRead64 (headerRow rows) p.2))).map
        (fun r => cellUnder64 (outputHeaders (headerRow rows)) r "ID начисления") =
        ((returnsOf64 rows).map Prod.fst).map (fun k => some (Cell64.text k)) := by
      rw [List.map_map, List.map_map]
      apply List.map_congr_left
      intro p hp
      simp only [Function.comp_apply]
      rw [(returnsRow64_cells (headerRow rows) hreq p.2).1, (hw.2 p hp).1]
    show (List.map _ (List.map _ (returnsOf64 rows))).Nodup
    rw [hmap]
    exact hw.1.map (fun a b h => Cell64.text.inj (Option.some.inj h))
  · intro k
    rw [← fullRows_eq_dataRows rows hfull, ← mem_keys_returnsOf64 rows hreq k]
    simp only [List.mem_map]
    constructor
    · rintro ⟨r, ⟨p, hp, rfl⟩, hcell⟩
      rw [(returnsRow64_cells (headerRow rows) hreq p.2).1, (hw.2 p hp).1] at hcell
      have : p.1 = k := Cell64.text.inj (Option.some.inj hcell)
      exact ⟨p, hp, this⟩
    · rintro ⟨p, hp, rfl⟩
      refine ⟨_, ⟨p, hp, rfl⟩, ?_⟩
      rw [(returnsRow64_cells (headerRow rows) hreq p.2).1, (hw.2 p hp).1]
  · intro r hr
    simp only [List.mem_map] at hr
    obtain ⟨p, hp, rfl⟩ := hr
    have hget : mapGet (returnsOf64 rows) p.1 = some p.2 := mapGet_of_mem _ hw.1 p.1 p.2 hp
    have hsum := sumAt64_returnsOf64 rows hreq p.1
    unfold sumAt64 at hsum
    rw [hget, fullRows_eq_dataRows rows hfull] at hsum
    refine ⟨p.1, ?_, ?_, ?_⟩
    · rw [(returnsRow64_cells (headerRow rows) hreq p.2).1, (hw.2 p hp).1]
    · rw [← fullRows_eq_dataRows rows hfull, ← mem_keys_returnsOf64 rows hreq p.1]
      exact List.mem_map.2 ⟨p, hp, rfl⟩
    · rw [(returnsRow64_cells (headerRow rows) hreq p.2).2]
      cases hl : amountsOf (headerRow rows) (isReturnRow64 (headerRow rows) p.1)
          (dataRows rows) with
      | nil => rw [hl] at hsum; exact Option.noConfusion hsum
      | cons a l =>
        rw [hl] at hsum
        simp only [Option.map_some', Option.some.injEq] at hsum
        rw [hsum]

theorem processReturns64_keys_sums_witness :
    (∃ T, processReturns64 returnsExample = Outcome.written T ∧
      (T.rows.map (fun r => cellUnder64 T.header r "ID начисления")).Nodup ∧
      (∀ k, (∃ r ∈ T.rows, cellUnder64 T.header r "ID начисления" = some (Cell64.text k)) ↔
        ∃ row ∈ dataRows returnsExample,
          isReturnRow64 (headerRow returnsExample) k row = true) ∧
      (∀ r ∈ T.rows, ∃ k, cellUnder64 T.header r "ID начисления" = some (Cell64.text k) ∧
        (∃ row ∈ dataRows returnsExample,
          isReturnRow64 (headerRow returnsExample) k row = true) ∧
        cellUnder64 T.header r "Сумма итого, руб" =
          some (Cell64.number (float64Running (amountsOf (headerRow returnsExample)
            (isReturnRow64 (headerRow returnsExample) k) (dataRows returnsExample)))))) ∧
    processReturns64 returnsExample =
      Outcome.written (Table64.mk ["ID начисления", "Группа услуг", "Сумма итого, руб"]
        [[Cell64.text "A-1", Cell64.text "Возвраты", Cell64.number (Float64.finite 1)]]) ∧
    amountsOf (headerRow returnsExample) (isReturnRow64 (headerRow returnsExample) "A-1")
        (dataRows returnsExample) = [Float64.finite (3 / 2), Float64.finite (-1 / 2)] ∧
    float64Running [Float64.finite (3 / 2), Float64.finite (-1 / 2)] = Float64.finite 1 :=
  ⟨processReturns64_keys_sums returnsExample (by decide) (by decide) (by decide), by decide!,
    by decide!, by decide!⟩

/-! ## The `float64` operations at concrete values -/

/-- The rounding to `float64` at concrete values: 1/10; the ties `2^53 + 1` (down to the even
neighbour) and `2^53 + 3` (up to the even neighbour); the largest finite value and the
first value that rounds to an infinity; the smallest subnormal value and the ties next to
it. -/
theorem roundFloat64_examples :
    roundFloat64 (1 / 10) = Float64.finite (3602879701896397 / 36028797018963968) ∧
      roundFloat64 (-1 / 10) = Float64.finite (-3602879701896397 / 36028797018963968) ∧
      roundFloat64 9007199254740993 = Float64.finite 9007199254740992 ∧
      roundFloat64 9007199254740995 = Float64.finite 9007199254740996 ∧
      roundFloat64 (2 ^ 1024 - 2 ^ 970 - 1) = Float64.finite (2 ^ 1024 - 2 ^ 971) ∧
      roundFloat64 (2 ^ 1024 - 2 ^ 970) = Float64.posInf ∧
      roundFloat64 (-(2 ^ 1024 - 2 ^ 970)) = Float64.negInf ∧
      roundFloat64 (1 / 2 ^ 1074) = Float64.finite (1 / 2 ^ 1074) ∧
      roundFloat64 (1 / 2 ^ 1075) = Float64.finite 0 ∧
      roundFloat64 (-1 / 2 ^ 1075) = Float64.negZero ∧
      roundFloat64 (3 / 2 ^ 1075) = Float64.finite (1 / 2 ^ 1073) := by
  refine ⟨by decide!, by decide!, by decide!, by decide!, by decide!, by decide!, by decide!,
    by decide!, by decide!, by decide!, by decide!⟩

/-- The operations on `float64` values at concrete values: overflow of a sum, sums with an
infinity, with NaN and with a signed zero, the quotient by 100 and the test `x != 0`. -/
theorem float64_examples :
    float64Add (Float64.finite (2 ^ 1024 - 2 ^ 971)) (Float64.finite (2 ^ 1024 - 2 ^ 971)) =
        Float64.posInf ∧
      float64Add Float64.posInf (Float64.finite (-1)) = Float64.posInf ∧
      float64Add (Float64.finite 1) Float64.negInf = Float64.negInf ∧
      float64Add Float64.posInf Float64.negInf = Float64.nan ∧
      float64Add Float64.nan (Float64.finite 1) = Float64.nan ∧
      float64Add Float64.negZero Float64.negZero = Float64.negZero ∧
      float64Add (Float64.finite 0) Float64.negZero = Float64.finite 0 ∧
      float64Add Float64.negZero (Float64.finite 0) = Float64.finite 0 ∧
      float64Add (Float64.finite 1) (Float64.finite (-1)) = Float64.finite 0 ∧
      float64Div100 (Float64.finite 10) = Float64.finite (3602879701896397 / 36028797018963968) ∧
      float64Div100 Float64.negZero = Float64.negZero ∧
      float64Div100 Float64.posInf = Float64.posInf ∧
      float64NonZero (Float64.finite 0) = false ∧ float64NonZero Float64.negZero = false ∧
      float64NonZero (Float64.finite (1 / 2 ^ 54)) = true ∧
      float64NonZero Float64.nan = true ∧ float64NonZero Float64.negInf = true ∧
      float64Neg (Float64.finite 0) = Float64.negZero ∧
      float64Neg Float64.negZero = Float64.finite 0 ∧
      float64Total [Float64.negZero] = Float64.finite 0 ∧
      float64Running [Float64.negZero] = Float64.negZero := by
  refine ⟨by decide!, by decide!, by decide!, by decide!, by decide!, by decide!, by decide!,
    by decide!, by decide!, by decide!, by decide!, by decide!, by decide!, by decide!,
    by decide!, by decide!, by decide!, by decide!, by decide!, by decide!, by decide!⟩

/-- The amounts of 10, 20 and -30 cents of one key and one column: their sum is 0, the
`float64` accumulator ends at `2^-54`, which is not 0, and the column is kept; with exact
amounts the column is removed. -/
theorem groupData64_residue_example :
    groupData64 residueSheet [] =
        Outcome.written (Table64.mk ["Вид", "ID начисления", "Отмена", "Плата"]
          [[Cell64.text "", Cell64.text "A-1", Cell64.number (Float64.finite 0),
            Cell64.number (Float64.finite (1 / 18014398509481984))]]) ∧
      groupData residueSheet [] =
        Outcome.written (Table.mk ["Вид", "ID начисления", "Отмена"]
          [[Cell.text "", Cell.text "A-1", Cell.number 0]]) := by
  refine ⟨by decide!, by decide!⟩

end Ozon
